import Mathlib

/-! The instance loop, the recipe interpreter, the saving stage, the path
normaliser, the fuzz and lift jobs, the checks of the stages and the
herd-style backends of act-tester.

A shallow embedding of `internal/director/instance.go` (the machine loop, its
passes and `Run`), `internal/model/plan/header.go` (plan version check),
`internal/stage/mach/interpreter/interpreter.go` (the recipe stack machine),
`internal/pkg/director/stage.go` and `pathset/scratch.go` (stages and scratch
paths), `internal/director/save.go` (the saving stage),
`internal/model/normaliser/normaliser.go` (path normalisation),
`internal/stage/fuzzer/fuzzer.go` with `internal/pkg/fuzzer/job.go` and
`config.go` (fuzzing, its checks, seeds and quantities),
`internal/controller/lifter/job.go` (lifting), `internal/view/err.go` (the
top-level error), `internal/serviceimpl/backend/herdstyle/herdstyle.go` with
`resolver.go` (backends), `internal/stage/mach/compiler/compiler.go` (the
compile stage), `internal/subject/corpus/merge.go` (merging corpora) and
`internal/coverage/maker.go` (the coverage maker), followed by the properties
proved about them.

Conventions.
* A Go `error` value is a `GoError`; a function returning `error` returns
  `Option GoError`, with `none` for `nil`.
* Calls that leave the program (the passes of the loop, the context, the
  compiler driver, the order in which `range` visits a map) are oracles that
  the definitions take as arguments.
* Machine integers are naturals reduced modulo their width where the code
  increments them.
-/

namespace ActTester

/-! ## Errors -/

/-- Go error values as the code builds them: `new msg` is `errors.New(msg)`;
`errorf pre e post` is `fmt.Errorf` applied to a format made of the literal
text `pre`, then the verb `%w` bound to `e`, then text that renders to `post`. -/
inductive GoError where
  | new (msg : String)
  | errorf (pre : String) (wrapped : GoError) (post : String)
  deriving DecidableEq, Repr

namespace GoError

/-- The method `Error()`: the message of an error. -/
def Error : GoError → String
  | new msg => msg
  | errorf pre e post => pre ++ e.Error ++ post

/-- The function `errors.Unwrap`. -/
def Unwrap : GoError → Option GoError
  | new _ => none
  | errorf _ e _ => some e

/-- The function `errors.Is e target`: `target` occurs in the chain of `e`. -/
def Is : GoError → GoError → Bool
  | new msg, target => decide (new msg = target)
  | errorf pre e post, target => decide (errorf pre e post = target) || e.Is target

end GoError

/-- The width of `uint64`. -/
def uint64Size : Nat := 2 ^ 64

/-- The width of `uint` (on the 64-bit platforms the tool is built for). -/
def uintSize : Nat := 2 ^ 64

/-! ## `internal/director/instance.go`: the main loop -/

/-- The constant `maxConsecutiveErrors`. -/
def maxConsecutiveErrors : Nat := 10

/-- The local variables `iter` and `nErrors` of `mainLoop`. -/
structure LoopState where
  iter : Nat
  nErrors : Nat
  deriving DecidableEq, Repr

/-- The error `mainLoop` builds when the counter passes the maximum. -/
def tooManyErrors (err : GoError) : GoError :=
  GoError.errorf "too many consecutive errors; last error was: " err ""

/-- One turn of the `for` loop of `mainLoop`. `passErr` is what `i.pass`
returned in this turn and `ctxErr` what `ctx.Err()` returns at the end of it.
The result is `Sum.inl e` when the loop returns `e`, and `Sum.inr s'` when it
goes round again with the variables `s'`. -/
def loopBody (passErr ctxErr : Option GoError) (s : LoopState) : GoError ⊕ LoopState :=
  match passErr with
  | some err =>
    let nErrors := (s.nErrors + 1) % uintSize
    if maxConsecutiveErrors < nErrors then
      Sum.inl (tooManyErrors err)
    else
      match ctxErr with
      | some e => Sum.inl e
      | none => Sum.inr ⟨(s.iter + 1) % uint64Size, nErrors⟩
  | none =>
    match ctxErr with
    | some e => Sum.inl e
    | none => Sum.inr ⟨(s.iter + 1) % uint64Size, 0⟩

/-- The loop of `mainLoop` from turn number `n` on, for at most `fuel` turns.
`pass n` is the outcome of the pass of turn `n`, `ctxErr n` the value of
`ctx.Err()` at the end of turn `n`. The result is `some e` when the loop
returns `e` within `fuel` turns and `none` when it is still running. -/
def mainLoopFrom (pass ctxErr : Nat → Option GoError) : Nat → Nat → LoopState → Option GoError
  | 0, _, _ => none
  | fuel + 1, n, s =>
    match loopBody (pass n) (ctxErr n) s with
    | Sum.inl e => some e
    | Sum.inr s' => mainLoopFrom pass ctxErr fuel (n + 1) s'

/-- The function `Instance.mainLoop`, run for at most `fuel` passes. -/
def mainLoop (pass ctxErr : Nat → Option GoError) (fuel : Nat) : Option GoError :=
  mainLoopFrom pass ctxErr fuel 0 ⟨0, 0⟩

/-- The variables of `mainLoop` after `n` turns that did not return
(`none` once the loop has returned). -/
def loopStateAfter (pass ctxErr : Nat → Option GoError) : Nat → Option LoopState
  | 0 => some ⟨0, 0⟩
  | n + 1 =>
    match loopStateAfter pass ctxErr n with
    | none => none
    | some s =>
      match loopBody (pass n) (ctxErr n) s with
      | Sum.inl _ => none
      | Sum.inr s' => some s'

/-- The number of passes that failed in a row just before turn `n`. -/
def failRun (pass : Nat → Option GoError) : Nat → Nat
  | 0 => 0
  | n + 1 => if (pass n).isSome then failRun pass n + 1 else 0

/-! ## `internal/model/plan/header.go`: the plan version -/

/-- The variable `ErrVersionMismatch`. -/
def ErrVersionMismatch : GoError := GoError.new "bad plan version"

/-- The type `Header` (the creation time is a number of nanoseconds). -/
structure Header where
  Creation : Nat
  Seed : Int
  Version : Nat
  deriving DecidableEq, Repr

/-- Modelled from the spec: the method `Version.IsCurrent`, whose declaration
is not among the sources. By the spec a plan is rejected when its version
is not the current version of the tool, `CurrentVer`, also not among the
sources and taken as an argument. -/
def Version.IsCurrent (CurrentVer : Nat) (v : Nat) : Bool := v == CurrentVer

/-- The method `Header.CheckVersion`. -/
def Header.CheckVersion (CurrentVer : Nat) (h : Header) : Option GoError :=
  if !Version.IsCurrent CurrentVer h.Version then
    some (GoError.errorf "" ErrVersionMismatch
      (": plan version: " ++ toString h.Version ++ "; tool version: " ++ toString CurrentVer))
  else
    none

/-- The error `Instance.pass` returns when the stage called `name` fails with `err`. -/
def inStageError (name : String) (err : GoError) : GoError :=
  GoError.errorf ("in " ++ name ++ " stage: ") err ""

/-! ## `internal/model/recipe/instruction.go`: instructions -/

/-- The constant `PopAll`. -/
def PopAll : Int := 0

/-- The opcodes that `instruction.go` and the interpreter name. The
declaration of the type is not among the sources; `Cat` and `RunExe` are the
opcodes the interpreter has no case for. -/
inductive Op where
  | Nop
  | PushInput
  | PushInputs
  | CompileObj
  | CompileExe
  | Cat
  | RunExe
  deriving DecidableEq, Repr

/-- File kinds (`filekind.Kind`), a type declared outside the sources. -/
abbrev Kind := Nat

/-- The type `Instruction`. -/
structure Instruction where
  Op : Op
  File : String
  FileKind : Kind
  NPops : Int
  deriving DecidableEq, Repr

/-- The instruction with the zero value in every argument. -/
def NopInst : Instruction := ⟨Op.Nop, "", 0, 0⟩

/-- The function `CompileExeInst`. -/
def CompileExeInst (npops : Int) : Instruction := ⟨Op.CompileExe, "", 0, npops⟩

/-- The function `CompileObjInst`. -/
def CompileObjInst (npops : Int) : Instruction := ⟨Op.CompileObj, "", 0, npops⟩

/-- The function `CatInst`. -/
def CatInst (npops : Int) : Instruction := ⟨Op.Cat, "", 0, npops⟩

/-- The function `PushInputInst`. -/
def PushInputInst (file : String) : Instruction := ⟨Op.PushInput, file, 0, 0⟩

/-- The function `PushInputsInst`. -/
def PushInputsInst (kind : Kind) : Instruction := ⟨Op.PushInputs, "", kind, 0⟩

/-! ## `internal/stage/mach/interpreter/interpreter.go`: the recipe interpreter -/

/-- The kinds of compile job, `compile.Obj` and `compile.Exe`. -/
inductive CompileKind where
  | Obj
  | Exe
  deriving DecidableEq, Repr

/-- A compiler configuration, known to the interpreter only as a value it
hands on to the driver. -/
abbrev CompilerConfig := String

/-- The job handed to the driver (`compile.Single`): what
`compile.New(compiler, out, files...).Single(kind)` holds. -/
structure Single where
  Kind : CompileKind
  Compiler : Option CompilerConfig
  In : List String
  Out : String
  deriving DecidableEq, Repr

/-- The part of `recipe.Recipe` the interpreter reads. -/
structure Recipe where
  Dir : String
  Instructions : List Instruction
  deriving DecidableEq, Repr

/-- The job of an interpreter (`compile.Recipe`). -/
structure RecipeJob where
  Compiler : Option CompilerConfig
  In : List String
  Out : String
  Recipe : Recipe
  deriving DecidableEq, Repr

/-- What the interpreter calls outside itself.
* `RunCompiler history j` is what the driver returns for job `j` when
  `history` lists the jobs it was given before.
* `rangeOrder n keys` is the order in which a `range` over a map with the
  keys `keys` visits them, when it is started by the `n`-th instruction
  executed; Go leaves the order open, and visits each key once.
* `pathJoin` is `path.Join` on two elements.
* `matchesKind file kind` is `filekind.GuessFromFile(file).Matches(kind)`.
* `quote` is the rendering of the verb `%q`, `opString` is `Op.String`. -/
structure Env where
  RunCompiler : List Single → Single → Option GoError
  rangeOrder : Nat → List String → List String
  rangeOrder_perm : ∀ n keys, (rangeOrder n keys).Perm keys
  pathJoin : String → String → String
  matchesKind : String → Kind → Bool
  quote : String → String
  opString : Op → String

/-- The state of an `Interpreter`. The driver is the oracle
`Env.RunCompiler`, and the writer `logw`, which only the driver writes to,
is left out. The map `inPool` is the list of its entries, one for each key.
The last three fields are not in the code: they
record what happened, `calls` the jobs given to the driver, `pushed` the
files `pushInputRaw` pushed, and `executed` the program counters of the
instructions given to `processInstruction`, each in order of time. -/
structure Interpreter where
  job : RecipeJob
  pc : Nat
  nobjs : Nat
  maxobjs : Nat
  inPool : List (String × Bool)
  fileStack : List String
  calls : List Single
  pushed : List String
  executed : List Nat
  deriving DecidableEq, Repr

/-- The variable `ErrCompilerConfigNil`. -/
def ErrCompilerConfigNil : GoError := GoError.new "compiler config nil"

/-- The variable `ErrBadOp`. -/
def ErrBadOp : GoError := GoError.new "bad opcode"

/-- The variable `ErrFileUnavailable`. -/
def ErrFileUnavailable : GoError := GoError.new "file not available"

/-- The variable `ErrObjOverflow`. -/
def ErrObjOverflow : GoError := GoError.new "object file count overflow"

/-- The constant `math.MaxUint64`. -/
def MaxUint64 : Nat := uint64Size - 1

/-- Reading a `map[string]bool`: a key that is absent reads as `false`. -/
def poolGet (pool : List (String × Bool)) (file : String) : Bool :=
  (pool.lookup file).getD false

/-- The keys of a map. -/
def poolKeys (pool : List (String × Bool)) : List String := pool.map Prod.fst

/-- Writing a `map[string]bool`: the entry of `file` gets the value `v`, and
is added when there is none. -/
def poolSet (pool : List (String × Bool)) (file : String) (v : Bool) : List (String × Bool) :=
  if file ∈ poolKeys pool then
    pool.map (fun kv => if kv.1 = file then (kv.1, v) else kv)
  else
    pool ++ [(file, v)]

/-- The function `initPool`. -/
def initPool (paths : List String) : List (String × Bool) :=
  paths.foldl (fun pool p => poolSet pool p true) []

/-- Modelled from the spec: the method `stack.push`, whose declaration is not
among the sources; the file becomes the top of the stack, which is the end
of the list, as in the `append` of `compileObj`. -/
def stackPush (s : List String) (file : String) : List String := s ++ [file]

/-- The number of files a pop of `npops` takes from a stack of `len` files. -/
def popCount (len : Nat) (npops : Int) : Nat :=
  if npops ≤ PopAll ∨ (len : Int) < npops then len else npops.toNat

/-- Modelled from the spec: the method `stack.pop`, whose declaration is not
among the sources. It pops `npops` files, or all of them if `npops` is
`PopAll`; `npops` is a maximum (`Instruction.NPops`), so a stack with fewer
files gives them all. The result is the files popped, bottom first, and
the stack that is left. -/
def stackPop (s : List String) (npops : Int) : List String × List String :=
  (s.drop (s.length - popCount s.length npops), s.take (s.length - popCount s.length npops))

/-- The function `NewInterpreter`, for a driver that is not nil (the oracle
`Env.RunCompiler`). Of the options, whose declarations are not among the
sources, `cap` is the object cap one of them sets, `none` when none does. -/
def NewInterpreter (j : RecipeJob) (cap : Option Nat) : Except GoError Interpreter :=
  match j.Compiler with
  | none => Except.error ErrCompilerConfigNil
  | some _ =>
    Except.ok
      { job := j, pc := 0, nobjs := 0,
        maxobjs := match cap with
          | none => MaxUint64
          | some m => m % uint64Size,
        inPool := initPool j.In, fileStack := [],
        calls := [], pushed := [], executed := [] }

/-- The method `pushInputRaw`. -/
def pushInputRaw (p : Interpreter) (file : String) : Interpreter :=
  { p with
    inPool := poolSet p.inPool file false,
    fileStack := stackPush p.fileStack file,
    pushed := p.pushed ++ [file] }

/-- The method `pushInput`. -/
def pushInput (env : Env) (p : Interpreter) (file : String) : Interpreter × Option GoError :=
  if !poolGet p.inPool file then
    (p, some (GoError.errorf "" ErrFileUnavailable (": " ++ env.quote file)))
  else
    (pushInputRaw p file, none)

/-- The body of the `range` loop of `pushInputs`, at the key `file`. -/
def pushInputsVisit (env : Env) (kind : Kind) (p : Interpreter) (file : String) : Interpreter :=
  if poolGet p.inPool file && env.matchesKind file kind then pushInputRaw p file else p

/-- The method `pushInputs`. -/
def pushInputs (env : Env) (p : Interpreter) (kind : Kind) : Interpreter × Option GoError :=
  ((env.rangeOrder p.executed.length (poolKeys p.inPool)).foldl (pushInputsVisit env kind) p, none)

/-- The method `freshObj`. -/
def freshObj (env : Env) (p : Interpreter) : Interpreter × Except GoError String :=
  if p.nobjs = p.maxobjs then
    (p, Except.error ErrObjOverflow)
  else
    let file := "obj_" ++ toString p.nobjs ++ ".o"
    ({ p with nobjs := (p.nobjs + 1) % uint64Size }, Except.ok (env.pathJoin p.job.Recipe.Dir file))

/-- The method `singleCompile`: the job, and the interpreter after the pop. -/
def singleCompile (p : Interpreter) (out : String) (kind : CompileKind) (npops : Int) :
    Interpreter × Single :=
  ({ p with fileStack := (stackPop p.fileStack npops).2 },
   ⟨kind, p.job.Compiler, (stackPop p.fileStack npops).1, out⟩)

/-- The method `compile`. -/
def compile (env : Env) (p : Interpreter) (out : String) (kind : CompileKind) (npops : Int) :
    Interpreter × Option GoError :=
  let (p1, j) := singleCompile p out kind npops
  ({ p1 with calls := p1.calls ++ [j] }, env.RunCompiler p1.calls j)

/-- The method `compileObj`. -/
def compileObj (env : Env) (p : Interpreter) (npops : Int) : Interpreter × Option GoError :=
  match freshObj env p with
  | (p1, Except.error err) => (p1, some err)
  | (p1, Except.ok n) =>
    match compile env p1 n CompileKind.Obj npops with
    | (p2, some err) => (p2, some err)
    | (p2, none) => ({ p2 with fileStack := p2.fileStack ++ [n] }, none)

/-- The method `compileExe`. -/
def compileExe (env : Env) (p : Interpreter) (npops : Int) : Interpreter × Option GoError :=
  compile env p p.job.Out CompileKind.Exe npops

/-- The method `processInstruction`. -/
def processInstruction (env : Env) (p : Interpreter) (i : Instruction) :
    Interpreter × Option GoError :=
  match i.Op with
  | Op.Nop => (p, none)
  | Op.PushInput => pushInput env p i.File
  | Op.PushInputs => pushInputs env p i.FileKind
  | Op.CompileObj => compileObj env p i.NPops
  | Op.CompileExe => compileExe env p i.NPops
  | op => (p, some (GoError.errorf "" ErrBadOp (": unknown instruction " ++ env.opString op)))

/-- One turn of the loop of `Interpret` at an instruction `i`: the
instruction is processed, and the program counter goes up if it gave no
error. -/
def interpretStep (env : Env) (p : Interpreter) (i : Instruction) : Interpreter × Option GoError :=
  match processInstruction env { p with executed := p.executed ++ [p.pc] } i with
  | (p1, some err) => (p1, some err)
  | (p1, none) => ({ p1 with pc := p1.pc + 1 }, none)

/-- The loop of `Interpret`, for at most `fuel` turns. The test `p.pc < ninst`
is the test that the list of instructions has an element at `p.pc`. -/
def interpretLoop (env : Env) : Nat → Interpreter → Interpreter × Option GoError
  | 0, p => (p, none)
  | fuel + 1, p =>
    match p.job.Recipe.Instructions[p.pc]? with
    | none => (p, none)
    | some i =>
      match interpretStep env p i with
      | (p1, some err) => (p1, some err)
      | (p1, none) => interpretLoop env fuel p1

/-- The method `Interpret`: the interpreter afterwards, and the error
returned. The loop runs once for each instruction from the program counter
on, which is as many turns as it can take. -/
def Interpret (env : Env) (p : Interpreter) : Interpreter × Option GoError :=
  interpretLoop env (p.job.Recipe.Instructions.length - p.pc) p

/-! ## Runs of the interpreter -/

/-- What a stretch of interpretation from `p` to `q` may do to the pool and
to the record of pushes: the files pushed in it are distinct, each was
available in `p` and is consumed in `q`, and what is consumed in `p` is
consumed in `q`. -/
def PushStep (p q : Interpreter) : Prop :=
  ∃ added : List String, q.pushed = p.pushed ++ added ∧ added.Nodup ∧
    (∀ f, f ∈ added → poolGet p.inPool f = true ∧ poolGet q.inPool f = false) ∧
    (∀ f, poolGet p.inPool f = false → poolGet q.inPool f = false)

/-- The interpreter after the calls of `Interpret` with the oracles `envs`,
one call after the other, whatever each call returns. -/
def InterpretMany (envs : List Env) (p : Interpreter) : Interpreter :=
  envs.foldl (fun q env => (Interpret env q).1) p

/-! ## Inputs used as examples -/

/-- The pass outcomes in which every pass fails with the same error. -/
def alwaysFailing : Nat → Option GoError := fun _ => some (GoError.new "lifter failed")

/-- The context that is never cancelled. -/
def neverCancelled : Nat → Option GoError := fun _ => none

/-- The error `context.Canceled` of the Go library. -/
def Canceled : GoError := GoError.new "context canceled"

/-- The context that is cancelled during turn `k` and stays so. -/
def cancelledFrom (k : Nat) : Nat → Option GoError :=
  fun n => if k ≤ n then some Canceled else none

/-- A header whose version, 20200101, is not the tool's, 20200601. -/
def oldHeader : Header := ⟨0, 1, 20200101⟩

/-- The error of a pass whose plan stage met `oldHeader`. -/
def versionMismatchError : GoError :=
  inStageError "plan" (GoError.errorf "" ErrVersionMismatch
    (": plan version: " ++ toString oldHeader.Version ++ "; tool version: " ++ toString 20200601))

/-- The pass outcomes in which the first pass fails with a version mismatch
and the later ones succeed. -/
def versionMismatchOnce : Nat → Option GoError :=
  fun n => if n = 0 then some versionMismatchError else none

/-- The kind number that stands for C sources in the examples. -/
def exampleCSrc : Kind := 1

/-- Oracles for the examples, around a driver: maps are visited in the order
of their entries, paths are joined with a slash, and the files of the kind
`exampleCSrc` are those whose names end in `.c`. -/
def exampleEnv (driver : List Single → Single → Option GoError) : Env :=
  { RunCompiler := driver
    rangeOrder := fun _ keys => keys
    rangeOrder_perm := fun _ keys => List.Perm.refl keys
    pathJoin := fun dir file => dir ++ "/" ++ file
    matchesKind := fun file kind => kind == exampleCSrc && (".c".toList).isSuffixOf file.toList
    quote := fun s => s.quote
    opString := fun _ => "Op" }

/-- The driver that never fails. -/
def driverOk : List Single → Single → Option GoError := fun _ _ => none

/-- The driver that fails the first job it is given and no other. -/
def driverFailsOnce : List Single → Single → Option GoError :=
  fun history _ => if history.isEmpty then some (GoError.new "exit status 1") else none

/-- The job of scenario 6 of the spec, in the directory `dir`. -/
def exampleJob : RecipeJob :=
  ⟨some "gcc", ["a.c", "b.c", "hdr.h"], "a.out",
    ⟨"dir", [PushInputsInst exampleCSrc, CompileObjInst PopAll, PushInputInst "hdr.h",
      CompileExeInst PopAll]⟩⟩

/-- The interpreter `NewInterpreter` makes for `exampleJob`. -/
def exampleStart : Interpreter :=
  { job := exampleJob, pc := 0, nobjs := 0, maxobjs := MaxUint64,
    inPool := [("a.c", true), ("b.c", true), ("hdr.h", true)], fileStack := [],
    calls := [], pushed := [], executed := [] }

/-- The interpreter of `exampleJob` after its first instruction, about to
execute `CompileObj`. -/
def exampleBeforeObj : Interpreter :=
  { exampleStart with
    pc := 1, inPool := [("a.c", false), ("b.c", false), ("hdr.h", true)],
    fileStack := ["a.c", "b.c"], pushed := ["a.c", "b.c"], executed := [0] }

/-- The recipe of scenario 6 of the spec, for the kind `cSrc` of C sources. -/
def scenarioRecipe (cSrc : Kind) : List Instruction :=
  [PushInputsInst cSrc, CompileObjInst PopAll, PushInputInst "hdr.h", CompileExeInst PopAll]

/-- The job of scenario 6 of the spec: the recipe `scenarioRecipe` in the
directory `dir`, over the inputs `a.c`, `b.c` and `hdr.h`. -/
def scenarioJob (comp : CompilerConfig) (cSrc : Kind) (dir out : String) : RecipeJob :=
  ⟨some comp, ["a.c", "b.c", "hdr.h"], out, ⟨dir, scenarioRecipe cSrc⟩⟩

/-! ## Subjects, corpora and plans -/

/-- The files of a fuzz run (`subject.Fuzz.Files`). -/
structure FuzzFileset where
  Litmus : String
  Trace : String
  deriving DecidableEq, Repr

/-- The part of `subject.Fuzz` that holds paths. -/
structure SubjectFuzz where
  Files : FuzzFileset
  deriving DecidableEq, Repr

/-- The files of a compile (`subject.CompileResult.Files`). -/
structure CompileFileset where
  Bin : String
  Log : String
  deriving DecidableEq, Repr

/-- The part of `subject.CompileResult` that holds paths. -/
structure CompileResult where
  Files : CompileFileset
  deriving DecidableEq, Repr

/-- A harness: the directory and files of a lifted recipe. -/
structure Harness where
  Dir : String
  Files : List String
  deriving DecidableEq, Repr

/-- The part of `subject.Subject` that holds paths. A pointer is an `Option`,
`none` for nil; a map is an `Option` of the list of its entries, `none` for
the nil map, in the order in which `range` visits them. -/
structure Subject where
  OrigLitmus : String
  Fuzz : Option SubjectFuzz
  Compiles : Option (List (String × CompileResult))
  Harnesses : Option (List (String × Harness))
  deriving DecidableEq, Repr

/-- A corpus, the map from names to subjects, as the list of its entries in
the order in which `range` visits them. -/
abbrev Corpus := List (String × Subject)

/-- The part of `plan.Plan` read here: its header and its corpus. -/
structure Plan where
  Header : Header
  Corpus : Corpus
  deriving DecidableEq, Repr

/-! ## `internal/pkg/director/stage.go`: stage configuration and stages -/

/-- Error variables that are declared outside the sources, `corpus.ErrNone`
and `iohelp.ErrPathsetNil`, taken as arguments. -/
structure ErrVars where
  ErrNone : GoError
  ErrPathsetNil : GoError
  deriving DecidableEq, Repr

/-- The variable `ErrStageConfigMissing`. -/
def ErrStageConfigMissing : GoError := GoError.new "stage config missing"

/-- The constant `StagePlan`. -/
def StagePlan : String := "plan"

/-- The constant `StageFuzz`. -/
def StageFuzz : String := "fuzz"

/-- The constant `StageLift`. -/
def StageLift : String := "lift"

/-- The type `StageConfig`. The three pointers are `none` when nil; what
they point to plays no part in `Check`. -/
structure StageConfig where
  InFiles : List String
  Plan : Option Unit
  Fuzz : Option Unit
  Lift : Option Unit
  deriving DecidableEq, Repr

/-- The method `StageConfig.Check`. -/
def StageConfig.Check (ev : ErrVars) (c : StageConfig) : Option GoError :=
  if c.InFiles.length = 0 then
    some (GoError.errorf "" ev.ErrNone ": no input files")
  else if c.Plan = none then
    some (GoError.errorf "" ErrStageConfigMissing (": " ++ StagePlan))
  else if c.Fuzz = none then
    some (GoError.errorf "" ErrStageConfigMissing (": " ++ StageFuzz))
  else if c.Lift = none then
    some (GoError.errorf "" ErrStageConfigMissing (": " ++ StageLift))
  else
    none

/-- The type `stage`. `Run p` is what the stage returns for the plan `p`
(`none` for the nil plan): a plan and an error. -/
structure Stage where
  Name : String
  Run : Option Plan → Option Plan × Option GoError

/-- The variable `Stages`, over what the three stage runners return:
`planner inFiles` for `c.Plan.Plan(ctx, c.InFiles)`, `fuzz p` for
`c.Fuzz.Run(ctx, p)` and `lift p` for `c.Lift.Run(ctx, p)`. -/
def Stages (planner : List String → Option Plan × Option GoError)
    (fuzz lift : Option Plan → Option Plan × Option GoError) (c : StageConfig) : List Stage :=
  [⟨StagePlan, fun _ => planner c.InFiles⟩, ⟨StageFuzz, fuzz⟩, ⟨StageLift, lift⟩]

/-! ## `internal/director/instance.go`: passes and `Run` -/

/-- What a pass does, in order of time: `ran name p` is the call of the
stage `name` with the plan `p`, `dumped name p` the call of `dump` with the
plan `p` after that stage. -/
inductive PassEvent where
  | ran (name : String) (given : Option Plan)
  | dumped (name : String) (p : Option Plan)
  deriving DecidableEq, Repr

/-- The error `Instance.pass` returns when the dump after the stage `name`
fails with `err`. -/
def dumpStageError (name : String) (err : GoError) : GoError :=
  GoError.errorf ("when dumping after " ++ name ++ " stage: ") err ""

/-- The loop of `Instance.pass` over the stages left, from the plan `p` and
the events `tr` so far. `dump name p` is what `i.dump(name, p)` returns. -/
def passLoop (dump : String → Option Plan → Option GoError) :
    List Stage → Option Plan → List PassEvent → List PassEvent × Option GoError
  | [], _, tr => (tr, none)
  | s :: rest, p, tr =>
    match s.Run p with
    | (_, some err) => (tr ++ [PassEvent.ran s.Name p], some (inStageError s.Name err))
    | (p1, none) =>
      match dump s.Name p1 with
      | some err =>
        (tr ++ [PassEvent.ran s.Name p, PassEvent.dumped s.Name p1],
          some (dumpStageError s.Name err))
      | none => passLoop dump rest p1 (tr ++ [PassEvent.ran s.Name p, PassEvent.dumped s.Name p1])

/-- The method `Instance.pass` over the list of stages: the events of the
pass and the error returned. The notice to the observers is left out. -/
def Instance.pass (stages : List Stage) (dump : String → Option Plan → Option GoError) :
    List PassEvent × Option GoError :=
  passLoop dump stages none []

/-- The plan that comes out of the stages `stages` run one after the other
from the plan `p`. -/
def planAfter (stages : List Stage) (p : Option Plan) : Option Plan :=
  stages.foldl (fun q s => (s.Run q).1) p

/-- Every stage of `stages`, run in order from the plan `p`, succeeds, and so
does the dump after it. -/
def AllStagesOk (dump : String → Option Plan → Option GoError) : List Stage → Option Plan → Prop
  | [], _ => True
  | s :: rest, p =>
    (s.Run p).2 = none ∧ dump s.Name (s.Run p).1 = none ∧ AllStagesOk dump rest (s.Run p).1

/-- The events of running every stage of `stages` in order from the plan `p`,
each followed by its dump. -/
def stageEvents : List Stage → Option Plan → List PassEvent
  | [], _ => []
  | s :: rest, p =>
    PassEvent.ran s.Name p :: PassEvent.dumped s.Name (s.Run p).1 :: stageEvents rest (s.Run p).1

/-- The part of the environment `Env` of an instance that `Run` tests. -/
structure InstanceEnv where
  Fuzzer : Option Unit
  Lifter : Option Unit
  deriving DecidableEq, Repr

/-- The part of `Instance` that `Run` reads before the loop. `ID` is the
string of the machine identifier. -/
structure Instance where
  ID : String
  InFiles : List String
  Env : Option InstanceEnv
  ScratchPaths : Option Unit
  deriving DecidableEq, Repr

/-- What `Run` calls outside the instance: `prepare` is what
`i.ScratchPaths.Prepare()` returns, `machNew` the error of `mach.New`,
`pass n` the outcome of pass `n` and `ctxErr n` the value of `ctx.Err()` at
the end of it. -/
structure RunOracles where
  prepare : Option GoError
  machNew : Option GoError
  pass : Nat → Option GoError
  ctxErr : Nat → Option GoError

/-- The method `Instance.check`. -/
def Instance.check (ev : ErrVars) (i : Instance) : Option GoError :=
  if i.ScratchPaths = none then
    some (GoError.errorf "" ev.ErrPathsetNil (": paths for machine " ++ i.ID))
  else if i.Env = none then
    some (GoError.new "no environment configuration")
  else
    none

/-- The method `Instance.makeStageConfig`, for an instance whose `Env` is
`env`. -/
def Instance.makeStageConfig (i : Instance) (env : InstanceEnv) (machNew : Option GoError) :
    Except GoError StageConfig :=
  if env.Fuzzer = none then
    Except.error (GoError.errorf "when making fuzzer config: "
      (GoError.new "no single fuzzer provided") "")
  else if env.Lifter = none then
    Except.error (GoError.errorf "when making lifter config: "
      (GoError.new "no single fuzzer provided") "")
  else
    match machNew with
    | some err => Except.error (GoError.errorf "when making machine-exec config: " err "")
    | none => Except.ok ⟨i.InFiles, some (), some (), some ()⟩

/-- The method `Instance.Run`, with the loop run for at most `fuel` passes:
`some e` when `Run` returns `e`, `none` when the loop is still running. -/
def Instance.Run (ev : ErrVars) (i : Instance) (o : RunOracles) (fuel : Nat) : Option GoError :=
  match i.check ev with
  | some err => some err
  | none =>
    match o.prepare with
    | some err => some err
    | none =>
      match i.Env with
      | none => some (GoError.new "no environment configuration")
      | some env =>
        match i.makeStageConfig env o.machNew with
        | Except.error err => some err
        | Except.ok sc =>
          match sc.Check ev with
          | some err => some err
          | none => mainLoop o.pass o.ctxErr fuel

/-! ## `internal/pkg/director/pathset/scratch.go`: scratch paths -/

/-- The function `strings.Join`. -/
def stringsJoin (elems : List String) (sep : String) : String := sep.intercalate elems

/-- The path segments `segFuzz`, `segLift`, `segPlan` and `segRun`, constants
declared outside the sources, taken as arguments. -/
structure ScratchSegs where
  segFuzz : String
  segLift : String
  segPlan : String
  segRun : String
  deriving DecidableEq, Repr

/-- The type `Scratch`. -/
structure Scratch where
  DirFuzz : String
  DirLift : String
  DirPlan : String
  DirRun : String
  deriving DecidableEq, Repr

/-- The function `NewScratch`; `join` is `filepath.Join` on two elements. -/
def NewScratch (join : String → String → String) (segs : ScratchSegs) (root : String) : Scratch :=
  { DirFuzz := join root segs.segFuzz
    DirLift := join root segs.segLift
    DirPlan := join root segs.segPlan
    DirRun := join root segs.segRun }

/-- The method `Scratch.PlanForStage`. -/
def Scratch.PlanForStage (join : String → String → String) (p : Scratch) (stage : String) :
    String :=
  join p.DirPlan (stringsJoin ["plan", stage, "toml"] ".")

/-! ## Inputs used as examples: the instance and its paths -/

/-- The function `filepath.Join` on two elements that are clean (without
dots and doubled separators) on a system whose separator is the slash: an
empty element is left out. -/
def joinClean (a b : String) : String :=
  if a = "" then b else if b = "" then a else a ++ "/" ++ b

/-- An instance with every part present and no input file. -/
def exampleInstanceNoFiles : Instance :=
  ⟨"localhost", [], some ⟨some (), some ()⟩, some ()⟩

/-- A plan with an empty corpus. -/
def examplePlan : Plan := ⟨⟨0, 1, 20200601⟩, []⟩

/-- Stages of which the first returns `examplePlan`, the second fails, and
the third would succeed. -/
def exampleStages : List Stage :=
  Stages (fun _ => (some examplePlan, none))
    (fun _ => (none, some (GoError.new "fuzzer failed")))
    (fun p => (p, none))
    ⟨["a.litmus"], some (), some (), some ()⟩

/-- The dump that never fails. -/
def dumpOk : String → Option Plan → Option GoError := fun _ _ => none

/-! ## `internal/model/normaliser/normaliser.go`: normalising the paths of a subject -/

/-- Locations of files (`filekind.Loc`), a type declared outside the sources. -/
abbrev Loc := Nat

/-- The variable `ErrCollision`. -/
def ErrCollision : GoError := GoError.new "path already mapped by normaliser"

/-- The type `Entry` of the values of `Mappings`. -/
structure Entry where
  Original : String
  Kind : Kind
  Loc : Loc
  deriving DecidableEq, Repr

/-- What the normaliser takes from outside the sources: `join` is `path.Join`
on a list of elements, `quote` the rendering of the verb `%q`,
`GuessFromFile` is `filekind.GuessFromFile` and `HarnessDir` the function of
that name; the other fields are the constants of those names for file names,
kinds (`filekind.Litmus` and so on) and locations. -/
structure NormEnv where
  join : List String → String
  quote : String → String
  GuessFromFile : String → Kind
  HarnessDir : String → String → String
  FileOrigLitmus : String
  FileFuzzLitmus : String
  FileFuzzTrace : String
  DirCompiles : String
  FileBin : String
  FileCompileLog : String
  KindLitmus : Kind
  KindTrace : Kind
  KindBin : Kind
  KindLog : Kind
  InOrig : Loc
  InFuzz : Loc
  InCompile : Loc
  InHarness : Loc

/-- The type `Normaliser`. The map `Mappings` is the list of its entries in
the order in which they were added. -/
structure Normaliser where
  root : String
  err : Option GoError
  Mappings : List (String × Entry)
  deriving DecidableEq, Repr

/-- The function `New`. -/
def Normaliser.New (root : String) : Normaliser := ⟨root, none, []⟩

/-- The keys of `Mappings`, the normalised paths. -/
def Normaliser.keys (n : Normaliser) : List String := n.Mappings.map Prod.fst

/-- The method `add`: the normaliser afterwards, and the path returned. -/
def Normaliser.add (env : NormEnv) (n : Normaliser) (opath npath : String) (k : Kind) (l : Loc) :
    Normaliser × String :=
  if npath ∈ n.keys then
    ({ n with err := some (GoError.errorf "" ErrCollision (": " ++ env.quote npath)) }, npath)
  else
    ({ n with Mappings := n.Mappings ++ [(npath, ⟨opath, k, l⟩)] }, npath)

/-- The method `replaceAndAdd`. -/
def Normaliser.replaceAndAdd (env : NormEnv) (n : Normaliser) (opath : String) (k : Kind)
    (l : Loc) (segs : List String) : Normaliser × String :=
  if n.err ≠ none ∨ opath = "" then
    (n, "")
  else
    n.add env opath (env.join [n.root, env.join segs]) k l

/-- The method `fuzz`. -/
def Normaliser.fuzz (env : NormEnv) (n : Normaliser) (fz : Option SubjectFuzz) :
    Normaliser × Option SubjectFuzz :=
  match fz with
  | none => (n, none)
  | some f =>
    let r1 := n.replaceAndAdd env f.Files.Litmus env.KindLitmus env.InFuzz [env.FileFuzzLitmus]
    let r2 := r1.1.replaceAndAdd env f.Files.Trace env.KindTrace env.InFuzz [env.FileFuzzTrace]
    (r2.1, some { f with Files := { Litmus := r1.2, Trace := r2.2 } })

/-- Modelled from the spec: the method `Recipe.Paths`, whose declaration is
not among the sources. By the spec the files of a recipe live under its
directory: the paths are the files joined to the directory. -/
def Harness.Paths (env : NormEnv) (h : Harness) : List String :=
  h.Files.map (fun f => env.join [h.Dir, f])

/-- The method `harness`: the paths of the harness under its new directory
are added one by one, each as a mapping from its old path. -/
def Normaliser.harness (env : NormEnv) (n : Normaliser) (archstr : String) (h : Harness) :
    Normaliser × Harness :=
  (((h.Paths env).zip (Harness.Paths env { h with Dir := env.HarnessDir n.root archstr })).foldl
      (fun m pr => (m.add env pr.1 pr.2 (env.GuessFromFile pr.2) env.InHarness).1) n,
    { h with Dir := env.HarnessDir n.root archstr })

/-- The loop of `harnesses` over the entries of the map. -/
def Normaliser.harnessesLoop (env : NormEnv) :
    List (String × Harness) → Normaliser → List (String × Harness) →
      Normaliser × List (String × Harness)
  | [], n, nhs => (n, nhs)
  | (archstr, h) :: rest, n, nhs =>
    Normaliser.harnessesLoop env rest (n.harness env archstr h).1
      (nhs ++ [(archstr, (n.harness env archstr h).2)])

/-- The method `harnesses`. -/
def Normaliser.harnesses (env : NormEnv) (n : Normaliser)
    (hs : Option (List (String × Harness))) :
    Normaliser × Option (List (String × Harness)) :=
  match hs with
  | none => (n, none)
  | some l => ((Normaliser.harnessesLoop env l n []).1, some (Normaliser.harnessesLoop env l n []).2)

/-- The method `compile`. -/
def Normaliser.compile (env : NormEnv) (n : Normaliser) (cidstr : String) (c : CompileResult) :
    Normaliser × CompileResult :=
  let r1 := n.replaceAndAdd env c.Files.Bin env.KindBin env.InCompile
    [env.DirCompiles, cidstr, env.FileBin]
  let r2 := r1.1.replaceAndAdd env c.Files.Log env.KindLog env.InCompile
    [env.DirCompiles, cidstr, env.FileCompileLog]
  (r2.1, { c with Files := { Bin := r1.2, Log := r2.2 } })

/-- The loop of `compiles` over the entries of the map. -/
def Normaliser.compilesLoop (env : NormEnv) :
    List (String × CompileResult) → Normaliser → List (String × CompileResult) →
      Normaliser × List (String × CompileResult)
  | [], n, ncs => (n, ncs)
  | (cidstr, c) :: rest, n, ncs =>
    Normaliser.compilesLoop env rest (n.compile env cidstr c).1
      (ncs ++ [(cidstr, (n.compile env cidstr c).2)])

/-- The method `compiles`. -/
def Normaliser.compiles (env : NormEnv) (n : Normaliser)
    (cs : Option (List (String × CompileResult))) :
    Normaliser × Option (List (String × CompileResult)) :=
  match cs with
  | none => (n, none)
  | some l => ((Normaliser.compilesLoop env l n []).1, some (Normaliser.compilesLoop env l n []).2)

/-- The method `Normalise`: the normaliser afterwards, the subject returned
and the error returned. -/
def Normaliser.Normalise (env : NormEnv) (n : Normaliser) (s : Subject) :
    Normaliser × Subject × Option GoError :=
  let n0 : Normaliser := { n with err := none }
  let r1 := n0.replaceAndAdd env s.OrigLitmus env.KindLitmus env.InOrig [env.FileOrigLitmus]
  let r2 := r1.1.fuzz env s.Fuzz
  let r3 := r2.1.compiles env s.Compiles
  let r4 := r3.1.harnesses env s.Harnesses
  (r4.1, { OrigLitmus := r1.2, Fuzz := r2.2, Compiles := r3.2, Harnesses := r4.2 }, r4.1.err)

/-- The paths of a subject that `Normalise` hands to `replaceAndAdd`, in the
order in which it handles them: the original litmus file, the fuzzed litmus
file and its trace, and the binary and log of each compile. -/
def Subject.checkedFiles (s : Subject) : List String :=
  s.OrigLitmus ::
    ((match s.Fuzz with
      | none => []
      | some f => [f.Files.Litmus, f.Files.Trace]) ++
     (match s.Compiles with
      | none => []
      | some cs => cs.flatMap (fun c => [c.2.Files.Bin, c.2.Files.Log])))

/-- The paths of the harness files of a subject, in the order in which
`Normalise` handles them. -/
def Subject.harnessFiles (env : NormEnv) (s : Subject) : List String :=
  match s.Harnesses with
  | none => []
  | some hs => hs.flatMap (fun h => h.2.Paths env)

/-- What a stretch of normalisation from `n` to `m` does when it handles the
original paths `origs`: the root stays, an error stays an error, every new
error is a collision, distinct keys stay distinct, and when there is no
error at the end the mappings have grown by one entry for each of `origs`,
in order. -/
def NormStep (n m : Normaliser) (origs : List String) : Prop :=
  m.root = n.root ∧
  (n.err ≠ none → m.err ≠ none) ∧
  (∀ e, m.err = some e → n.err = some e ∨ e.Is ErrCollision = true) ∧
  (n.keys.Nodup → m.keys.Nodup) ∧
  (m.err = none →
    ∃ added : List (String × Entry),
      m.Mappings = n.Mappings ++ added ∧ added.map (fun kv => kv.2.Original) = origs)

/-! ## Inputs used as examples: the normaliser -/

/-- The function `path.Join` on elements that are clean (without dots and
doubled slashes): the elements that are not empty, with slashes between
them. -/
def joinCleanList (elems : List String) : String :=
  "/".intercalate (elems.filter (fun e => e ≠ ""))

/-- Names, kinds and locations for the examples. -/
def exampleNormEnv : NormEnv :=
  { join := joinCleanList
    quote := fun s => s.quote
    GuessFromFile := fun _ => 0
    HarnessDir := fun root arch => joinCleanList [root, "harness", arch]
    FileOrigLitmus := "orig.litmus"
    FileFuzzLitmus := "fuzz.litmus"
    FileFuzzTrace := "fuzz.trace"
    DirCompiles := "compiles"
    FileBin := "a.out"
    FileCompileLog := "compile.log"
    KindLitmus := 1
    KindTrace := 2
    KindBin := 3
    KindLog := 4
    InOrig := 1
    InFuzz := 2
    InCompile := 3
    InHarness := 4 }

/-- A subject with no file but one harness file, whose path is empty. -/
def exampleSubjectEmptyHarness : Subject :=
  ⟨"", none, none, some [("x86", ⟨"", [""]⟩)]⟩

/-- A subject with an original file, a fuzzed file without trace, one
compile without log and a harness of two files. -/
def exampleSubject : Subject :=
  ⟨"in/foo.litmus", some ⟨⟨"fuzz/foo_1.litmus", ""⟩⟩,
    some [("gcc", ⟨⟨"run/gcc/foo_1/a.out", ""⟩⟩)],
    some [("x86", ⟨"lift/x86/foo_1", ["run.c", "utils.c"]⟩)]⟩

/-! ## `internal/director/save.go`: saving subjects -/

/-- Statuses of subjects (`subject.Status`), a numeric type declared outside
the sources. -/
abbrev Status := Nat

/-- The variable `os.ErrNotExist` of the Go library. An error matches it when
it is in the chain of the error. -/
def ErrNotExist : GoError := GoError.new "file does not exist"

/-- What the saving stage does to the world outside it, each with the
arguments that matter here.
* `prepare` is `s.Paths.Prepare()`, `mkdir dir` is `yos.MakeDir(dir)`.
* `create path` is `os.Create(path)`, `dumpPlan path` is `p.Dump(f)` for the
  file `f` created at `path`, and `closeFile path` is `f.Close()` for it.
* `stat rpath` is `os.Stat(rpath)`, `fileInfoHeader rpath` is
  `tar.FileInfoHeader` on its result, `writeHeader wpath` is
  `tarw.WriteHeader` of the header named `wpath`, `openInput rpath` is
  `os.Open(rpath)`, `copy rpath` is `io.Copy(tarw, f)` for the file `f` opened
  at `rpath`, and `closeInput rpath` is `f.Close()` for it.
* `closeTar` is `tarw.Close()` and `closeGzip` is `gzw.Close()`.
* `logMissing rpath` and `logArchiving name tarpath` are the two lines
  written to the logger. -/
inductive ArchOp where
  | prepare
  | mkdir (dir : String)
  | create (path : String)
  | dumpPlan (path : String)
  | closeFile (path : String)
  | stat (rpath : String)
  | fileInfoHeader (rpath : String)
  | writeHeader (wpath : String)
  | openInput (rpath : String)
  | copy (rpath : String)
  | closeInput (rpath : String)
  | closeTar
  | closeGzip
  | logMissing (rpath : String)
  | logArchiving (name tarpath : String)
  deriving DecidableEq, Repr

/-- The operations that put one file into the archive, those of
`tarFileToWriter`. -/
def ArchOp.isEntryOp : ArchOp → Bool
  | ArchOp.stat _ => true
  | ArchOp.fileInfoHeader _ => true
  | ArchOp.writeHeader _ => true
  | ArchOp.openInput _ => true
  | ArchOp.copy _ => true
  | ArchOp.closeInput _ => true
  | ArchOp.logMissing _ => true
  | _ => false

/-- What the saving stage takes from outside the sources.
* `outcome done op` is the error, if any, of the operation `op` when `done`
  lists the operations before it.
* `Collate corpus nworkers` is the result of `collate.Collate` followed by
  `ByStatus`: an error, or the buckets of the collation by status, in the
  order in which `range` visits them.
* `SubjectDir`, `PlanFile` and `SubjectTarFile` are the methods of those
  names of the pathset, over the creation time of the plan.
* `FirstError` is `iohelp.FirstError` on two errors.
* `norm` is what the normaliser needs, and `mapOrder m` the order in which
  `range` visits the entries of the map `m`.
* `FirstBadStatus` is `subject.FirstBadStatus`. -/
structure SaveWorld where
  outcome : List ArchOp → ArchOp → Option GoError
  Collate : Corpus → Int → Except GoError (List (Status × Corpus))
  SubjectDir : Status → Nat → Except GoError String
  PlanFile : Status → Nat → Except GoError String
  SubjectTarFile : String → Status → Nat → Except GoError String
  FirstError : Option GoError → Option GoError → Option GoError
  norm : NormEnv
  mapOrder : List (String × Entry) → List (String × Entry)
  mapOrder_perm : ∀ m, (mapOrder m).Perm m
  FirstBadStatus : Status

/-- An operation is done: it joins the operations done, and has its outcome. -/
def doOp (w : SaveWorld) (done : List ArchOp) (op : ArchOp) : List ArchOp × Option GoError :=
  (done ++ [op], w.outcome done op)

/-- The part of `Save` that `Run` reads: the pathset pointer, `none` when
nil, and the number of workers. -/
structure Save where
  Paths : Option Unit
  NWorkers : Int
  deriving DecidableEq, Repr

/-- The function `tarFileHeader`: the operations done and the error (the
header itself is left out). -/
def tarFileHeader (w : SaveWorld) (done : List ArchOp) (rpath : String) :
    List ArchOp × Option GoError :=
  match doOp w done (ArchOp.stat rpath) with
  | (d1, some err) => (d1, some (GoError.errorf ("can't stat " ++ rpath ++ ": ") err ""))
  | (d1, none) =>
    match doOp w d1 (ArchOp.fileInfoHeader rpath) with
    | (d2, some err) =>
      (d2, some (GoError.errorf ("can't get header for " ++ rpath ++ ": ") err ""))
    | (d2, none) => (d2, none)

/-- The method `rescueNotExistError`. -/
def rescueNotExistError (done : List ArchOp) (err : GoError) (rpath : String) :
    List ArchOp × Option GoError :=
  if !err.Is ErrNotExist then
    (done, some err)
  else
    (done ++ [ArchOp.logMissing rpath], none)

/-- The method `tarFileToWriter`. -/
def tarFileToWriter (w : SaveWorld) (done : List ArchOp) (rpath wpath : String) :
    List ArchOp × Option GoError :=
  if rpath = "" then
    (done, none)
  else
    match tarFileHeader w done rpath with
    | (d1, some err) => rescueNotExistError d1 err rpath
    | (d1, none) =>
      match doOp w d1 (ArchOp.writeHeader wpath) with
      | (d2, some err) => (d2, some (GoError.errorf "writing header: " err ""))
      | (d2, none) =>
        match doOp w d2 (ArchOp.openInput rpath) with
        | (d3, some err) => (d3, some (GoError.errorf ("opening " ++ rpath ++ ": ") err ""))
        | (d3, none) =>
          match doOp w d3 (ArchOp.copy rpath) with
          | (d4, some err) =>
            ((doOp w d4 (ArchOp.closeInput rpath)).1,
              some (GoError.errorf ("archiving " ++ rpath ++ ": ") err ""))
          | (d4, none) => doOp w d4 (ArchOp.closeInput rpath)

/-- The function `filesToTar`, with the normaliser of the sources. -/
def filesToTar (w : SaveWorld) (s : Subject) : Except GoError (List (String × Entry)) :=
  match ((Normaliser.New "").Normalise w.norm s).2.2 with
  | some err => Except.error err
  | none => Except.ok ((Normaliser.New "").Normalise w.norm s).1.Mappings

/-- The loop of `tarSubjectToWriter` over the mappings left. -/
def tarEntries (w : SaveWorld) : List (String × Entry) → List ArchOp → List ArchOp × Option GoError
  | [], done => (done, none)
  | (wpath, norm) :: rest, done =>
    match tarFileToWriter w done norm.Original wpath with
    | (d1, some err) =>
      (d1, some (GoError.errorf ("archiving " ++ w.norm.quote norm.Original ++ ": ") err ""))
    | (d1, none) => tarEntries w rest d1

/-- The method `tarSubjectToWriter`. -/
def tarSubjectToWriter (w : SaveWorld) (done : List ArchOp) (sub : Subject) :
    List ArchOp × Option GoError :=
  match filesToTar w sub with
  | Except.error err => (done, some err)
  | Except.ok fs => tarEntries w (w.mapOrder fs) done

/-- The method `tarSubjectToPath`. -/
def tarSubjectToPath (w : SaveWorld) (done : List ArchOp) (sub : Subject) (tarpath : String) :
    List ArchOp × Option GoError :=
  match doOp w done (ArchOp.create tarpath) with
  | (d1, some err) => (d1, some (GoError.errorf ("create " ++ tarpath ++ ": ") err ""))
  | (d1, none) =>
    let werr := tarSubjectToWriter w d1 sub
    let terr := doOp w werr.1 ArchOp.closeTar
    let gerr := doOp w terr.1 ArchOp.closeGzip
    match werr.2 with
    | some err => (gerr.1, some err)
    | none =>
      match terr.2 with
      | some err => (gerr.1, some (GoError.errorf "closing tar: " err ""))
      | none =>
        match gerr.2 with
        | some err => (gerr.1, some (GoError.errorf "closing gzip: " err ""))
        | none => (gerr.1, none)

/-- The method `tarSubject`. -/
def tarSubject (w : SaveWorld) (done : List ArchOp) (st : Status) (name : String)
    (sub : Subject) (creation : Nat) : List ArchOp × Option GoError :=
  match w.SubjectTarFile name st creation with
  | Except.error err => (done, some err)
  | Except.ok tarpath =>
    match tarSubjectToPath w (done ++ [ArchOp.logArchiving name tarpath]) sub tarpath with
    | (d1, some err) => (d1, some (GoError.errorf ("tarring subject " ++ name ++ ": ") err ""))
    | (d1, none) => (d1, none)

/-- The method `tarSubjects`, over the entries of the corpus left. -/
def tarSubjects (w : SaveWorld) (st : Status) (creation : Nat) :
    Corpus → List ArchOp → List ArchOp × Option GoError
  | [], done => (done, none)
  | (name, sub) :: rest, done =>
    match tarSubject w done st name sub creation with
    | (d1, some err) => (d1, some err)
    | (d1, none) => tarSubjects w st creation rest d1

/-- The method `writePlan`. -/
def writePlan (w : SaveWorld) (done : List ArchOp) (st : Status) (creation : Nat) :
    List ArchOp × Option GoError :=
  match w.PlanFile st creation with
  | Except.error err => (done, some err)
  | Except.ok path =>
    match doOp w done (ArchOp.create path) with
    | (d1, some err) => (d1, some err)
    | (d1, none) =>
      let err := doOp w d1 (ArchOp.dumpPlan path)
      let cerr := doOp w err.1 (ArchOp.closeFile path)
      (cerr.1, w.FirstError err.2 cerr.2)

/-- The method `prepareDir`. -/
def prepareDir (w : SaveWorld) (done : List ArchOp) (st : Status) (creation : Nat) :
    List ArchOp × Option GoError :=
  match w.SubjectDir st creation with
  | Except.error err => (done, some err)
  | Except.ok dir => doOp w done (ArchOp.mkdir dir)

/-- The method `saveBucket`. -/
def saveBucket (w : SaveWorld) (done : List ArchOp) (st : Status) (c : Corpus)
    (creation : Nat) : List ArchOp × Option GoError :=
  match prepareDir w done st creation with
  | (d1, some err) => (d1, some err)
  | (d1, none) =>
    match writePlan w d1 st creation with
    | (d2, some err) => (d2, some err)
    | (d2, none) => tarSubjects w st creation c d2

/-- The result of `Save.Run`: the operations done, the statuses of the
buckets given to `saveBucket`, in order, and the plan and error returned. -/
structure SaveResult where
  done : List ArchOp
  saved : List Status
  plan : Option Plan
  err : Option GoError
  deriving DecidableEq, Repr

/-- The loop of `Save.Run` over the buckets left. -/
def saveBuckets (w : SaveWorld) (p : Plan) :
    List (Status × Corpus) → List ArchOp → List Status → SaveResult
  | [], done, saved => ⟨done, saved, some p, none⟩
  | (st, c) :: rest, done, saved =>
    if st < w.FirstBadStatus ∨ c.length = 0 then
      saveBuckets w p rest done saved
    else
      match saveBucket w done st c p.Header.Creation with
      | (d1, some err) => ⟨d1, saved ++ [st], none, some err⟩
      | (d1, none) => saveBuckets w p rest d1 (saved ++ [st])

/-- The method `Save.Run`, from the operations `done` so far. The notice to
the observers is left out. -/
def Save.Run (ev : ErrVars) (w : SaveWorld) (s : Save) (done : List ArchOp) (p : Plan) :
    SaveResult :=
  match s.Paths with
  | none => ⟨done, [], none, some ev.ErrPathsetNil⟩
  | some _ =>
    match doOp w done ArchOp.prepare with
    | (d1, some err) => ⟨d1, [], none, some err⟩
    | (d1, none) =>
      match w.Collate p.Corpus s.NWorkers with
      | Except.error err => ⟨d1, [], none, some (GoError.errorf "when collating: " err "")⟩
      | Except.ok buckets => saveBuckets w p buckets d1 []

/-- The method `Instance.dump`, for the scratch paths `scratch`. -/
def Instance.dump (w : SaveWorld) (join : String → String → String) (scratch : Scratch)
    (done : List ArchOp) (name : String) : List ArchOp × Option GoError :=
  match doOp w done (ArchOp.create (scratch.PlanForStage join name)) with
  | (d1, some err) =>
    (d1, some (GoError.errorf ("while opening plan file for " ++ name ++ ": ") err ""))
  | (d1, none) =>
    match doOp w d1 (ArchOp.dumpPlan (scratch.PlanForStage join name)) with
    | (d2, some err) =>
      ((doOp w d2 (ArchOp.closeFile (scratch.PlanForStage join name))).1,
        some (GoError.errorf ("while writing plan file for " ++ name ++ ": ") err ""))
    | (d2, none) => doOp w d2 (ArchOp.closeFile (scratch.PlanForStage join name))

/-! ## Inputs used as examples: saving -/

/-- A world for the examples, around the outcomes of the operations: three
buckets, of status 1 with the corpus, of status 3 with the corpus and of
status 4 with no subject, statuses from 2 on being bad; paths under
`saved`; maps visited in the order of their entries. -/
def exampleSaveWorld (outcome : List ArchOp → ArchOp → Option GoError) : SaveWorld :=
  { outcome := outcome
    Collate := fun c _ => Except.ok [(1, c), (3, c), (4, [])]
    SubjectDir := fun st _ => Except.ok (joinCleanList ["saved", toString st])
    PlanFile := fun st _ => Except.ok (joinCleanList ["saved", toString st, "plan.json"])
    SubjectTarFile := fun name st _ =>
      Except.ok (joinCleanList ["saved", toString st, name ++ ".tar.gz"])
    FirstError := fun a b => if a ≠ none then a else b
    norm := exampleNormEnv
    mapOrder := fun m => m
    mapOrder_perm := fun m => List.Perm.refl m
    FirstBadStatus := 2 }

/-- The outcomes in which every operation succeeds. -/
def opsOk : List ArchOp → ArchOp → Option GoError := fun _ _ => none

/-- The outcomes in which closing the tar writer and closing the gzip writer
fail and every other operation succeeds. -/
def opsClosesFail : List ArchOp → ArchOp → Option GoError :=
  fun _ op =>
    if op = ArchOp.closeTar then some (GoError.new "tar: short write")
    else if op = ArchOp.closeGzip then some (GoError.new "gzip: write failed")
    else none

/-- The outcomes in which no file is found and every other operation succeeds. -/
def opsStatMissing : List ArchOp → ArchOp → Option GoError :=
  fun _ op =>
    match op with
    | ArchOp.stat _ => some (GoError.errorf "stat: " ErrNotExist "")
    | _ => none

/-- A subject with an original litmus file and nothing else. -/
def exampleSubjectOne : Subject := ⟨"in/foo.litmus", none, none, none⟩

/-- A plan with one subject, `foo`. -/
def examplePlanOne : Plan := ⟨⟨7, 1, 20200601⟩, [("foo", exampleSubjectOne)]⟩

/-- The saving stage as `Instance.makeSave` builds it for an instance without
a saved pathset. -/
def exampleSaveNoPaths : Save := ⟨none, 10⟩

/-- Arithmetic on the type `int` (64 bits): the value of a result that may
have gone round. -/
def wrapInt (x : Int) : Int := (x + 2 ^ 63) % 2 ^ 64 - 2 ^ 63

/-- The type `quantity.FuzzSet`. -/
structure FuzzSet where
  CorpusSize : Int
  SubjectCycles : Int
  NWorkers : Int
  deriving DecidableEq, Repr

/-- The type `builder.Manifest`. -/
structure Manifest where
  Name : String
  NReqs : Int
  deriving DecidableEq, Repr

/-- The method `Fuzzer.count`. -/
def Fuzzer.count (q : FuzzSet) (c : Corpus) : Int × Int :=
  ((c.length : Int), wrapInt (q.SubjectCycles * (c.length : Int)))

/-- The manifest that `Fuzzer.fuzzCorpus` hands to the builder. -/
def Fuzzer.fuzzCorpusManifest (q : FuzzSet) (c : Corpus) : Manifest :=
  ⟨"fuzz", (Fuzzer.count q c).2⟩

/-- The subjects of `job.go` (`model.Subject`): a name and three paths. -/
structure FuzzSubject where
  Name : String
  OrigLitmus : String
  Litmus : String
  TracePath : String
  deriving DecidableEq, Repr

/-- Modelled from the spec: the function `CycledName`, whose declaration is
not among the sources. By the spec each cycle emits a request named
`<name>_<cycle>`. -/
def CycledName (name : String) (cycle : Nat) : String :=
  name ++ "_" ++ toString cycle

/-- What a fuzz job calls outside itself: `OnSubject` is the method of the
pathset, `Int31 n` the result of the `n`-th call of `j.Rng.Int31()`,
`FuzzSingle n seed inp outp tracep` what the driver returns at its `n`-th
call, and `send sent s` what `sendSubject` returns for `s` when `sent` went
down the channel before: nil when `s` is sent, the error of the context
when that is done first. -/
structure JobWorld where
  OnSubject : String → Nat → String × String
  Int31 : Nat → Int
  FuzzSingle : Nat → Int → String → String → String → Option GoError
  send : List FuzzSubject → FuzzSubject → Option GoError

/-- What a fuzz job has done: the subjects sent down `ResCh`, in order, and
the number of calls of `j.Rng.Int31()`. -/
structure JobState where
  sent : List FuzzSubject
  draws : Nat
  deriving DecidableEq, Repr

/-- The subject that cycle `cycle` of the subject `s` sends. -/
def cycleSubject (w : JobWorld) (s : FuzzSubject) (cycle : Nat) : FuzzSubject :=
  { Name := CycledName s.Name cycle
    OrigLitmus := s.Litmus
    Litmus := (w.OnSubject s.Name cycle).1
    TracePath := (w.OnSubject s.Name cycle).2 }

/-- The method `job.fuzzCycle`. -/
def fuzzCycle (w : JobWorld) (st : JobState) (s : FuzzSubject) (cycle : Nat) :
    JobState × Option GoError :=
  match w.FuzzSingle st.draws (w.Int31 st.draws) s.Litmus (w.OnSubject s.Name cycle).1
      (w.OnSubject s.Name cycle).2 with
  | some err => ({ st with draws := st.draws + 1 }, some err)
  | none =>
    match w.send st.sent (cycleSubject w s cycle) with
    | some err => ({ st with draws := st.draws + 1 }, some err)
    | none => ({ sent := st.sent ++ [cycleSubject w s cycle], draws := st.draws + 1 }, none)

/-- The loop of `job.fuzzSubject` from cycle `i` on, for at most `fuel` turns. -/
def fuzzSubjectLoop (w : JobWorld) (s : FuzzSubject) (cycles : Int) :
    Nat → Nat → JobState → JobState × Option GoError
  | 0, _, st => (st, none)
  | fuel + 1, i, st =>
    if (i : Int) < cycles then
      match fuzzCycle w st s i with
      | (st1, some err) => (st1, some err)
      | (st1, none) => fuzzSubjectLoop w s cycles fuel (i + 1) st1
    else
      (st, none)

/-- The method `job.fuzzSubject` for `SubjectCycles = cycles`; the loop takes
as many turns as there are cycles. -/
def fuzzSubject (w : JobWorld) (s : FuzzSubject) (cycles : Int) (st : JobState) :
    JobState × Option GoError :=
  fuzzSubjectLoop w s cycles cycles.toNat 0 st

/-- The variable `ErrCorpusDup`, with the message the test `ExampleCorpus_Add`
shows. -/
def ErrCorpusDup : GoError := GoError.new "duplicate corpus entry"

/-- Modelled from the spec: the method `Corpus.Add`, whose declaration is not
among the sources. By the spec an Add request inserts a new subject, and
is an error if the name exists. -/
def corpusAdd (c : List (String × FuzzSubject)) (s : FuzzSubject) :
    Except GoError (List (String × FuzzSubject)) :=
  if s.Name ∈ c.map Prod.fst then
    Except.error (GoError.errorf "" ErrCorpusDup (": " ++ s.Name))
  else
    Except.ok (c ++ [(s.Name, s)])

/-- Modelled from the spec: the applier of the builder on Add requests, which
applies them one after the other to its corpus and stops at the first
error. -/
def corpusAddAll : List FuzzSubject → List (String × FuzzSubject) →
    Except GoError (List (String × FuzzSubject))
  | [], c => Except.ok c
  | s :: rest, c =>
    match corpusAdd c s with
    | Except.error err => Except.error err
    | Except.ok c1 => corpusAddAll rest c1

/-- The number a list of decimal digits stands for. -/
def decimalValue (cs : List Char) : Nat :=
  cs.foldl (fun acc ch => 10 * acc + (ch.toNat - 48)) 0

/-! ## Inputs used as examples: fuzzing -/

/-- A job world in which every fuzz and every send succeeds. -/
def exampleJobWorld : JobWorld :=
  { OnSubject := fun name cycle =>
      (joinCleanList ["fuzz", CycledName name cycle ++ ".litmus"],
        joinCleanList ["fuzz", CycledName name cycle ++ ".trace"])
    Int31 := fun n => n
    FuzzSingle := fun _ _ _ _ _ => none
    send := fun _ _ => none }

/-- The subject `foo` of the test `TestJob_Fuzz`. -/
def exampleFuzzSubject : FuzzSubject := ⟨"foo", "", "in/foo.litmus", ""⟩

/-! ## `internal/stage/fuzzer/fuzzer.go`: the checks of the fuzz stage -/

/-- Error variables of the fuzz stage that are declared outside the sources,
`ErrDriverNil`, `corpus.ErrSmall` and `plan.ErrNil`, taken as arguments. -/
structure FuzzErrs where
  ErrDriverNil : GoError
  ErrSmall : GoError
  ErrNil : GoError
  deriving DecidableEq, Repr

/-- The constant `DefaultSubjectCycles`. -/
def DefaultSubjectCycles : Int := 10

/-- The part of the type `Fuzzer` its checks read: the driver and the path
set, `none` when nil, and the quantities. -/
structure Fuzzer where
  driver : Option Unit
  paths : Option Unit
  quantities : FuzzSet
  deriving DecidableEq, Repr

/-- The method `Fuzzer.check`. -/
def Fuzzer.check (ev : ErrVars) (fe : FuzzErrs) (f : Fuzzer) : Option GoError :=
  if f.driver = none then
    some fe.ErrDriverNil
  else if f.paths = none then
    some ev.ErrPathsetNil
  else if f.quantities.SubjectCycles ≤ 0 then
    some (GoError.errorf "" fe.ErrSmall ": non-positive subject cycle amount")
  else
    none

/-- The function `New` of the fuzz stage. `options f` is what
`Options(o...)(&f)` leaves in `f` and returns. The result is the pointer,
`none` for nil, and the error. -/
def Fuzzer.New (ev : ErrVars) (fe : FuzzErrs) (d ps : Option Unit)
    (options : Fuzzer → Fuzzer × Option GoError) : Option Fuzzer × Option GoError :=
  match options ⟨d, ps, ⟨0, DefaultSubjectCycles, 0⟩⟩ with
  | (_, some err) => (none, some err)
  | (f, none) => (some f, Fuzzer.check ev fe f)

/-- The method `Fuzzer.checkCount`, for the quantities `q` of the fuzzer. -/
def Fuzzer.checkCount (ev : ErrVars) (fe : FuzzErrs) (q : FuzzSet) (c : Corpus) :
    Option GoError :=
  if (Fuzzer.count q c).1 ≤ 0 then
    some ev.ErrNone
  else if (Fuzzer.count q c).2 < q.CorpusSize then
    some (GoError.errorf "" fe.ErrSmall
      (": projected corpus size " ++ toString (Fuzzer.count q c).2 ++ ", want "
        ++ toString q.CorpusSize))
  else
    none

/-! ## Inputs used as examples: the checks of the fuzz stage -/

/-- Error variables with the messages of their names. -/
def exampleErrVars : ErrVars := ⟨GoError.new "corpus empty", GoError.new "pathset nil"⟩

/-- Error variables of the fuzz stage with the messages of their names. -/
def exampleFuzzErrs : FuzzErrs :=
  ⟨GoError.new "driver nil", GoError.new "corpus too small", GoError.new "plan nil"⟩

/-- An option that sets the subject cycles to `k`. -/
def optionCycles (k : Int) (f : Fuzzer) : Fuzzer × Option GoError :=
  ({ f with quantities := { f.quantities with SubjectCycles := k } }, none)

/-! ## `internal/pkg/fuzzer/job.go`: the job of a corpus -/

/-- The method `job.Fuzz`, for `SubjectCycles = cycles` and the subjects
`corpus` of the job, in order. -/
def job.Fuzz (w : JobWorld) (cycles : Int) : List FuzzSubject → JobState →
    JobState × Option GoError
  | [], st => (st, none)
  | s :: rest, st =>
    match fuzzSubject w s cycles st with
    | (st1, some _) => (st1, none)
    | (st1, none) => job.Fuzz w cycles rest st1

/-! ## Inputs used as examples: a failing fuzzer -/

/-- The error of the fuzzer in the examples. -/
def fuzzerFailed : GoError := GoError.new "fuzzer failed"

/-- A job world in which the single-file fuzzer fails at every call. -/
def failingJobWorld : JobWorld := { exampleJobWorld with FuzzSingle := fun _ _ _ _ _ => some fuzzerFailed }

/-! ## `internal/controller/lifter/job.go`: the lifting job of a subject -/

/-- An identifier (`id.ID`), as the string its method `String` gives. -/
abbrev ID := String

/-- Error variables of the lifter that are declared outside the sources,
`ErrNoBackend` and `ErrMakerNil`, taken as arguments. -/
structure LiftErrs where
  ErrNoBackend : GoError
  ErrMakerNil : GoError
  deriving DecidableEq, Repr

/-- The type `job.Harness`, the specification handed to the harness maker.
The backend is the pointer of the job, of which only the style is kept. -/
structure HarnessSpec where
  Backend : Option String
  Arch : ID
  InFile : String
  OutDir : String
  deriving DecidableEq, Repr

/-- The part of `recipe.Recipe` that `makeBuilderReq` fills in. -/
structure LiftedRecipe where
  Dir : String
  Files : List String
  deriving DecidableEq, Repr

/-- The request `builder.HarnessRequest(name, arch, recipe)`. -/
structure HarnessRequest where
  Name : String
  Arch : ID
  Recipe : LiftedRecipe
  deriving DecidableEq, Repr

/-- What a lifting job does outside itself: `path arch name` is the call
`j.Paths.Path(arch, name)`, `makeHarness spec` is
`j.Maker.MakeHarness(ctx, spec, j.Stderr)`, and `send req` is
`req.SendTo(ctx, j.ResCh)`. -/
inductive LiftOp where
  | path (arch : ID) (name : String)
  | makeHarness (spec : HarnessSpec)
  | send (req : HarnessRequest)
  deriving DecidableEq, Repr

/-- The architecture an operation is for. -/
def LiftOp.arch : LiftOp → ID
  | LiftOp.path arch _ => arch
  | LiftOp.makeHarness spec => spec.Arch
  | LiftOp.send req => req.Arch

/-- What a lifting job takes from outside the sources; `done` lists the
operations before the call.
* `Path done arch name` is what `j.Paths.Path(arch, name)` returns.
* `BestLitmus s` is what `s.BestLitmus()` returns.
* `MakeHarness done spec` is what the maker returns for `spec`.
* `SendTo done req` is what `req.SendTo(ctx, j.ResCh)` returns: nil when the
  request went down the channel, the error of the context otherwise. -/
structure LiftWorld where
  Path : List LiftOp → ID → String → String × Option GoError
  BestLitmus : Subject → String × Option GoError
  MakeHarness : List LiftOp → HarnessSpec → List String × Option GoError
  SendTo : List LiftOp → HarnessRequest → Option GoError

/-- The type `Job` of the lifter: the architectures, the backend and the
maker (`none` when nil), and the named subject. -/
structure Job where
  Arches : List ID
  Backend : Option String
  Maker : Option Unit
  Name : String
  Subject : Subject
  deriving DecidableEq, Repr

/-- The method `Job.check`. -/
def Job.check (le : LiftErrs) (j : Job) : Option GoError :=
  if j.Backend = none then
    some le.ErrNoBackend
  else if j.Maker = none then
    some le.ErrMakerNil
  else
    none

/-- The method `Job.makeBuilderReq`. -/
def Job.makeBuilderReq (j : Job) (arch : ID) (dir : String) (files : List String) :
    HarnessRequest :=
  ⟨j.Name, arch, ⟨dir, files⟩⟩

/-- The method `Job.liftArch`: the operations done and the error. -/
def Job.liftArch (w : LiftWorld) (j : Job) (done : List LiftOp) (arch : ID) :
    List LiftOp × Option GoError :=
  match w.Path done arch j.Name with
  | (_, some derr) =>
    (done ++ [LiftOp.path arch j.Name],
      some (GoError.errorf "when getting subject dir: " derr ""))
  | (dir, none) =>
    match w.BestLitmus j.Subject with
    | (_, some perr) => (done ++ [LiftOp.path arch j.Name], some perr)
    | (path, none) =>
      match w.MakeHarness (done ++ [LiftOp.path arch j.Name]) ⟨j.Backend, arch, path, dir⟩ with
      | (_, some err) =>
        (done ++ [LiftOp.path arch j.Name, LiftOp.makeHarness ⟨j.Backend, arch, path, dir⟩],
          some (GoError.errorf
            ("when making harness for " ++ j.Name ++ " (arch " ++ arch ++ "): ") err ""))
      | (files, none) =>
        (done ++ [LiftOp.path arch j.Name, LiftOp.makeHarness ⟨j.Backend, arch, path, dir⟩,
            LiftOp.send (j.makeBuilderReq arch dir files)],
          w.SendTo
            (done ++ [LiftOp.path arch j.Name, LiftOp.makeHarness ⟨j.Backend, arch, path, dir⟩])
            (j.makeBuilderReq arch dir files))

/-- The loop of `Job.Lift` over the architectures left. -/
def Job.liftLoop (w : LiftWorld) (j : Job) : List ID → List LiftOp → List LiftOp × Option GoError
  | [], done => (done, none)
  | a :: rest, done =>
    match j.liftArch w done a with
    | (d1, some err) => (d1, some err)
    | (d1, none) => Job.liftLoop w j rest d1

/-- The method `Job.Lift`. -/
def Job.Lift (le : LiftErrs) (w : LiftWorld) (j : Job) (done : List LiftOp) :
    List LiftOp × Option GoError :=
  match j.check le with
  | some err => (done, some err)
  | none => Job.liftLoop w j j.Arches done

/-- The part of `*exec.ExitError` read by `LogTopError`: what `ExitCode()`
returns, the rendering of the field `Stderr`, and the message of `Error()`. -/
structure ExitError where
  ExitCode : Int
  Stderr : String
  Msg : String
  deriving DecidableEq, Repr

/-- The errors that reach the top level. `canceled` is the value of the
variable `context.Canceled`, and nothing else is that value; `new msg` is
any other error without `Unwrap`, those of `errors.New(msg)` among them,
whatever their text; `exit e` is an `*exec.ExitError`, which has no `Unwrap`
either; `errorf pre e post` wraps `e` as `fmt.Errorf` does with the verb
`%w`. No error of the chain has a method `Is` or `As` of its own. -/
inductive TopError where
  | canceled
  | new (msg : String)
  | exit (e : ExitError)
  | errorf (pre : String) (wrapped : TopError) (post : String)
  deriving DecidableEq, Repr

/-- The method `Error()` of a top-level error. -/
def TopError.Error : TopError → String
  | TopError.canceled => "context canceled"
  | TopError.new msg => msg
  | TopError.exit e => e.Msg
  | TopError.errorf pre e post => pre ++ e.Error ++ post

/-- The test `errors.Is(err, context.Canceled)`: some error of the chain is
the value `context.Canceled` itself. -/
def TopError.IsCanceled : TopError → Bool
  | TopError.canceled => true
  | TopError.new _ => false
  | TopError.exit _ => false
  | TopError.errorf _ e _ => e.IsCanceled

/-- The function `errors.As` with a target of type `*exec.ExitError`: the
first exit error in the chain. -/
def TopError.AsExitError : TopError → Option ExitError
  | TopError.canceled => none
  | TopError.new _ => none
  | TopError.exit e => some e
  | TopError.errorf _ e _ => e.AsExitError

/-- The variable `context.Canceled`. -/
def contextCanceled : TopError := TopError.canceled

/-- The function `LogTopError`: the lines written to the standard error, and
the code given to `os.Exit`, `none` when the function returns. -/
def LogTopError : Option TopError → List String × Option Int
  | none => ([], none)
  | some err =>
    if err.IsCanceled then
      ([], none)
    else
      match err.AsExitError with
      | some perr =>
        (["A child process encountered an error:", err.Error,
          "Any captured stderr follows.", perr.Stderr], some perr.ExitCode)
      | none => (["A fatal error has occurred:", err.Error], some 1)

/-- The exit code of a `main` that ends with `LogTopError(err)`, as in
`cmd/act-tester-fuzz/main.go`: the code given to `os.Exit` if it is called,
and 0 when `LogTopError` returns. -/
def mainExitCode (err : Option TopError) : Int :=
  match (LogTopError err).2 with
  | some code => code
  | none => 0

/-! ## Inputs used as examples: top-level errors -/

/-- A cancellation that a stage wrapped. -/
def wrappedCancel : TopError := TopError.errorf "in stage fuzz: " contextCanceled ""

/-- A child process that exited with the code 3, wrapped by a stage. -/
def wrappedExit : TopError :=
  TopError.errorf "in stage lift: " (TopError.exit ⟨3, "[]", "exit status 3"⟩) ""

/-- An error made by `errors.New` with the text of `context.Canceled`; it is
not that variable. -/
def canceledLookalike : TopError := TopError.new "context canceled"

/-! ## `internal/serviceimpl/backend/herdstyle/herdstyle.go`: herd-style backends -/

/-- The type `backend2.Target`, an enumeration held in an integer: any
integer is a value of the type, whether a constant names it or not. -/
abbrev Target := Nat

/-- The four constants of the type `backend2.Target` that the code names.
Their declarations are not among the sources, so their values are
arguments; they differ from one another, as the cases of a `switch` must. -/
structure Targets where
  ToDefault : Target
  ToStandalone : Target
  ToObjRecipe : Target
  ToExeRecipe : Target
  distinct : [ToDefault, ToStandalone, ToObjRecipe, ToExeRecipe].Nodup

/-- The type `backend2.Capability`, a set of flags held in an integer. -/
abbrev Capability := Nat

/-- Modelled from the spec: the capability flags, whose declarations are not
among the sources. By the spec a backend is described by a capability
bitset (lift-litmus, run-standalone, produce-exe), so each flag is one bit;
the position of each bit is an argument. -/
structure CapBits where
  liftLitmus : Nat
  runStandalone : Nat
  produceExe : Nat
  deriving DecidableEq, Repr

/-- The constant `backend2.CanLiftLitmus`. -/
def CanLiftLitmus (b : CapBits) : Capability := 2 ^ b.liftLitmus

/-- The constant `backend2.CanRunStandalone`. -/
def CanRunStandalone (b : CapBits) : Capability := 2 ^ b.runStandalone

/-- The constant `backend2.CanProduceExe`. -/
def CanProduceExe (b : CapBits) : Capability := 2 ^ b.produceExe

/-- The part of `herdstyle.Backend` that holds data: the optional
capabilities and the architectures. -/
structure Backend where
  OptCapabilities : Capability
  Arches : List ID
  deriving DecidableEq, Repr

/-- The part of `backend2.LiftOutput` read here. -/
structure LiftOutput where
  Dir : String
  Target : Target
  deriving DecidableEq, Repr

/-- The method `Backend.Capabilities`. -/
def Backend.Capabilities (b : CapBits) (h : Backend) : Capability :=
  CanLiftLitmus b ||| CanRunStandalone b ||| h.OptCapabilities

/-- The method `Backend.checkAndAmendOutput`: the output as the method
leaves it, and the error. The cases of the `switch` are tried in the order
of the source; the case of `ToDefault` falls through to the empty case of
`ToStandalone`; the `switch` has no default, so that a target that no case
names reaches `return nil` with the output as it was. `errNotSupported` is
`backend2.ErrNotSupported`, which is declared outside the sources. -/
def Backend.checkAndAmendOutput (ts : Targets) (b : CapBits) (errNotSupported : GoError)
    (h : Backend) (o : LiftOutput) : LiftOutput × Option GoError :=
  if o.Target = ts.ToDefault then
    ({ o with Target := ts.ToStandalone }, none)
  else if o.Target = ts.ToStandalone then
    (o, none)
  else if o.Target = ts.ToExeRecipe then
    if h.OptCapabilities &&& CanProduceExe b = 0 then
      (o, some (GoError.errorf "" errNotSupported ": cannot produce executables"))
    else
      (o, none)
  else if o.Target = ts.ToObjRecipe then
    (o, some (GoError.errorf "" errNotSupported ": cannot produce objects"))
  else
    (o, none)

/-- The identifiers of architectures that the resolver names; they are
declared outside the sources. -/
structure ArchIDs where
  ArchC : ID
  ArchAArch64 : ID
  ArchArm : ID
  ArchX8664 : ID
  ArchX86 : ID
  ArchPPC : ID
  deriving DecidableEq, Repr

/-- The variable `herdArches` of `resolver.go`. -/
def herdArches (a : ArchIDs) : List ID :=
  [a.ArchC, a.ArchAArch64, a.ArchArm, a.ArchX8664, a.ArchX86, a.ArchPPC]

/-- The variable `litmusArches` of `resolver.go`. -/
def litmusArches (a : ArchIDs) : List ID :=
  [a.ArchC, a.ArchAArch64, a.ArchArm, a.ArchX8664, a.ArchX86, a.ArchPPC]

/-- The variable `rmemArches` of `resolver.go`. -/
def rmemArches (a : ArchIDs) : List ID := [a.ArchAArch64]

/-- The herd-style entries of the map `Resolve.Backends`, by style. -/
def ResolveBackends (b : CapBits) (a : ArchIDs) : List (String × Backend) :=
  [("herdtools.herd", ⟨0, herdArches a⟩),
    ("herdtools.litmus", ⟨CanProduceExe b, litmusArches a⟩),
    ("rmem", ⟨CanLiftLitmus b, rmemArches a⟩)]

/-! ## Inputs used as examples: backends -/

/-- The four targets numbered from 0 in the order default, standalone,
object recipe, executable recipe. -/
def exampleTargets : Targets := ⟨0, 1, 2, 3, by decide⟩

/-- Flags at the bits 0, 1 and 3. -/
def exampleCapBits : CapBits := ⟨0, 1, 3⟩

/-- The error `backend2.ErrNotSupported` with the message of its name. -/
def exampleErrNotSupported : GoError := GoError.new "not supported"

/-- Architectures under the names of their constants. -/
def exampleArchIDs : ArchIDs := ⟨"c", "aarch64", "arm", "x86.64", "x86", "ppc"⟩

/-- The backend of the style `herdtools.litmus` in the examples. -/
def exampleLitmusBackend : Backend := ⟨CanProduceExe exampleCapBits, litmusArches exampleArchIDs⟩

/-! ## `internal/stage/mach/compiler/compiler.go`, `internal/stage/fuzzer/fuzzer.go`: the plan a stage is given -/

/-- Modelled from the spec: the type `stage.Stage`, whose declaration is not
among the sources. By the spec the completed stages of a plan are a subset
of Plan, Fuzz, Lift, Compile, Run, Analyse and Save. -/
inductive PlanStage where
  | Plan
  | Fuzz
  | Lift
  | Compile
  | Run
  | Analyse
  | Save
  deriving DecidableEq, Repr

/-- The metadata of a plan (`plan.Metadata`): the fields of the header, and
the stages completed, in order. -/
structure Metadata where
  Creation : Nat
  Seed : Int
  Version : Nat
  Stages : List PlanStage
  deriving DecidableEq, Repr

/-- The part of `plan.Plan` the stage runners read: its metadata and its
corpus. -/
structure StagedPlan where
  Metadata : Metadata
  Corpus : Corpus
  deriving DecidableEq, Repr

/-- What the checks of a stage take from outside the sources: `Check p` is
what `p.Check()` returns, `ErrNil` is `plan.ErrNil`, and `stageMissing s` is
the error for a plan without the stage `s`. -/
structure PlanWorld where
  Check : StagedPlan → Option GoError
  ErrNil : GoError
  stageMissing : PlanStage → GoError

/-- Modelled from the spec: the method `Metadata.RequireStage`, whose
declaration is not among the sources. By the spec a plan that misses a
prerequisite stage is a plan error: the method returns an error when the
stage is not among the completed stages. -/
def Metadata.RequireStage (w : PlanWorld) (m : Metadata) (s : PlanStage) : Option GoError :=
  if s ∈ m.Stages then none else some (w.stageMissing s)

/-- The result of a stage runner: the plan (`none` for nil), the error, and
the plans given to the body of the stage, in order; the last is not in the
code, and records whether the work of the stage was started. -/
structure StageResult where
  plan : Option StagedPlan
  err : Option GoError
  started : List StagedPlan
  deriving DecidableEq, Repr

/-- Modelled from the spec: the method `Plan.RunStage`, whose declaration is
not among the sources. By the spec a stage records itself in the metadata of
the plan it returns: the method runs the body `f` on the plan and, when it
returns no error, adds the stage to the completed stages of its plan. -/
def StagedPlan.RunStage (p : StagedPlan) (s : PlanStage)
    (f : StagedPlan → Option StagedPlan × Option GoError) : StageResult :=
  match f p with
  | (_, some err) => ⟨none, some err, [p]⟩
  | (none, none) => ⟨none, none, [p]⟩
  | (some np, none) =>
    ⟨some { np with Metadata := { np.Metadata with Stages := np.Metadata.Stages ++ [s] } },
      none, [p]⟩

/-- The function `checkPlan` of the compiler stage. -/
def Compiler.checkPlan (w : PlanWorld) (p : Option StagedPlan) : Option GoError :=
  match p with
  | none => some w.ErrNil
  | some p => w.Check p

/-- The method `Compiler.Run`; `runInner` is the method of that name, which
starts the compilations. A nil plan does not pass `checkPlan`, so the last
case does not arise. -/
def Compiler.Run (w : PlanWorld) (runInner : StagedPlan → Option StagedPlan × Option GoError)
    (p : Option StagedPlan) : StageResult :=
  match Compiler.checkPlan w p, p with
  | some err, _ => ⟨none, some err, []⟩
  | none, some p => p.RunStage PlanStage.Compile runInner
  | none, none => ⟨none, some w.ErrNil, []⟩

/-- The method `Fuzzer.checkPlan`. -/
def Fuzzer.checkPlan (ev : ErrVars) (fe : FuzzErrs) (w : PlanWorld) (q : FuzzSet)
    (p : Option StagedPlan) : Option GoError :=
  match p with
  | none => some fe.ErrNil
  | some p =>
    match w.Check p with
    | some err => some err
    | none =>
      match p.Metadata.RequireStage w PlanStage.Plan with
      | some err => some err
      | none => Fuzzer.checkCount ev fe q p.Corpus

/-- The method `Fuzzer.Run`; `fuzz` is the method of that name. A nil plan
does not pass `checkPlan`, so the last case does not arise. -/
def Fuzzer.Run (ev : ErrVars) (fe : FuzzErrs) (w : PlanWorld) (q : FuzzSet)
    (fuzz : StagedPlan → Option StagedPlan × Option GoError) (p : Option StagedPlan) :
    StageResult :=
  match Fuzzer.checkPlan ev fe w q p, p with
  | some err, _ => ⟨none, some err, []⟩
  | none, some p => p.RunStage PlanStage.Fuzz fuzz
  | none, none => ⟨none, some fe.ErrNil, []⟩

/-! ## Inputs used as examples: plans with stages -/

/-- The error of a plan without a stage, in the examples. -/
def exampleStageMissing : GoError := GoError.new "missing stage"

/-- A world in which `Check` accepts every plan that has a subject. -/
def examplePlanWorld : PlanWorld :=
  { Check := fun p => if p.Corpus.length = 0 then some exampleErrVars.ErrNone else none
    ErrNil := exampleFuzzErrs.ErrNil
    stageMissing := fun _ => exampleStageMissing }

/-- A plan of one subject that was planned and fuzzed, and not lifted. -/
def planNotLifted : StagedPlan :=
  ⟨⟨7, 1, 20200601, [PlanStage.Plan, PlanStage.Fuzz]⟩, [("foo", exampleSubjectOne)]⟩

/-- A plan of one subject that no stage has completed. -/
def planNotPlanned : StagedPlan := ⟨⟨7, 1, 20200601, []⟩, [("foo", exampleSubjectOne)]⟩

/-- A body of a stage that returns the plan it is given. -/
def stageBodyOk : StagedPlan → Option StagedPlan × Option GoError := fun p => (some p, none)

/-! ## `internal/subject/corpus/merge.go`: merging corpora -/

/-- Modelled from the spec: the function `stringhelp.JoinNonEmpty`, whose
declaration is not among the sources: it joins with `sep` those of the
strings `xs` that are not empty, so that the merged name of a corpus `c` and
a subject `s` is `c/s`. -/
def JoinNonEmpty (sep : String) (xs : List String) : String :=
  sep.intercalate (xs.filter (fun x => x ≠ ""))

/-- The function `MergedName`. -/
def MergedName (cname sname : String) : String :=
  JoinNonEmpty "/" [cname, sname]

/-- Modelled from the spec: the method `Corpus.Add` on a named subject, whose
declaration is not among the sources. By the spec the names of a corpus are
unique, and the test `ExampleCorpus_Add` shows that a second subject under a
name is refused with the error `duplicate corpus entry: <name>`. -/
def Corpus.Add (c : Corpus) (n : String × Subject) : Except GoError Corpus :=
  if n.1 ∈ c.map Prod.fst then
    Except.error (GoError.errorf "" ErrCorpusDup (": " ++ n.1))
  else
    Except.ok (c ++ [n])

/-- The inner loop of `actuallyMerge`, over the subjects of the corpus
`cname` in the order in which `range` visits them. -/
def mergeSubjects (cname : String) : List (String × Subject) → Corpus → Except GoError Corpus
  | [], result => Except.ok result
  | (sname, s) :: rest, result =>
    match Corpus.Add result (MergedName cname sname, s) with
    | Except.error err => Except.error err
    | Except.ok r1 => mergeSubjects cname rest r1

/-- The outer loop of `actuallyMerge`, over the corpora in the order in
which `range` visits them. -/
def actuallyMergeLoop : List (String × Corpus) → Corpus → Except GoError Corpus
  | [], result => Except.ok result
  | (cname, c) :: rest, result =>
    match mergeSubjects cname c result with
    | Except.error err => Except.error err
    | Except.ok r1 => actuallyMergeLoop rest r1

/-- The function `actuallyMerge`: the corpus, `none` for nil, and the error. -/
def actuallyMerge (corpora : List (String × Corpus)) : Option Corpus × Option GoError :=
  match actuallyMergeLoop corpora [] with
  | Except.error err => (none, some err)
  | Except.ok result => (some result, none)

/-- The function `Merge`, on the map `corpora` as the list of its entries in
the order in which `range` visits them; `c.Copy()` has the entries of `c`. -/
def Merge (corpora : List (String × Corpus)) : Option Corpus × Option GoError :=
  if corpora.length = 0 then
    (none, none)
  else if corpora.length = 1 then
    match corpora with
    | (_, c) :: _ => (some c, none)
    | [] => actuallyMerge corpora
  else
    actuallyMerge corpora

/-- The subjects of the corpora, each under its merged name, in the order in
which the loops visit them. -/
def mergedPairs (corpora : List (String × Corpus)) : List (String × Subject) :=
  corpora.flatMap (fun cc => cc.2.map (fun p => (MergedName cc.1 p.1, p.2)))

/-- Adding named subjects to a corpus one after the other, up to the first
error. -/
def Corpus.addAll : List (String × Subject) → Corpus → Except GoError Corpus
  | [], c => Except.ok c
  | n :: rest, c =>
    match Corpus.Add c n with
    | Except.error err => Except.error err
    | Except.ok c1 => Corpus.addAll rest c1

/-! ## Inputs used as examples: merging -/

/-- A subject with the litmus file `path`. -/
def subjectAt (path : String) : Subject := ⟨path, none, none, none⟩

/-- Two corpora whose merged names collide: the subject `b/c` of the corpus
`a`, and the subject `c` of the corpus `a/b`. -/
def collidingCorpora : List (String × Corpus) :=
  [("a", [("b/c", subjectAt "1.litmus")]), ("a/b", [("c", subjectAt "2.litmus")])]

/-- Two corpora whose merged names are distinct. -/
def distinctCorpora : List (String × Corpus) :=
  [("a", [("x", subjectAt "1.litmus"), ("y", subjectAt "2.litmus")]),
    ("b", [("x", subjectAt "3.litmus")])]

/-! ## `internal/pkg/fuzzer/config.go`: overriding quantities -/

/-- The type `QuantitySet` of `internal/pkg/fuzzer/config.go`. -/
structure QuantitySet where
  CorpusSize : Int
  SubjectCycles : Int
  deriving DecidableEq, Repr

/-- The number of fields of a `QuantitySet` (`NumField`). -/
def QuantitySet.NumField : Nat := 2

/-- The field number `i` of a quantity set, as `Field(i).Int()` reads it. -/
def QuantitySet.Field (q : QuantitySet) (i : Nat) : Int :=
  match i with
  | 0 => q.CorpusSize
  | 1 => q.SubjectCycles
  | _ => 0

/-- The quantity set after `Field(i).SetInt(k)`. -/
def QuantitySet.SetInt (q : QuantitySet) (i : Nat) (k : Int) : QuantitySet :=
  match i with
  | 0 => { q with CorpusSize := k }
  | 1 => { q with SubjectCycles := k }
  | _ => q

/-- The method `QuantitySet.Override`: the receiver as the method leaves it. -/
def QuantitySet.Override (q new : QuantitySet) : QuantitySet :=
  (List.range QuantitySet.NumField).foldl
    (fun qv i => if new.Field i ≠ 0 then qv.SetInt i (new.Field i) else qv) q

/-! ## `internal/stage/fuzzer/fuzzer.go`: the seeds of the subjects -/

/-- The map `seeds` after `seeds[n] = v`, as the list of its entries. -/
def seedSet (seeds : List (String × Int)) (n : String) (v : Int) : List (String × Int) :=
  if n ∈ seeds.map Prod.fst then
    seeds.map (fun e => if e.1 = n then (n, v) else e)
  else
    seeds ++ [(n, v)]

/-- The value `seeds[n]`, zero when the map has no such key. -/
def seedGet (seeds : List (String × Int)) (n : String) : Int :=
  match seeds.find? (fun e => e.1 = n) with
  | some e => e.2
  | none => 0

/-- The loop of `corpusSeeds`, over the names of the corpus in the order in
which `range` visits them; `draws k` is what the call number `k` of
`rng.Int63()` returns, and `k` counts the calls made. -/
def corpusSeedsLoop (draws : Nat → Int) : List String → Nat → List (String × Int) →
    List (String × Int)
  | [], _, seeds => seeds
  | n :: rest, k, seeds => corpusSeedsLoop draws rest (k + 1) (seedSet seeds n (draws k))

/-- The function `corpusSeeds` on a generator that has made no draw, as the
one `Header.Rand` returns; `order` lists the names of the corpus as `range`
visits them. -/
def corpusSeeds (draws : Nat → Int) (order : List String) : List (String × Int) :=
  corpusSeedsLoop draws order 0 []

/-- The first two values of `Int63()` for the generator
`rand.New(rand.NewSource(1))`, the one `Header.Rand` returns for the seed 1;
the draws after them are not used here and stand as zero. -/
def drawsOfSeedOne : Nat → Int
  | 0 => 5577006791947779410
  | 1 => 8674665223082153551
  | _ => 0

/-! ## `internal/coverage/maker.go`: the coverage testbed maker -/

/-- What the maker takes from outside the sources: `Buckets qs` is what
`m.qs.Buckets()` returns, `none` for the nil map and otherwise its entries
in the order in which `range` visits them; `MakeDir done dir` is what
`yos.MakeDir(dir)` returns when `done` lists the directories asked for
before; `join` is `filepath.Join` and `quote` the rendering of the verb `%q`. -/
structure MakerWorld where
  Buckets : Option (List (String × Int))
  MakeDir : List String → String → Option GoError
  join : List String → String
  quote : String → String

/-- The type `Maker`: the output directory, and the names of the profiles in
the order in which `range` visits them. -/
structure Maker where
  outDir : String
  profiles : List String
  deriving DecidableEq, Repr

/-- The method `Maker.bucketDir`. -/
def Maker.bucketDir (w : MakerWorld) (m : Maker) (pname suffix : String) : String :=
  w.join [m.outDir, pname, suffix]

/-- The inner loop of `Maker.prepare`, over the buckets left for the profile
`pname`: the directories asked for, and the error. -/
def Maker.prepareBuckets (w : MakerWorld) (m : Maker) (pname : String) :
    List (String × Int) → List String → List String × Option GoError
  | [], done => (done, none)
  | (suffix, _) :: rest, done =>
    match w.MakeDir done (m.bucketDir w pname suffix) with
    | some err =>
      (done ++ [m.bucketDir w pname suffix],
        some (GoError.errorf
          ("preparing directory for profile " ++ w.quote pname ++ " bucket "
            ++ w.quote suffix ++ ": ") err ""))
    | none => Maker.prepareBuckets w m pname rest (done ++ [m.bucketDir w pname suffix])

/-- The outer loop of `Maker.prepare`, over the profiles left. -/
def Maker.prepareProfiles (w : MakerWorld) (m : Maker) (buckets : List (String × Int)) :
    List String → List String → List String × Option GoError
  | [], done => (done, none)
  | pname :: rest, done =>
    match Maker.prepareBuckets w m pname buckets done with
    | (d1, some err) => (d1, some err)
    | (d1, none) => Maker.prepareProfiles w m buckets rest d1

/-- The method `Maker.prepare`. -/
def Maker.prepare (w : MakerWorld) (m : Maker) (buckets : List (String × Int))
    (done : List String) : List String × Option GoError :=
  Maker.prepareProfiles w m buckets m.profiles done

/-- The result of `Maker.Run`: the plan (`none` for nil), the error, and the
directories asked for. -/
structure MakerResult where
  plan : Option Plan
  err : Option GoError
  dirs : List String
  deriving DecidableEq, Repr

/-- The method `Maker.Run`. The receiver is the pointer `some m`; it is not
nil, as the method has read `m.qs` before the test `m != nil`. -/
def Maker.Run (w : MakerWorld) (m : Maker) (p : Option Plan) : MakerResult :=
  match w.Buckets with
  | none => ⟨none, some (GoError.new "bucket calculation failed"), []⟩
  | some buckets =>
    match m.prepare w buckets [] with
    | (dirs, err) =>
      if (some m : Option Maker) ≠ none then
        ⟨none, err, dirs⟩
      else
        ⟨p, none, dirs⟩

/-! ## Inputs used as examples: the coverage maker -/

/-- A world with two buckets in which every directory is made. -/
def exampleMakerWorld : MakerWorld :=
  { Buckets := some [("1", 10), ("2", 20)]
    MakeDir := fun _ _ => none
    join := joinCleanList
    quote := fun s => s.quote }

/-- A maker with one profile. -/
def exampleMaker : Maker := ⟨"cov", ["gcc"]⟩

/-! ## Inputs used as examples: cycle counts beyond the range of `int` -/

/-- A corpus of the two subjects `a` and `b`. -/
def corpusOfTwo : Corpus :=
  [("a", ⟨"a.litmus", none, none, none⟩), ("b", ⟨"b.litmus", none, none, none⟩)]

/-- A corpus of the four subjects `a`, `b`, `c` and `d`. -/
def corpusOfFour : Corpus :=
  [("a", ⟨"a.litmus", none, none, none⟩), ("b", ⟨"b.litmus", none, none, none⟩),
    ("c", ⟨"c.litmus", none, none, none⟩), ("d", ⟨"d.litmus", none, none, none⟩)]

/-- Quantities with `2 ^ 62` subject cycles and no corpus size requirement. -/
def hugeCycles : FuzzSet := ⟨0, 2 ^ 62, 1⟩

/-- Quantities with `2 ^ 62 + 1` subject cycles and no corpus size
requirement. -/
def hugeCyclesPlusOne : FuzzSet := ⟨0, 2 ^ 62 + 1, 1⟩

/-! ## The main loop: lemmas -/

theorem failRun_le (pass : Nat → Option GoError) :
    ∀ n k, k ≤ failRun pass n → k ≤ n ∧ ∀ i, i < k → (pass (n - 1 - i)).isSome = true := by
  intro n
  induction n with
  | zero =>
    intro k hk
    simp [failRun] at hk
    subst hk
    exact ⟨le_refl _, fun i hi => absurd hi (Nat.not_lt_zero i)⟩
  | succ n ih =>
    intro k hk
    by_cases hp : (pass n).isSome = true
    · simp only [failRun, hp, if_true] at hk
      cases k with
      | zero => exact ⟨Nat.zero_le _, fun i hi => absurd hi (Nat.not_lt_zero i)⟩
      | succ k =>
        obtain ⟨h1, h2⟩ := ih k (by omega)
        refine ⟨by omega, ?_⟩
        intro i hi
        cases i with
        | zero => simpa using hp
        | succ i =>
          have := h2 i (by omega)
          have e : n + 1 - 1 - (i + 1) = n - 1 - i := by omega
          rw [e]; exact this
    · simp only [failRun, hp] at hk
      have : k = 0 := by simpa using hk
      subst this
      exact ⟨Nat.zero_le _, fun i hi => absurd hi (Nat.not_lt_zero i)⟩

theorem le_failRun (pass : Nat → Option GoError) :
    ∀ k n, (∀ i, i < k → (pass (n + i)).isSome = true) → k ≤ failRun pass (n + k) := by
  intro k
  induction k with
  | zero => intro n _; exact Nat.zero_le _
  | succ k ih =>
    intro n h
    have h1 := ih n (fun i hi => h i (by omega))
    have h2 := h k (by omega)
    have e : n + (k + 1) = (n + k) + 1 := by omega
    rw [e]
    simp only [failRun, h2, if_true]
    omega

theorem failRun_succ_le (pass : Nat → Option GoError) (n : Nat) :
    failRun pass (n + 1) ≤ failRun pass n + 1 := by
  simp only [failRun]
  split <;> omega

/-- While no pass trips the counter and the context is not cancelled, the loop runs on. -/
theorem mainLoopFrom_running (pass ctxErr : Nat → Option GoError)
    (hctx : ∀ n, ctxErr n = none) :
    ∀ fuel n s, s.nErrors = failRun pass n →
      (∀ m, n ≤ m → m < n + fuel → failRun pass (m + 1) ≤ 10) →
      mainLoopFrom pass ctxErr fuel n s = none := by
  intro fuel
  induction fuel with
  | zero => intro n s _ _; rfl
  | succ fuel ih =>
    intro n s hs hrun
    have h0 := hrun n (le_refl _) (by omega)
    cases hp : pass n with
    | none =>
      have hf : failRun pass (n + 1) = 0 := by simp [failRun, hp]
      simp only [mainLoopFrom, loopBody, hp, hctx]
      exact ih (n + 1) _ (by simp [hf]) (fun m h1 h2 => hrun m (by omega) (by omega))
    | some err =>
      have hf : failRun pass (n + 1) = s.nErrors + 1 := by simp [failRun, hp, hs]
      have hlt : (s.nErrors + 1) % uintSize = s.nErrors + 1 := by
        apply Nat.mod_eq_of_lt
        simp only [uintSize]; omega
      have hnot : ¬ maxConsecutiveErrors < s.nErrors + 1 := by
        simp only [maxConsecutiveErrors]; omega
      simp only [mainLoopFrom, loopBody, hp, hctx, hlt, hnot, if_false]
      exact ih (n + 1) _ (by simp [hf]) (fun m h1 h2 => hrun m (by omega) (by omega))

/-- The loop returns at the first pass that brings the counter to eleven. -/
theorem mainLoopFrom_trips (pass ctxErr : Nat → Option GoError)
    (hctx : ∀ n, ctxErr n = none) :
    ∀ fuel n s k e, s.nErrors = failRun pass n → n ≤ k → k < n + fuel →
      (∀ m, n ≤ m → m < k → failRun pass (m + 1) ≤ 10) →
      pass k = some e → failRun pass (k + 1) = 11 →
      mainLoopFrom pass ctxErr fuel n s = some (tooManyErrors e) := by
  intro fuel
  induction fuel with
  | zero => intro n s k e _ h1 h2; omega
  | succ fuel ih =>
    intro n s k e hs hnk hk hrun hpk hfk
    by_cases hEq : n = k
    · subst hEq
      have hf : s.nErrors + 1 = 11 := by
        have := hfk
        simp only [failRun, hpk, Option.isSome_some, if_true] at this
        omega
      have hlt : (s.nErrors + 1) % uintSize = s.nErrors + 1 := by
        apply Nat.mod_eq_of_lt
        simp only [uintSize]; omega
      have hgt : maxConsecutiveErrors < s.nErrors + 1 := by
        simp only [maxConsecutiveErrors]; omega
      simp only [mainLoopFrom, loopBody, hpk, hlt, hgt, if_true]
    · have h0 := hrun n (le_refl _) (by omega)
      cases hp : pass n with
      | none =>
        have hf : failRun pass (n + 1) = 0 := by simp [failRun, hp]
        simp only [mainLoopFrom, loopBody, hp, hctx]
        exact ih (n + 1) _ k e (by simp [hf]) (by omega) (by omega)
          (fun m h1 h2 => hrun m (by omega) h2) hpk hfk
      | some err =>
        have hf : failRun pass (n + 1) = s.nErrors + 1 := by simp [failRun, hp, hs]
        have hlt : (s.nErrors + 1) % uintSize = s.nErrors + 1 := by
          apply Nat.mod_eq_of_lt
          simp only [uintSize]; omega
        have hnot : ¬ maxConsecutiveErrors < s.nErrors + 1 := by
          simp only [maxConsecutiveErrors]; omega
        simp only [mainLoopFrom, loopBody, hp, hctx, hlt, hnot, if_false]
        exact ih (n + 1) _ k e (by simp [hf]) (by omega) (by omega)
          (fun m h1 h2 => hrun m (by omega) h2) hpk hfk

/-- A window of eleven failed passes with no such window before it bounds the counter. -/
theorem failRun_le_ten_before (pass : Nat → Option GoError) (n : Nat)
    (hfirst : ∀ m, m < n → ∃ i, i ≤ 10 ∧ pass (m + i) = none) :
    ∀ m, m < n + 10 → failRun pass (m + 1) ≤ 10 := by
  intro m hm
  by_contra hcon
  obtain ⟨h1, h2⟩ := failRun_le pass (m + 1) 11 (by omega)
  obtain ⟨i, hi, hpi⟩ := hfirst (m - 10) (by omega)
  have := h2 (10 - i) (by omega)
  have e : m + 1 - 1 - (10 - i) = m - 10 + i := by omega
  rw [e, hpi] at this
  simp at this


/-! ## The main loop: the consecutive-error cap -/

/-- C1: with a context that is never cancelled, `mainLoop` returns exactly
when eleven passes in a row have failed. At the first window of eleven failed
passes (`n` to `n + 10`) it is still running after `n + 10` passes and has
returned after the next one, the eleventh failure, with an error whose
message starts with "too many consecutive errors" and which wraps the error
of that pass. A pass that succeeds sets the counter to zero, and when no
eleven passes in a row fail the loop never returns. -/
theorem mainLoop_returns_iff_eleven_failures (pass ctxErr : Nat → Option GoError)
    (hctx : ∀ n, ctxErr n = none) :
    (∀ n e, (∀ i, i ≤ 10 → (pass (n + i)).isSome = true) →
        (∀ m, m < n → ∃ i, i ≤ 10 ∧ pass (m + i) = none) →
        pass (n + 10) = some e →
        (∀ fuel, fuel ≤ n + 10 → mainLoop pass ctxErr fuel = none) ∧
        (∀ fuel, n + 10 < fuel → mainLoop pass ctxErr fuel = some (tooManyErrors e)) ∧
        (∃ rest, (tooManyErrors e).Error = "too many consecutive errors" ++ rest) ∧
        (tooManyErrors e).Unwrap = some e) ∧
    ((∀ m, ∃ i, i ≤ 10 ∧ pass (m + i) = none) →
        ∀ fuel, mainLoop pass ctxErr fuel = none) ∧
    ((∃ fuel e, mainLoop pass ctxErr fuel = some e) ↔
        ∃ n, ∀ i, i ≤ 10 → (pass (n + i)).isSome = true) ∧
    (∀ n s, loopStateAfter pass ctxErr (n + 1) = some s → pass n = none → s.nErrors = 0) := by
  have hA : ∀ n e, (∀ i, i ≤ 10 → (pass (n + i)).isSome = true) →
      (∀ m, m < n → ∃ i, i ≤ 10 ∧ pass (m + i) = none) →
      pass (n + 10) = some e →
      (∀ fuel, fuel ≤ n + 10 → mainLoop pass ctxErr fuel = none) ∧
      (∀ fuel, n + 10 < fuel → mainLoop pass ctxErr fuel = some (tooManyErrors e)) := by
    intro n e hwin hfirst hpe
    have hbound := failRun_le_ten_before pass n hfirst
    refine ⟨?_, ?_⟩
    · intro fuel hfuel
      exact mainLoopFrom_running pass ctxErr hctx fuel 0 ⟨0, 0⟩ rfl
        (fun m _ h2 => hbound m (by omega))
    · intro fuel hfuel
      have h11 : 11 ≤ failRun pass (n + 10 + 1) :=
        le_failRun pass 11 n (fun i hi => hwin i (by omega))
      have hle : failRun pass (n + 10 + 1) ≤ failRun pass (n + 10) + 1 :=
        failRun_succ_le pass (n + 10)
      have h10 : failRun pass (n + 10) ≤ 10 := by
        cases n with
        | zero =>
          have := (failRun_le pass 10 (failRun pass 10) (le_refl _)).1
          simpa using this
        | succ k =>
          have := hbound (k + 10) (by omega)
          have e2 : k + 1 + 10 = k + 10 + 1 := by omega
          rw [e2]; exact this
      exact mainLoopFrom_trips pass ctxErr hctx fuel 0 ⟨0, 0⟩ (n + 10) e rfl
        (Nat.zero_le _) (by omega) (fun m _ h2 => hbound m h2) hpe (by omega)
  have hB : (∀ m, ∃ i, i ≤ 10 ∧ pass (m + i) = none) →
      ∀ fuel, mainLoop pass ctxErr fuel = none := by
    intro hno fuel
    apply mainLoopFrom_running pass ctxErr hctx fuel 0 ⟨0, 0⟩ rfl
    intro m _ _
    by_contra hcon
    obtain ⟨_, h2⟩ := failRun_le pass (m + 1) 11 (by omega)
    obtain ⟨i, hi, hpi⟩ := hno (m - 10)
    have := h2 (10 - i) (by omega)
    have e : m + 1 - 1 - (10 - i) = m - 10 + i := by omega
    rw [e, hpi] at this
    simp at this
  refine ⟨?_, hB, ?_, ?_⟩
  · intro n e hwin hfirst hpe
    obtain ⟨h1, h2⟩ := hA n e hwin hfirst hpe
    refine ⟨h1, h2, ⟨"; last error was: " ++ e.Error, ?_⟩, rfl⟩
    simp only [tooManyErrors, GoError.Error, String.append_empty]
    rw [← String.append_assoc]
    rfl
  · constructor
    · rintro ⟨fuel, e, hret⟩
      by_contra hnone
      have hno : ∀ m, ∃ i, i ≤ 10 ∧ pass (m + i) = none := by
        intro m
        by_contra hc
        apply hnone
        refine ⟨m, fun i hi => ?_⟩
        cases hpi : pass (m + i) with
        | none => exact absurd ⟨i, hi, hpi⟩ hc
        | some _ => rfl
      rw [hB hno fuel] at hret
      cases hret
    · intro hex
      classical
      let n := Nat.find hex
      have hwin : ∀ i, i ≤ 10 → (pass (n + i)).isSome = true := Nat.find_spec hex
      have hfirst : ∀ m, m < n → ∃ i, i ≤ 10 ∧ pass (m + i) = none := by
        intro m hm
        have hmin := Nat.find_min hex hm
        by_contra hc
        apply hmin
        intro i hi
        cases hpi : pass (m + i) with
        | none => exact absurd ⟨i, hi, hpi⟩ hc
        | some _ => rfl
      cases hpe : pass (n + 10) with
      | none =>
        have := hwin 10 (le_refl _)
        rw [hpe] at this
        simp at this
      | some e =>
        exact ⟨n + 11, tooManyErrors e, (hA n e hwin hfirst hpe).2 (n + 11) (by omega)⟩
  · intro n s hs hp
    simp only [loopStateAfter] at hs
    cases hprev : loopStateAfter pass ctxErr n with
    | none => simp [hprev] at hs
    | some s0 =>
      simp only [hprev, loopBody, hp, hctx] at hs
      cases hs
      rfl

/-- C1 at passes that all fail: still running after ten passes, returned after eleven. -/
theorem mainLoop_returns_iff_eleven_failures_witness :
    mainLoop alwaysFailing neverCancelled 10 = none ∧
    mainLoop alwaysFailing neverCancelled 11
      = some (tooManyErrors (GoError.new "lifter failed")) :=
  have h := (mainLoop_returns_iff_eleven_failures alwaysFailing neverCancelled
    (fun _ => rfl)).1 0 (GoError.new "lifter failed") (fun _ _ => rfl)
    (fun m hm => absurd hm (Nat.not_lt_zero m)) rfl
  ⟨h.1 10 (by decide), h.2.1 11 (by decide)⟩


/-! ## The main loop: cancellation and the errors of passes -/

theorem mainLoop_of_loopStateAfter (pass ctxErr : Nat → Option GoError) :
    ∀ n s, loopStateAfter pass ctxErr n = some s →
      ∀ fuel, mainLoop pass ctxErr (n + fuel) = mainLoopFrom pass ctxErr fuel n s := by
  intro n
  induction n with
  | zero =>
    intro s hs fuel
    simp only [loopStateAfter] at hs
    cases hs
    simp [mainLoop]
  | succ n ih =>
    intro s hs fuel
    simp only [loopStateAfter] at hs
    cases hprev : loopStateAfter pass ctxErr n with
    | none => simp [hprev] at hs
    | some s0 =>
      simp only [hprev] at hs
      cases hb : loopBody (pass n) (ctxErr n) s0 with
      | inl e => simp [hb] at hs
      | inr s1 =>
        simp only [hb] at hs
        cases hs
        have e : n + 1 + fuel = n + (fuel + 1) := by omega
        rw [e, ih s0 hprev (fuel + 1)]
        simp only [mainLoopFrom, hb]

theorem loopStateAfter_nErrors_le (pass ctxErr : Nat → Option GoError) :
    ∀ n s, loopStateAfter pass ctxErr n = some s → s.nErrors ≤ 10 := by
  intro n
  induction n with
  | zero =>
    intro s hs
    simp only [loopStateAfter] at hs
    cases hs
    exact Nat.zero_le _
  | succ n ih =>
    intro s hs
    simp only [loopStateAfter] at hs
    cases hprev : loopStateAfter pass ctxErr n with
    | none => simp [hprev] at hs
    | some s0 =>
      simp only [hprev, loopBody] at hs
      cases hp : pass n with
      | none =>
        cases hc : ctxErr n with
        | none => simp only [hp, hc] at hs; cases hs; exact Nat.zero_le _
        | some e => simp [hp, hc] at hs
      | some pe =>
        simp only [hp] at hs
        by_cases hgt : maxConsecutiveErrors < (s0.nErrors + 1) % uintSize
        · simp [hgt] at hs
        · cases hc : ctxErr n with
          | none =>
            simp only [hgt, hc, if_false] at hs
            cases hs
            simp only [maxConsecutiveErrors] at hgt
            show (s0.nErrors + 1) % uintSize ≤ 10
            omega
          | some e => simp [hgt, hc] at hs

theorem mainLoopFrom_isSome_congr (pass pass' ctxErr : Nat → Option GoError)
    (hsame : ∀ n, (pass n).isSome = (pass' n).isSome) :
    ∀ fuel n s, (mainLoopFrom pass ctxErr fuel n s).isSome
      = (mainLoopFrom pass' ctxErr fuel n s).isSome := by
  intro fuel
  induction fuel with
  | zero => intro n s; rfl
  | succ fuel ih =>
    intro n s
    have h := hsame n
    cases hp : pass n with
    | none =>
      cases hp' : pass' n with
      | some _ => rw [hp, hp'] at h; simp at h
      | none =>
        simp only [mainLoopFrom, loopBody, hp, hp']
        cases ctxErr n with
        | none => exact ih _ _
        | some _ => rfl
    | some pe =>
      cases hp' : pass' n with
      | none => rw [hp, hp'] at h; simp at h
      | some pe' =>
        simp only [mainLoopFrom, loopBody, hp, hp']
        by_cases hgt : maxConsecutiveErrors < (s.nErrors + 1) % uintSize
        · simp [hgt]
        · simp only [hgt, if_false]
          cases ctxErr n with
          | none => exact ih _ _
          | some _ => rfl

/-- C9, as the claim has it, fails: ten passes fail and leave the counter at
ten, the context is cancelled during the eleventh pass, which fails too, and
`mainLoop` returns the too-many-errors error, not the error of the context. -/
theorem mainLoop_cancelled_at_cap_returns_other_error :
    loopStateAfter alwaysFailing (cancelledFrom 10) 10 = some ⟨10, 10⟩ ∧
    cancelledFrom 10 10 = some Canceled ∧
    mainLoop alwaysFailing (cancelledFrom 10) 11
      = some (tooManyErrors (GoError.new "lifter failed")) ∧
    mainLoop alwaysFailing (cancelledFrom 10) 11 ≠ some Canceled := by
  refine ⟨by decide, by decide, by decide, by decide⟩

/-- C9, amended: when the context is cancelled at the end of a pass, `mainLoop`
returns the error of the context as it is, if the pass succeeded or fewer
than ten passes had failed in a row before it; the counter is never above
ten, and when it is ten and the pass fails, `mainLoop` returns the
too-many-errors error that wraps the error of the pass. -/
theorem mainLoop_returns_context_error (pass ctxErr : Nat → Option GoError)
    (n : Nat) (s : LoopState) (e : GoError)
    (hs : loopStateAfter pass ctxErr n = some s) (hc : ctxErr n = some e) :
    s.nErrors ≤ 10 ∧
    ((pass n = none ∨ s.nErrors < 10) →
      ∀ fuel, n < fuel → mainLoop pass ctxErr fuel = some e) ∧
    (∀ pe, pass n = some pe → s.nErrors = 10 →
      ∀ fuel, n < fuel → mainLoop pass ctxErr fuel = some (tooManyErrors pe)) := by
  have key := mainLoop_of_loopStateAfter pass ctxErr n s hs
  refine ⟨loopStateAfter_nErrors_le pass ctxErr n s hs, ?_, ?_⟩
  · intro hcase fuel hfuel
    obtain ⟨k, rfl⟩ : ∃ k, fuel = n + (k + 1) := ⟨fuel - n - 1, by omega⟩
    rw [key (k + 1)]
    cases hp : pass n with
    | none => simp only [mainLoopFrom, loopBody, hp, hc]
    | some pe =>
      have hlt : s.nErrors < 10 := by
        cases hcase with
        | inl h => rw [hp] at h; cases h
        | inr h => exact h
      have hmod : (s.nErrors + 1) % uintSize = s.nErrors + 1 := by
        apply Nat.mod_eq_of_lt
        simp only [uintSize]; omega
      have hnot : ¬ maxConsecutiveErrors < s.nErrors + 1 := by
        simp only [maxConsecutiveErrors]; omega
      simp only [mainLoopFrom, loopBody, hp, hc, hmod, hnot, if_false]
  · intro pe hp hten fuel hfuel
    obtain ⟨k, rfl⟩ : ∃ k, fuel = n + (k + 1) := ⟨fuel - n - 1, by omega⟩
    rw [key (k + 1)]
    have hmod : (s.nErrors + 1) % uintSize = s.nErrors + 1 := by
      apply Nat.mod_eq_of_lt
      simp only [uintSize]; omega
    have hgt : maxConsecutiveErrors < s.nErrors + 1 := by
      simp only [maxConsecutiveErrors]; omega
    simp only [mainLoopFrom, loopBody, hp, hmod, hgt, if_true]

/-- C9, amended, at a context cancelled during the third pass of passes that all fail. -/
theorem mainLoop_returns_context_error_witness :
    mainLoop alwaysFailing (cancelledFrom 2) 3 = some Canceled :=
  (mainLoop_returns_context_error alwaysFailing (cancelledFrom 2) 2 ⟨2, 2⟩ Canceled
    (by decide) (by decide)).2.1 (Or.inr (by decide)) 3 (by decide)

/-- C10, as the claim has it, fails: the first pass fails with an error that
wraps a plan version mismatch, and `mainLoop` does not return; it counts one
failure, goes on to the second pass, and never returns as the later passes
succeed. -/
theorem mainLoop_version_mismatch_is_counted :
    Header.CheckVersion 20200601 oldHeader = versionMismatchError.Unwrap ∧
    versionMismatchError.Is ErrVersionMismatch = true ∧
    versionMismatchOnce 0 = some versionMismatchError ∧
    mainLoop versionMismatchOnce neverCancelled 1 = none ∧
    loopStateAfter versionMismatchOnce neverCancelled 1 = some ⟨1, 1⟩ ∧
    ∀ fuel, mainLoop versionMismatchOnce neverCancelled fuel = none := by
  refine ⟨by decide, by decide, by decide, by decide, by decide, ?_⟩
  intro fuel
  apply mainLoopFrom_running versionMismatchOnce neverCancelled (fun _ => rfl) fuel 0 ⟨0, 0⟩ rfl
  intro m _ _
  cases m with
  | zero => decide
  | succ k => simp [failRun, versionMismatchOnce]

/-- C10, amended: the instance loop turns every failed pass, whatever its
error, into an increment of the consecutive-failure counter and carries on,
except on cancellation and on too many consecutive errors. A failed pass
before which fewer than ten passes failed in a row, under a context that is
not cancelled, leaves the loop running with the counter one higher; and
which errors the failed passes return has no bearing on whether the loop
has returned: it is the same for any two runs that fail at the same passes. -/
theorem mainLoop_counts_every_failure (pass ctxErr : Nat → Option GoError) :
    (∀ n s pe, loopStateAfter pass ctxErr n = some s → pass n = some pe →
      ctxErr n = none → s.nErrors < 10 →
      loopStateAfter pass ctxErr (n + 1) = some ⟨(s.iter + 1) % uint64Size, s.nErrors + 1⟩) ∧
    (∀ pass', (∀ n, (pass n).isSome = (pass' n).isSome) →
      ∀ fuel, (mainLoop pass ctxErr fuel).isSome = (mainLoop pass' ctxErr fuel).isSome) := by
  refine ⟨?_, ?_⟩
  · intro n s pe hs hp hc hlt
    have hmod : (s.nErrors + 1) % uintSize = s.nErrors + 1 := by
      apply Nat.mod_eq_of_lt
      simp only [uintSize]; omega
    have hnot : ¬ maxConsecutiveErrors < s.nErrors + 1 := by
      simp only [maxConsecutiveErrors]; omega
    simp only [loopStateAfter, hs, loopBody, hp, hc, hmod, hnot, if_false]
  · intro pass' hsame fuel
    exact mainLoopFrom_isSome_congr pass pass' ctxErr hsame fuel 0 ⟨0, 0⟩


/-- C10, amended, at a first pass that fails with a version mismatch. -/
theorem mainLoop_counts_every_failure_witness :
    loopStateAfter versionMismatchOnce neverCancelled 1 = some ⟨1, 1⟩ :=
  (mainLoop_counts_every_failure versionMismatchOnce neverCancelled).1 0 ⟨0, 0⟩
    versionMismatchError rfl rfl rfl (by decide)

/-! ## The recipe interpreter: the input pool -/

theorem poolGet_nil (f : String) : poolGet [] f = false := rfl

theorem poolGet_cons (k : String) (v : Bool) (pool : List (String × Bool)) (f : String) :
    poolGet ((k, v) :: pool) f = if f = k then v else poolGet pool f := by
  unfold poolGet
  by_cases h : f = k
  · subst h; simp [List.lookup]
  · have : (f == k) = false := by simpa using h
    simp [List.lookup, this, h]

theorem mem_poolKeys_of_poolGet (pool : List (String × Bool)) (f : String) :
    poolGet pool f = true → f ∈ poolKeys pool := by
  induction pool with
  | nil => intro h; simp [poolGet_nil] at h
  | cons kv pool ih =>
    obtain ⟨k, v⟩ := kv
    intro h
    rw [poolGet_cons] at h
    by_cases hk : f = k
    · subst hk; simp [poolKeys]
    · simp only [hk, if_false] at h
      have := ih h
      simp only [poolKeys, List.map_cons, List.mem_cons] at this ⊢
      exact Or.inr this

theorem poolGet_map_set (pool : List (String × Bool)) (file : String) (v : Bool) (g : String) :
    poolGet (pool.map (fun kv => if kv.1 = file then (kv.1, v) else kv)) g
      = if g = file ∧ g ∈ poolKeys pool then v else poolGet pool g := by
  induction pool with
  | nil => simp [poolGet_nil, poolKeys]
  | cons kv pool ih =>
    obtain ⟨k, w⟩ := kv
    by_cases hk : k = file
    · subst hk
      simp only [List.map_cons, if_true, poolGet_cons]
      by_cases hg : g = k
      · subst hg; simp [poolKeys]
      · simp only [hg, if_false, false_and] at ih ⊢
        exact ih
    · simp only [List.map_cons, hk, if_false, poolGet_cons]
      by_cases hg : g = k
      · subst hg
        have : ¬ g = file := hk
        simp [this]
      · simp only [hg, if_false]
        rw [ih]
        simp [poolKeys, hg]

theorem poolGet_append_single (pool : List (String × Bool)) (file : String) (v : Bool)
    (g : String) (hnot : file ∉ poolKeys pool) :
    poolGet (pool ++ [(file, v)]) g = if g = file then v else poolGet pool g := by
  induction pool with
  | nil => simp [poolGet_cons, poolGet_nil]
  | cons kv pool ih =>
    obtain ⟨k, w⟩ := kv
    have hk : file ≠ k := by
      intro h; apply hnot; simp [poolKeys, h]
    have hnot2 : file ∉ poolKeys pool := by
      intro h; apply hnot
      simp only [poolKeys, List.map_cons, List.mem_cons] at h ⊢
      exact Or.inr h
    simp only [List.cons_append, poolGet_cons, ih hnot2]
    by_cases hg : g = k
    · subst hg
      have : ¬ g = file := fun h => hk h.symm
      simp [this]
    · simp [hg]

/-- Reading a map after a write. -/
theorem poolGet_poolSet (pool : List (String × Bool)) (file : String) (v : Bool) (g : String) :
    poolGet (poolSet pool file v) g = if g = file then v else poolGet pool g := by
  unfold poolSet
  by_cases hmem : file ∈ poolKeys pool
  · simp only [hmem, if_true]
    rw [poolGet_map_set]
    by_cases hg : g = file
    · subst hg; simp [hmem]
    · simp [hg]
  · simp only [hmem, if_false]
    exact poolGet_append_single pool file v g hmem

/-- A write at a key of the map leaves the keys as they are. -/
theorem poolKeys_poolSet_of_mem (pool : List (String × Bool)) (file : String) (v : Bool)
    (hmem : file ∈ poolKeys pool) : poolKeys (poolSet pool file v) = poolKeys pool := by
  unfold poolSet
  rw [if_pos hmem]
  simp only [poolKeys, List.map_map]
  apply List.map_congr_left
  intro kv _
  by_cases h : kv.1 = file <;> simp [h]


/-- C3: `PushInput` fails exactly when the file is not in the pool or is
consumed; it then fails with `ErrFileUnavailable` and leaves the interpreter,
pool and stack included, as it was. Otherwise it returns no error, marks the
file consumed, changes no other entry of the pool, and puts the file on top
of the stack. -/
theorem pushInput_spec (env : Env) (p : Interpreter) (file : String) :
    ((pushInput env p file).2.isSome = true ↔
      (file ∉ poolKeys p.inPool ∨ poolGet p.inPool file = false)) ∧
    ((file ∉ poolKeys p.inPool ∨ poolGet p.inPool file = false) →
      (pushInput env p file).1 = p ∧
      ∃ e, (pushInput env p file).2 = some e ∧ e.Is ErrFileUnavailable = true) ∧
    ((file ∈ poolKeys p.inPool ∧ poolGet p.inPool file = true) →
      (pushInput env p file).2 = none ∧
      poolGet (pushInput env p file).1.inPool file = false ∧
      (∀ g, g ≠ file → poolGet (pushInput env p file).1.inPool g = poolGet p.inPool g) ∧
      poolKeys (pushInput env p file).1.inPool = poolKeys p.inPool ∧
      (pushInput env p file).1.fileStack = p.fileStack ++ [file] ∧
      (pushInput env p file).1.fileStack.getLast? = some file) := by
  have hiff : (file ∉ poolKeys p.inPool ∨ poolGet p.inPool file = false) ↔
      poolGet p.inPool file = false := by
    constructor
    · intro h
      cases h with
      | inl h =>
        cases hg : poolGet p.inPool file with
        | false => rfl
        | true => exact absurd (mem_poolKeys_of_poolGet _ _ hg) h
      | inr h => exact h
    · intro h; exact Or.inr h
  refine ⟨?_, ?_, ?_⟩
  · rw [hiff]
    cases hg : poolGet p.inPool file <;> simp [pushInput, hg]
  · intro h
    have hg := hiff.mp h
    refine ⟨by simp [pushInput, hg],
      GoError.errorf "" ErrFileUnavailable (": " ++ env.quote file),
      by simp [pushInput, hg], ?_⟩
    simp [GoError.Is, ErrFileUnavailable]
  · rintro ⟨hmem, hg⟩
    simp only [pushInput, hg, Bool.not_true, pushInputRaw, stackPush]
    refine ⟨rfl, ?_, ?_, ?_, rfl, by simp⟩
    · simp [poolGet_poolSet]
    · intro g hne
      simp [poolGet_poolSet, hne]
    · exact poolKeys_poolSet_of_mem _ _ _ hmem

/-- C3 at the interpreter of the examples after its first instruction:
`a.c` is consumed and cannot be pushed, `hdr.h` is pushed. -/
theorem pushInput_spec_witness :
    (pushInput (exampleEnv driverOk) exampleBeforeObj "a.c").1 = exampleBeforeObj ∧
    (pushInput (exampleEnv driverOk) exampleBeforeObj "hdr.h").1.fileStack
      = ["a.c", "b.c", "hdr.h"] :=
  ⟨((pushInput_spec (exampleEnv driverOk) exampleBeforeObj "a.c").2.1
      (Or.inr (by decide))).1,
    ((pushInput_spec (exampleEnv driverOk) exampleBeforeObj "hdr.h").2.2
      ⟨by decide, by decide⟩).2.2.2.2.1⟩

/-! ## The recipe interpreter: what an instruction leaves alone -/

theorem pushInputsVisit_frame (env : Env) (kind : Kind) (p : Interpreter) (file : String) :
    (pushInputsVisit env kind p file).pc = p.pc ∧
    (pushInputsVisit env kind p file).job = p.job ∧
    (pushInputsVisit env kind p file).executed = p.executed ∧
    (pushInputsVisit env kind p file).maxobjs = p.maxobjs ∧
    (pushInputsVisit env kind p file).nobjs = p.nobjs ∧
    (pushInputsVisit env kind p file).calls = p.calls := by
  unfold pushInputsVisit
  split <;> simp [pushInputRaw]

theorem foldl_pushInputsVisit_frame (env : Env) (kind : Kind) (order : List String) :
    ∀ p : Interpreter,
    (order.foldl (pushInputsVisit env kind) p).pc = p.pc ∧
    (order.foldl (pushInputsVisit env kind) p).job = p.job ∧
    (order.foldl (pushInputsVisit env kind) p).executed = p.executed ∧
    (order.foldl (pushInputsVisit env kind) p).maxobjs = p.maxobjs ∧
    (order.foldl (pushInputsVisit env kind) p).nobjs = p.nobjs ∧
    (order.foldl (pushInputsVisit env kind) p).calls = p.calls := by
  induction order with
  | nil => intro p; simp
  | cons f order ih =>
    intro p
    simp only [List.foldl_cons]
    obtain ⟨a1, a2, a3, a4, a5, a6⟩ := ih (pushInputsVisit env kind p f)
    obtain ⟨b1, b2, b3, b4, b5, b6⟩ := pushInputsVisit_frame env kind p f
    exact ⟨a1.trans b1, a2.trans b2, a3.trans b3, a4.trans b4, a5.trans b5, a6.trans b6⟩

theorem compile_frame (env : Env) (p : Interpreter) (out : String) (kind : CompileKind)
    (npops : Int) :
    (compile env p out kind npops).1.pc = p.pc ∧
    (compile env p out kind npops).1.job = p.job ∧
    (compile env p out kind npops).1.executed = p.executed ∧
    (compile env p out kind npops).1.maxobjs = p.maxobjs ∧
    (compile env p out kind npops).1.inPool = p.inPool ∧
    (compile env p out kind npops).1.pushed = p.pushed ∧
    (compile env p out kind npops).1.nobjs = p.nobjs := by
  simp [compile, singleCompile]

theorem compileObj_frame (env : Env) (p : Interpreter) (npops : Int) :
    (compileObj env p npops).1.pc = p.pc ∧
    (compileObj env p npops).1.job = p.job ∧
    (compileObj env p npops).1.executed = p.executed ∧
    (compileObj env p npops).1.maxobjs = p.maxobjs ∧
    (compileObj env p npops).1.inPool = p.inPool ∧
    (compileObj env p npops).1.pushed = p.pushed := by
  unfold compileObj freshObj
  by_cases h : p.nobjs = p.maxobjs
  · simp [h]
  · simp only [h, if_false]
    cases hr : env.RunCompiler p.calls
        ⟨CompileKind.Obj, p.job.Compiler, (stackPop p.fileStack npops).1,
          env.pathJoin p.job.Recipe.Dir ("obj_" ++ toString p.nobjs ++ ".o")⟩ <;>
      simp [compile, singleCompile, hr]

/-- An instruction changes neither the program counter, nor the job, nor
the cap, nor the record of the instructions executed. -/
theorem processInstruction_frame (env : Env) (p : Interpreter) (i : Instruction) :
    (processInstruction env p i).1.pc = p.pc ∧
    (processInstruction env p i).1.job = p.job ∧
    (processInstruction env p i).1.executed = p.executed ∧
    (processInstruction env p i).1.maxobjs = p.maxobjs := by
  unfold processInstruction
  cases hop : i.Op
  · simp
  · simp only [pushInput]
    split <;> simp [pushInputRaw]
  · simp only [pushInputs]
    obtain ⟨a1, a2, a3, a4, _, _⟩ := foldl_pushInputsVisit_frame env i.FileKind
      (env.rangeOrder p.executed.length (poolKeys p.inPool)) p
    exact ⟨a1, a2, a3, a4⟩
  · obtain ⟨a1, a2, a3, a4, _, _⟩ := compileObj_frame env p i.NPops
    exact ⟨a1, a2, a3, a4⟩
  · obtain ⟨a1, a2, a3, a4, _, _, _⟩ := compile_frame env p p.job.Out CompileKind.Exe i.NPops
    exact ⟨a1, a2, a3, a4⟩
  · simp
  · simp


/-! ## The recipe interpreter: pushes and the pool -/

theorem PushStep.refl (p : Interpreter) : PushStep p p :=
  ⟨[], by simp, List.nodup_nil, fun f hf => absurd hf (List.not_mem_nil f), fun _ h => h⟩

theorem PushStep.of_eq (p q : Interpreter) (h1 : q.inPool = p.inPool)
    (h2 : q.pushed = p.pushed) : PushStep p q :=
  ⟨[], by simp [h2], List.nodup_nil, fun f hf => absurd hf (List.not_mem_nil f),
    fun _ h => by rw [h1]; exact h⟩

theorem PushStep.trans (p q r : Interpreter) (h1 : PushStep p q) (h2 : PushStep q r) :
    PushStep p r := by
  obtain ⟨a1, e1, n1, f1, m1⟩ := h1
  obtain ⟨a2, e2, n2, f2, m2⟩ := h2
  refine ⟨a1 ++ a2, by rw [e2, e1, List.append_assoc], ?_, ?_, ?_⟩
  · rw [List.nodup_append]
    refine ⟨n1, n2, ?_⟩
    intro f hf1 hf2
    have := (f1 f hf1).2
    rw [(f2 f hf2).1] at this
    cases this
  · intro f hf
    rcases List.mem_append.mp hf with hf | hf
    · exact ⟨(f1 f hf).1, m2 f (f1 f hf).2⟩
    · refine ⟨?_, (f2 f hf).2⟩
      cases hp : poolGet p.inPool f with
      | true => rfl
      | false =>
        have := m1 f hp
        rw [(f2 f hf).1] at this
        cases this
  · intro f hf
    exact m2 f (m1 f hf)

theorem pushInputRaw_pushStep (p : Interpreter) (file : String)
    (h : poolGet p.inPool file = true) : PushStep p (pushInputRaw p file) := by
  refine ⟨[file], rfl, List.nodup_singleton file, ?_, ?_⟩
  · intro f hf
    have : f = file := by simpa using hf
    subst this
    exact ⟨h, by simp [pushInputRaw, poolGet_poolSet]⟩
  · intro f hf
    simp only [pushInputRaw, poolGet_poolSet]
    split
    · rfl
    · exact hf

theorem pushInputsVisit_pushStep (env : Env) (kind : Kind) (p : Interpreter) (file : String) :
    PushStep p (pushInputsVisit env kind p file) := by
  unfold pushInputsVisit
  split
  · rename_i h
    have : poolGet p.inPool file = true := by
      simp only [Bool.and_eq_true] at h
      exact h.1
    exact pushInputRaw_pushStep p file this
  · exact PushStep.refl p

theorem foldl_pushInputsVisit_pushStep (env : Env) (kind : Kind) (order : List String) :
    ∀ p : Interpreter, PushStep p (order.foldl (pushInputsVisit env kind) p) := by
  induction order with
  | nil => intro p; exact PushStep.refl p
  | cons f order ih =>
    intro p
    simp only [List.foldl_cons]
    exact PushStep.trans _ _ _ (pushInputsVisit_pushStep env kind p f) (ih _)

theorem processInstruction_pushStep (env : Env) (p : Interpreter) (i : Instruction) :
    PushStep p (processInstruction env p i).1 := by
  unfold processInstruction
  cases hop : i.Op
  · exact PushStep.refl p
  · simp only [pushInput]
    cases hg : poolGet p.inPool i.File
    · exact PushStep.refl p
    · exact pushInputRaw_pushStep p i.File hg
  · exact foldl_pushInputsVisit_pushStep env i.FileKind _ p
  · obtain ⟨_, _, _, _, a5, a6⟩ := compileObj_frame env p i.NPops
    exact PushStep.of_eq _ _ a5 a6
  · obtain ⟨_, _, _, _, a5, a6, _⟩ := compile_frame env p p.job.Out CompileKind.Exe i.NPops
    exact PushStep.of_eq _ _ a5 a6
  · exact PushStep.refl p
  · exact PushStep.refl p

theorem interpretStep_pushStep (env : Env) (p : Interpreter) (i : Instruction) :
    PushStep p (interpretStep env p i).1 := by
  have h := processInstruction_pushStep env { p with executed := p.executed ++ [p.pc] } i
  unfold interpretStep
  cases hr : processInstruction env { p with executed := p.executed ++ [p.pc] } i with
  | mk q err =>
    rw [hr] at h
    cases err with
    | none => exact h
    | some e => exact h

theorem interpretLoop_succ_none (env : Env) (fuel : Nat) (p : Interpreter)
    (hi : p.job.Recipe.Instructions[p.pc]? = none) :
    interpretLoop env (fuel + 1) p = (p, none) := by
  simp only [interpretLoop, hi]

theorem interpretLoop_succ_err (env : Env) (fuel : Nat) (p q : Interpreter) (i : Instruction)
    (e : GoError) (hi : p.job.Recipe.Instructions[p.pc]? = some i)
    (hr : interpretStep env p i = (q, some e)) :
    interpretLoop env (fuel + 1) p = (q, some e) := by
  simp only [interpretLoop, hi, hr]

theorem interpretLoop_succ_ok (env : Env) (fuel : Nat) (p q : Interpreter) (i : Instruction)
    (hi : p.job.Recipe.Instructions[p.pc]? = some i)
    (hr : interpretStep env p i = (q, none)) :
    interpretLoop env (fuel + 1) p = interpretLoop env fuel q := by
  simp only [interpretLoop, hi, hr]

theorem interpretLoop_pushStep (env : Env) :
    ∀ fuel p, PushStep p (interpretLoop env fuel p).1 := by
  intro fuel
  induction fuel with
  | zero => intro p; exact PushStep.refl p
  | succ fuel ih =>
    intro p
    cases hi : p.job.Recipe.Instructions[p.pc]? with
    | none => rw [interpretLoop_succ_none env fuel p hi]; exact PushStep.refl p
    | some i =>
      have h := interpretStep_pushStep env p i
      cases hr : interpretStep env p i with
      | mk q err =>
        rw [hr] at h
        cases err with
        | some e => rw [interpretLoop_succ_err env fuel p q i e hi hr]; exact h
        | none =>
          rw [interpretLoop_succ_ok env fuel p q i hi hr]
          exact PushStep.trans _ _ _ h (ih q)

theorem interpretMany_pushStep (envs : List Env) :
    ∀ p, PushStep p (InterpretMany envs p) := by
  induction envs with
  | nil => intro p; exact PushStep.refl p
  | cons env envs ih =>
    intro p
    simp only [InterpretMany, List.foldl_cons]
    exact PushStep.trans _ _ _ (interpretLoop_pushStep env _ p) (ih _)

theorem poolKeys_poolSet_of_not_mem (pool : List (String × Bool)) (file : String) (v : Bool)
    (hmem : file ∉ poolKeys pool) : poolKeys (poolSet pool file v) = poolKeys pool ++ [file] := by
  unfold poolSet
  rw [if_neg hmem]
  simp [poolKeys]

theorem poolKeys_poolSet_nodup (pool : List (String × Bool)) (file : String) (v : Bool)
    (h : (poolKeys pool).Nodup) : (poolKeys (poolSet pool file v)).Nodup := by
  by_cases hmem : file ∈ poolKeys pool
  · rw [poolKeys_poolSet_of_mem _ _ _ hmem]; exact h
  · rw [poolKeys_poolSet_of_not_mem _ _ _ hmem]
    rw [List.nodup_append]
    refine ⟨h, List.nodup_singleton file, ?_⟩
    intro f hf1 hf2
    have : f = file := by simpa using hf2
    subst this
    exact hmem hf1

theorem foldl_poolSet_true (paths : List String) :
    ∀ pool : List (String × Bool), (poolKeys pool).Nodup →
      (poolKeys (paths.foldl (fun q f => poolSet q f true) pool)).Nodup ∧
      ∀ f, poolGet (paths.foldl (fun q f => poolSet q f true) pool) f = true ↔
        (f ∈ paths ∨ poolGet pool f = true) := by
  induction paths with
  | nil => intro pool h; exact ⟨h, fun f => by simp⟩
  | cons a paths ih =>
    intro pool h
    simp only [List.foldl_cons]
    obtain ⟨h1, h2⟩ := ih (poolSet pool a true) (poolKeys_poolSet_nodup pool a true h)
    refine ⟨h1, ?_⟩
    intro f
    rw [h2 f, poolGet_poolSet]
    by_cases hfa : f = a
    · subst hfa; simp
    · simp [hfa]

/-- The pool of a new interpreter has each input once, as available. -/
theorem initPool_spec (paths : List String) :
    (poolKeys (initPool paths)).Nodup ∧
    ∀ f, poolGet (initPool paths) f = true ↔ f ∈ paths := by
  obtain ⟨h1, h2⟩ := foldl_poolSet_true paths [] (by simp [poolKeys])
  refine ⟨h1, ?_⟩
  intro f
  have := h2 f
  simpa [initPool, poolGet_nil] using this

/-- C4: in the interpreter reached from a new one by any calls of
`Interpret`, no input path was pushed twice, and every path pushed is an
input of the job that is now consumed; the pool of the new interpreter holds
each input once. At every instruction and in every state, an entry that is
consumed stays consumed, and the files the instruction pushes as inputs were
available before it. -/
theorem inputs_pushed_at_most_once (j : RecipeJob) (cap : Option Nat) (p0 : Interpreter)
    (envs : List Env) (h0 : NewInterpreter j cap = Except.ok p0) :
    (InterpretMany envs p0).pushed.Nodup ∧
    (∀ f, f ∈ (InterpretMany envs p0).pushed →
      f ∈ j.In ∧ poolGet (InterpretMany envs p0).inPool f = false) ∧
    (poolKeys p0.inPool).Nodup ∧
    (∀ (env : Env) (q : Interpreter) (i : Instruction),
      (∀ f, poolGet q.inPool f = false →
        poolGet (processInstruction env q i).1.inPool f = false) ∧
      ∃ added, (processInstruction env q i).1.pushed = q.pushed ++ added ∧ added.Nodup ∧
        ∀ f, f ∈ added → poolGet q.inPool f = true) := by
  have hp0 : p0.pushed = [] ∧ p0.inPool = initPool j.In := by
    unfold NewInterpreter at h0
    cases hc : j.Compiler with
    | none => simp [hc] at h0
    | some c =>
      simp only [hc] at h0
      cases h0
      exact ⟨rfl, rfl⟩
  obtain ⟨added, e, nd, f1, _⟩ := interpretMany_pushStep envs p0
  rw [hp0.1, List.nil_append] at e
  refine ⟨by rw [e]; exact nd, ?_, by rw [hp0.2]; exact (initPool_spec j.In).1, ?_⟩
  · intro f hf
    rw [e] at hf
    obtain ⟨a, b⟩ := f1 f hf
    rw [hp0.2] at a
    exact ⟨((initPool_spec j.In).2 f).mp a, b⟩
  · intro env q i
    obtain ⟨added, e, nd, f1, m1⟩ := processInstruction_pushStep env q i
    exact ⟨m1, added, e, nd, fun f hf => (f1 f hf).1⟩


/-- C4 at two calls of `Interpret` on the job of the examples. -/
theorem inputs_pushed_at_most_once_witness :
    (InterpretMany [exampleEnv driverFailsOnce, exampleEnv driverFailsOnce] exampleStart).pushed
      = ["a.c", "b.c", "hdr.h"] ∧
    (InterpretMany [exampleEnv driverFailsOnce, exampleEnv driverFailsOnce]
      exampleStart).pushed.Nodup :=
  ⟨by decide,
    (inputs_pushed_at_most_once exampleJob none exampleStart
      [exampleEnv driverFailsOnce, exampleEnv driverFailsOnce] rfl).1⟩

/-! ## The recipe interpreter: compiling -/

theorem stackPop_append (s : List String) (npops : Int) :
    (stackPop s npops).2 ++ (stackPop s npops).1 = s := by
  simp [stackPop]

theorem stackPop_all (s : List String) : stackPop s PopAll = (s, []) := by
  simp [stackPop, popCount, PopAll]

theorem stackPop_length (s : List String) (npops : Int) (h1 : 0 < npops)
    (h2 : npops ≤ (s.length : Int)) : ((stackPop s npops).1.length : Int) = npops := by
  have hc : popCount s.length npops = npops.toNat := by
    unfold popCount PopAll
    rw [if_neg]
    omega
  simp only [stackPop, hc, List.length_drop]
  omega

theorem compileObj_of_room (env : Env) (p : Interpreter) (npops : Int)
    (hk : p.nobjs ≠ p.maxobjs) :
    compileObj env p npops =
      match env.RunCompiler p.calls
          ⟨CompileKind.Obj, p.job.Compiler, (stackPop p.fileStack npops).1,
            env.pathJoin p.job.Recipe.Dir ("obj_" ++ toString p.nobjs ++ ".o")⟩ with
      | some err =>
        ({ p with
            nobjs := (p.nobjs + 1) % uint64Size,
            fileStack := (stackPop p.fileStack npops).2,
            calls := p.calls ++
              [⟨CompileKind.Obj, p.job.Compiler, (stackPop p.fileStack npops).1,
                env.pathJoin p.job.Recipe.Dir ("obj_" ++ toString p.nobjs ++ ".o")⟩] },
          some err)
      | none =>
        ({ p with
            nobjs := (p.nobjs + 1) % uint64Size,
            fileStack := (stackPop p.fileStack npops).2 ++
              [env.pathJoin p.job.Recipe.Dir ("obj_" ++ toString p.nobjs ++ ".o")],
            calls := p.calls ++
              [⟨CompileKind.Obj, p.job.Compiler, (stackPop p.fileStack npops).1,
                env.pathJoin p.job.Recipe.Dir ("obj_" ++ toString p.nobjs ++ ".o")⟩] },
          none) := by
  unfold compileObj freshObj
  simp only [hk, if_false]
  cases hr : env.RunCompiler p.calls
      ⟨CompileKind.Obj, p.job.Compiler, (stackPop p.fileStack npops).1,
        env.pathJoin p.job.Recipe.Dir ("obj_" ++ toString p.nobjs ++ ".o")⟩ <;>
    simp [compile, singleCompile, hr]

theorem compileObj_of_full (env : Env) (p : Interpreter) (npops : Int)
    (hk : p.nobjs = p.maxobjs) : compileObj env p npops = (p, some ErrObjOverflow) := by
  unfold compileObj freshObj
  simp [hk]

/-- C5: with `k` objects made, `k` below the cap, a `CompileObj` whose
driver call succeeds returns no error after one call of the driver, for an
object, with the popped files as inputs and `path.Join(dir, "obj_k.o")` as
output; that path is then the top of the stack, above the files that were
not popped, and the counter is `k + 1`. The files popped are the whole stack
when `npops` is `PopAll`, and `npops` files when the stack has that many. -/
theorem compileObj_success (env : Env) (p : Interpreter) (npops : Int)
    (hk : p.nobjs < p.maxobjs) (hmax : p.maxobjs < uint64Size)
    (hok : env.RunCompiler p.calls
      ⟨CompileKind.Obj, p.job.Compiler, (stackPop p.fileStack npops).1,
        env.pathJoin p.job.Recipe.Dir ("obj_" ++ toString p.nobjs ++ ".o")⟩ = none) :
    (compileObj env p npops).2 = none ∧
    (compileObj env p npops).1.calls = p.calls ++
      [⟨CompileKind.Obj, p.job.Compiler, (stackPop p.fileStack npops).1,
        env.pathJoin p.job.Recipe.Dir ("obj_" ++ toString p.nobjs ++ ".o")⟩] ∧
    (compileObj env p npops).1.fileStack = (stackPop p.fileStack npops).2 ++
      [env.pathJoin p.job.Recipe.Dir ("obj_" ++ toString p.nobjs ++ ".o")] ∧
    (compileObj env p npops).1.fileStack.getLast? =
      some (env.pathJoin p.job.Recipe.Dir ("obj_" ++ toString p.nobjs ++ ".o")) ∧
    (compileObj env p npops).1.nobjs = p.nobjs + 1 ∧
    (stackPop p.fileStack npops).2 ++ (stackPop p.fileStack npops).1 = p.fileStack ∧
    (npops = PopAll → (stackPop p.fileStack npops).1 = p.fileStack) ∧
    (0 < npops → npops ≤ (p.fileStack.length : Int) →
      ((stackPop p.fileStack npops).1.length : Int) = npops) := by
  have hne : p.nobjs ≠ p.maxobjs := Nat.ne_of_lt hk
  have hmod : (p.nobjs + 1) % uint64Size = p.nobjs + 1 :=
    Nat.mod_eq_of_lt (by omega)
  rw [compileObj_of_room env p npops hne, hok]
  refine ⟨rfl, rfl, rfl, by simp, hmod, stackPop_append _ _, ?_, stackPop_length _ _⟩
  intro h
  rw [h, stackPop_all]

/-- C5 at the object compile of the examples. -/
theorem compileObj_success_witness :
    (compileObj (exampleEnv driverOk) exampleBeforeObj PopAll).1.calls
      = [⟨CompileKind.Obj, some "gcc", ["a.c", "b.c"], "dir/obj_0.o"⟩] ∧
    (compileObj (exampleEnv driverOk) exampleBeforeObj PopAll).1.fileStack = ["dir/obj_0.o"] ∧
    (compileObj (exampleEnv driverOk) exampleBeforeObj PopAll).1.nobjs = 0 + 1 :=
  have h := compileObj_success (exampleEnv driverOk) exampleBeforeObj PopAll
    (by decide) (by decide) rfl
  ⟨h.2.1, h.2.2.1, h.2.2.2.2.1⟩

/-! ## The recipe interpreter: properties kept by every run -/

theorem interpretLoop_invariant (Q : Interpreter → Prop) (env : Env)
    (hstep : ∀ p i, Q p → Q (interpretStep env p i).1) :
    ∀ fuel p, Q p → Q (interpretLoop env fuel p).1 := by
  intro fuel
  induction fuel with
  | zero => intro p hp; exact hp
  | succ fuel ih =>
    intro p hp
    cases hi : p.job.Recipe.Instructions[p.pc]? with
    | none => rw [interpretLoop_succ_none env fuel p hi]; exact hp
    | some i =>
      have h := hstep p i hp
      cases hr : interpretStep env p i with
      | mk q err =>
        rw [hr] at h
        cases err with
        | some e => rw [interpretLoop_succ_err env fuel p q i e hi hr]; exact h
        | none =>
          rw [interpretLoop_succ_ok env fuel p q i hi hr]
          exact ih q h

theorem interpretMany_invariant (Q : Interpreter → Prop)
    (hstep : ∀ env p i, Q p → Q (interpretStep env p i).1) :
    ∀ (envs : List Env) p, Q p → Q (InterpretMany envs p) := by
  intro envs
  induction envs with
  | nil => intro p hp; exact hp
  | cons env envs ih =>
    intro p hp
    simp only [InterpretMany, List.foldl_cons]
    exact ih _ (interpretLoop_invariant Q env (hstep env) _ p hp)

theorem processInstruction_nobjs (env : Env) (p : Interpreter) (i : Instruction)
    (h : p.nobjs ≤ p.maxobjs ∧ p.maxobjs < uint64Size) :
    (processInstruction env p i).1.nobjs ≤ (processInstruction env p i).1.maxobjs ∧
    (processInstruction env p i).1.maxobjs < uint64Size := by
  have hm := (processInstruction_frame env p i).2.2.2
  rw [hm]
  refine ⟨?_, h.2⟩
  unfold processInstruction
  cases hop : i.Op
  · exact h.1
  · simp only [pushInput]
    split
    · exact h.1
    · exact h.1
  · simp only [pushInputs]
    rw [(foldl_pushInputsVisit_frame env i.FileKind _ p).2.2.2.2.1]
    exact h.1
  · by_cases hk : p.nobjs = p.maxobjs
    · simp only [compileObj_of_full env p i.NPops hk]; exact h.1
    · have hlt : p.nobjs < p.maxobjs := Nat.lt_of_le_of_ne h.1 hk
      have hmod : (p.nobjs + 1) % uint64Size = p.nobjs + 1 :=
        Nat.mod_eq_of_lt (by omega)
      simp only [compileObj_of_room env p i.NPops hk]
      split
      · show (p.nobjs + 1) % uint64Size ≤ p.maxobjs
        omega
      · show (p.nobjs + 1) % uint64Size ≤ p.maxobjs
        omega
  · simp only [compileExe]
    rw [(compile_frame env p p.job.Out CompileKind.Exe i.NPops).2.2.2.2.2.2]
    exact h.1
  · exact h.1
  · exact h.1

theorem interpretStep_nobjs (env : Env) (p : Interpreter) (i : Instruction)
    (h : p.nobjs ≤ p.maxobjs ∧ p.maxobjs < uint64Size) :
    (interpretStep env p i).1.nobjs ≤ (interpretStep env p i).1.maxobjs ∧
    (interpretStep env p i).1.maxobjs < uint64Size := by
  have hq := processInstruction_nobjs env { p with executed := p.executed ++ [p.pc] } i h
  unfold interpretStep
  cases hr : processInstruction env { p with executed := p.executed ++ [p.pc] } i with
  | mk q err =>
    rw [hr] at hq
    cases err with
    | none => exact hq
    | some e => exact hq


/-- C8, on the code: the driver fails the object compile of `exampleJob`;
the two files popped for it are then off the stack and the counter is 1, not
0, while the program counter stays at the instruction. The resumed
`Interpret` gives the driver another job for the instruction, with no inputs
and the output `dir/obj_1.o`, not the job that failed, and returns nil. -/
theorem compileObj_driver_error_changes_state :
    NewInterpreter exampleJob none = Except.ok exampleStart ∧
    (interpretStep (exampleEnv driverFailsOnce) exampleStart (PushInputsInst exampleCSrc)).1
      = exampleBeforeObj ∧
    (compileObj (exampleEnv driverFailsOnce) exampleBeforeObj PopAll).2
      = some (GoError.new "exit status 1") ∧
    exampleBeforeObj.fileStack = ["a.c", "b.c"] ∧
    (compileObj (exampleEnv driverFailsOnce) exampleBeforeObj PopAll).1.fileStack = [] ∧
    exampleBeforeObj.nobjs = 0 ∧
    (compileObj (exampleEnv driverFailsOnce) exampleBeforeObj PopAll).1.nobjs = 1 ∧
    (Interpret (exampleEnv driverFailsOnce) exampleStart).2
      = some (GoError.new "exit status 1") ∧
    (Interpret (exampleEnv driverFailsOnce) exampleStart).1.pc = 1 ∧
    (Interpret (exampleEnv driverFailsOnce)
        (Interpret (exampleEnv driverFailsOnce) exampleStart).1).2 = none ∧
    (Interpret (exampleEnv driverFailsOnce)
        (Interpret (exampleEnv driverFailsOnce) exampleStart).1).1.calls
      = [⟨CompileKind.Obj, some "gcc", ["a.c", "b.c"], "dir/obj_0.o"⟩,
         ⟨CompileKind.Obj, some "gcc", [], "dir/obj_1.o"⟩,
         ⟨CompileKind.Exe, some "gcc", ["dir/obj_1.o", "hdr.h"], "a.out"⟩] := by
  refine ⟨rfl, by decide, by decide, by decide, by decide, by decide, by decide,
    by decide, by decide, by decide, by decide⟩


/-- The state a driver error leaves: when the driver returns an error during
a `CompileObj` or `CompileExe` instruction, the input pool and the program
counter are as before the instruction, and the error is returned; the files
popped for the job stay off the file stack, and for `CompileObj` the object
counter stays one higher. -/
theorem compile_driver_error_state (env : Env) (p : Interpreter) (npops : Int) (e : GoError) :
    (env.RunCompiler p.calls
        ⟨CompileKind.Exe, p.job.Compiler, (stackPop p.fileStack npops).1, p.job.Out⟩ = some e →
      interpretStep env p (CompileExeInst npops) =
        ({ p with
            executed := p.executed ++ [p.pc],
            fileStack := (stackPop p.fileStack npops).2,
            calls := p.calls ++
              [⟨CompileKind.Exe, p.job.Compiler, (stackPop p.fileStack npops).1, p.job.Out⟩] },
          some e)) ∧
    (p.nobjs ≠ p.maxobjs →
      env.RunCompiler p.calls
        ⟨CompileKind.Obj, p.job.Compiler, (stackPop p.fileStack npops).1,
          env.pathJoin p.job.Recipe.Dir ("obj_" ++ toString p.nobjs ++ ".o")⟩ = some e →
      interpretStep env p (CompileObjInst npops) =
        ({ p with
            executed := p.executed ++ [p.pc],
            nobjs := (p.nobjs + 1) % uint64Size,
            fileStack := (stackPop p.fileStack npops).2,
            calls := p.calls ++
              [⟨CompileKind.Obj, p.job.Compiler, (stackPop p.fileStack npops).1,
                env.pathJoin p.job.Recipe.Dir ("obj_" ++ toString p.nobjs ++ ".o")⟩] },
          some e)) := by
  refine ⟨?_, ?_⟩
  · intro h
    simp [interpretStep, processInstruction, CompileExeInst, compileExe, compile,
      singleCompile, h]
  · intro hk h
    have hk2 : ({ p with executed := p.executed ++ [p.pc] } : Interpreter).nobjs
        ≠ ({ p with executed := p.executed ++ [p.pc] } : Interpreter).maxobjs := hk
    simp only [interpretStep, processInstruction, CompileObjInst]
    rw [compileObj_of_room env _ npops hk2]
    simp [h]

/-- The state a driver error leaves, at the failed object compile of
`exampleJob`. -/
theorem compile_driver_error_state_witness :
    interpretStep (exampleEnv driverFailsOnce) exampleBeforeObj (CompileObjInst PopAll) =
      ({ exampleBeforeObj with
          executed := [0, 1], nobjs := 1, fileStack := [],
          calls := [⟨CompileKind.Obj, some "gcc", ["a.c", "b.c"], "dir/obj_0.o"⟩] },
        some (GoError.new "exit status 1")) :=
  (compile_driver_error_state (exampleEnv driverFailsOnce) exampleBeforeObj PopAll
    (GoError.new "exit status 1")).2 (by decide) (by decide)

/-- C6: `freshObj` fails, with `ErrObjOverflow`, exactly when the counter
equals the cap. `CompileObj` then returns that error and leaves the
interpreter as it was, with no call of the driver; when the counter is not
at the cap it calls the driver once and returns what the driver returns.
The counter of an interpreter reached from a new one by any calls of
`Interpret` is at most the cap, and no instruction takes it above the cap. -/
theorem compileObj_overflow (env : Env) (p : Interpreter) (npops : Int) :
    ((freshObj env p).2 = Except.error ErrObjOverflow ↔ p.nobjs = p.maxobjs) ∧
    (p.nobjs = p.maxobjs → compileObj env p npops = (p, some ErrObjOverflow)) ∧
    (p.nobjs ≠ p.maxobjs →
      (freshObj env p).2 =
        Except.ok (env.pathJoin p.job.Recipe.Dir ("obj_" ++ toString p.nobjs ++ ".o")) ∧
      (compileObj env p npops).2 = env.RunCompiler p.calls
        ⟨CompileKind.Obj, p.job.Compiler, (stackPop p.fileStack npops).1,
          env.pathJoin p.job.Recipe.Dir ("obj_" ++ toString p.nobjs ++ ".o")⟩ ∧
      (compileObj env p npops).1.calls = p.calls ++
        [⟨CompileKind.Obj, p.job.Compiler, (stackPop p.fileStack npops).1,
          env.pathJoin p.job.Recipe.Dir ("obj_" ++ toString p.nobjs ++ ".o")⟩]) ∧
    (∀ (j : RecipeJob) (cap : Option Nat) (p0 : Interpreter) (envs : List Env),
      NewInterpreter j cap = Except.ok p0 →
      (InterpretMany envs p0).nobjs ≤ (InterpretMany envs p0).maxobjs) ∧
    (∀ i : Instruction, p.nobjs ≤ p.maxobjs → p.maxobjs < uint64Size →
      (processInstruction env p i).1.nobjs ≤ (processInstruction env p i).1.maxobjs) := by
  refine ⟨?_, compileObj_of_full env p npops, ?_, ?_,
    fun i h1 h2 => (processInstruction_nobjs env p i ⟨h1, h2⟩).1⟩
  · unfold freshObj
    by_cases h : p.nobjs = p.maxobjs
    · simp [h]
    · simp [h]
  · intro hk
    refine ⟨by simp [freshObj, hk], ?_, ?_⟩
    · rw [compileObj_of_room env p npops hk]
      split <;> simp_all
    · rw [compileObj_of_room env p npops hk]
      split <;> rfl
  · intro j cap p0 envs h0
    have hp0 : p0.nobjs ≤ p0.maxobjs ∧ p0.maxobjs < uint64Size := by
      unfold NewInterpreter at h0
      cases hc : j.Compiler with
      | none => simp [hc] at h0
      | some c =>
        simp only [hc] at h0
        cases h0
        refine ⟨Nat.zero_le _, ?_⟩
        cases cap with
        | none => simp [MaxUint64, uint64Size]
        | some m => exact Nat.mod_lt _ (by simp [uint64Size])
    exact (interpretMany_invariant
      (fun q => q.nobjs ≤ q.maxobjs ∧ q.maxobjs < uint64Size)
      (fun env q i hq => interpretStep_nobjs env q i hq) envs p0 hp0).1

/-- C6 at an interpreter whose cap is the number of objects it has made. -/
theorem compileObj_overflow_witness :
    compileObj (exampleEnv driverOk) { exampleBeforeObj with maxobjs := 0 } PopAll
      = ({ exampleBeforeObj with maxobjs := 0 }, some ErrObjOverflow) :=
  (compileObj_overflow (exampleEnv driverOk) { exampleBeforeObj with maxobjs := 0 }
    PopAll).2.1 rfl

/-! ## The recipe interpreter: the program counter -/

theorem interpretStep_pc (env : Env) (p : Interpreter) (i : Instruction) :
    (interpretStep env p i).1.job = p.job ∧
    (interpretStep env p i).1.executed = p.executed ++ [p.pc] ∧
    ((interpretStep env p i).2 = none → (interpretStep env p i).1.pc = p.pc + 1) ∧
    (∀ e, (interpretStep env p i).2 = some e → (interpretStep env p i).1.pc = p.pc) := by
  obtain ⟨a1, a2, a3, _⟩ :=
    processInstruction_frame env { p with executed := p.executed ++ [p.pc] } i
  unfold interpretStep
  cases hr : processInstruction env { p with executed := p.executed ++ [p.pc] } i with
  | mk q err =>
    rw [hr] at a1 a2 a3
    dsimp only at a1 a2 a3
    cases err with
    | none =>
      dsimp only
      refine ⟨a2, a3, fun _ => ?_, fun e he => ?_⟩
      · rw [a1]
      · cases he
    | some e =>
      dsimp only
      refine ⟨a2, a3, fun he => ?_, fun _ _ => a1⟩
      cases he

/-- What a run of the loop executes: the instructions at the program counter
and after it, one after the other, up to the one that fails or to the end. -/
theorem interpretLoop_executed (env : Env) :
    ∀ fuel p, ∃ m,
      (interpretLoop env fuel p).1.executed = p.executed ++ List.range' p.pc m ∧
      (interpretLoop env fuel p).1.job = p.job ∧
      (p.pc < p.job.Recipe.Instructions.length → 0 < fuel → 0 < m) ∧
      ((interpretLoop env fuel p).2 = none →
        (interpretLoop env fuel p).1.pc = p.pc + m ∧
        (p.job.Recipe.Instructions.length - p.pc ≤ fuel →
          p.job.Recipe.Instructions.length ≤ p.pc + m)) ∧
      (∀ e, (interpretLoop env fuel p).2 = some e →
        0 < m ∧ (interpretLoop env fuel p).1.pc + 1 = p.pc + m ∧
        (interpretLoop env fuel p).1.pc < p.job.Recipe.Instructions.length) := by
  intro fuel
  induction fuel with
  | zero =>
    intro p
    refine ⟨0, by simp [interpretLoop], rfl, fun _ h => absurd h (Nat.lt_irrefl 0),
      fun _ => ⟨rfl, fun h => by omega⟩, fun e he => by cases he⟩
  | succ fuel ih =>
    intro p
    cases hi : p.job.Recipe.Instructions[p.pc]? with
    | none =>
      have hlen : p.job.Recipe.Instructions.length ≤ p.pc := List.getElem?_eq_none_iff.mp hi
      rw [interpretLoop_succ_none env fuel p hi]
      refine ⟨0, by simp, rfl, fun h _ => by omega, fun _ => ⟨rfl, fun _ => hlen⟩,
        fun e he => by cases he⟩
    | some i =>
      have hlen : p.pc < p.job.Recipe.Instructions.length := by
        by_contra hc
        have := List.getElem?_eq_none_iff.mpr (Nat.le_of_not_lt hc)
        rw [this] at hi
        cases hi
      obtain ⟨b1, b2, b3, b4⟩ := interpretStep_pc env p i
      cases hr : interpretStep env p i with
      | mk q err =>
        rw [hr] at b1 b2 b3 b4
        cases err with
        | some e =>
          rw [interpretLoop_succ_err env fuel p q i e hi hr]
          have hq : q.pc = p.pc := b4 e rfl
          dsimp only at b1 b2 ⊢
          refine ⟨1, by simpa using b2, b1, fun _ _ => Nat.one_pos, fun he => ?_,
            fun e' _ => ⟨Nat.one_pos, by rw [hq], by rw [hq]; exact hlen⟩⟩
          cases he
        | none =>
          rw [interpretLoop_succ_ok env fuel p q i hi hr]
          have hq : q.pc = p.pc + 1 := b3 rfl
          obtain ⟨m, c1, c2, _, c4, c5⟩ := ih q
          simp only at b1 b2
          refine ⟨m + 1, ?_, c2.trans b1, fun _ _ => Nat.succ_pos m, ?_, ?_⟩
          · rw [c1, b2, hq, List.range'_succ, List.append_assoc]
            rfl
          · intro he
            obtain ⟨d1, d2⟩ := c4 he
            rw [hq] at d1 d2
            rw [b1] at d2
            exact ⟨by omega, fun h => by omega⟩
          · intro e he
            obtain ⟨d1, d2, d3⟩ := c5 e he
            rw [hq] at d2
            rw [b1] at d3
            exact ⟨Nat.succ_pos m, by omega, d3⟩


/-- C7: when `Interpret` returns an error, the program counter is the index
of the instruction that was being executed, the last one in the record of
executed instructions, and a later call executes that instruction first and
after it only instructions with a higher index. When `Interpret` returns
nil, the program counter is at the end of the recipe, and a second call
returns nil and leaves the interpreter as it is: it executes no instruction
and calls no driver. -/
theorem interpret_resumable (env env' : Env) (p : Interpreter) :
    (∀ e, (Interpret env p).2 = some e →
      (Interpret env p).1.pc < p.job.Recipe.Instructions.length ∧
      (Interpret env p).1.executed.getLast? = some (Interpret env p).1.pc ∧
      (∃ m, (Interpret env p).1.executed = p.executed ++ List.range' p.pc (m + 1) ∧
        (Interpret env p).1.pc = p.pc + m) ∧
      (∃ rest, (Interpret env' (Interpret env p).1).1.executed
          = (Interpret env p).1.executed ++ (Interpret env p).1.pc :: rest ∧
        ∀ x, x ∈ rest → (Interpret env p).1.pc < x)) ∧
    ((Interpret env p).2 = none →
      p.job.Recipe.Instructions.length ≤ (Interpret env p).1.pc ∧
      Interpret env' (Interpret env p).1 = ((Interpret env p).1, none)) := by
  obtain ⟨m, g1, g2, _, g4, g5⟩ :=
    interpretLoop_executed env (p.job.Recipe.Instructions.length - p.pc) p
  have hI : Interpret env p = interpretLoop env (p.job.Recipe.Instructions.length - p.pc) p := rfl
  rw [← hI] at g1 g2 g4 g5
  refine ⟨?_, ?_⟩
  · intro e he
    obtain ⟨d1, d2, d3⟩ := g5 e he
    obtain ⟨k, rfl⟩ : ∃ k, m = k + 1 := ⟨m - 1, by omega⟩
    have hpc : (Interpret env p).1.pc = p.pc + k := by omega
    refine ⟨d3, ?_, ⟨k, g1, hpc⟩, ?_⟩
    · rw [g1, List.range'_concat, ← List.append_assoc, List.getLast?_append]
      simp [hpc]
    · obtain ⟨m2, c1, _, c3, _, _⟩ := interpretLoop_executed env'
        ((Interpret env p).1.job.Recipe.Instructions.length - (Interpret env p).1.pc)
        (Interpret env p).1
      have hI2 : Interpret env' (Interpret env p).1 = interpretLoop env'
        ((Interpret env p).1.job.Recipe.Instructions.length - (Interpret env p).1.pc)
        (Interpret env p).1 := rfl
      rw [← hI2] at c1
      have hpos : 0 < m2 := c3 (by rw [g2]; exact d3) (by rw [g2]; omega)
      obtain ⟨k2, rfl⟩ : ∃ k2, m2 = k2 + 1 := ⟨m2 - 1, by omega⟩
      refine ⟨List.range' ((Interpret env p).1.pc + 1) k2, ?_, ?_⟩
      · rw [c1, List.range'_succ]
      · intro x hx
        have := List.mem_range'_1.mp hx
        omega
  · intro he
    obtain ⟨d1, d2⟩ := g4 he
    have hlen : p.job.Recipe.Instructions.length ≤ (Interpret env p).1.pc := by
      rw [d1]; exact d2 (le_refl _)
    refine ⟨hlen, ?_⟩
    have hI2 : Interpret env' (Interpret env p).1 = interpretLoop env'
      ((Interpret env p).1.job.Recipe.Instructions.length - (Interpret env p).1.pc)
      (Interpret env p).1 := rfl
    rw [hI2, g2]
    have hz : p.job.Recipe.Instructions.length - (Interpret env p).1.pc = 0 := by omega
    rw [hz]
    rfl


/-- C7 at the job of the examples: a run that is complete is not run again. -/
theorem interpret_resumable_witness :
    Interpret (exampleEnv driverFailsOnce) (Interpret (exampleEnv driverOk) exampleStart).1
      = ((Interpret (exampleEnv driverOk) exampleStart).1, none) :=
  ((interpret_resumable (exampleEnv driverOk) (exampleEnv driverFailsOnce) exampleStart).2
    (by decide)).2

/-! ## The recipe interpreter: scenario 6 -/

theorem perm_three_cases (l : List String) (h : l.Perm ["a.c", "b.c", "hdr.h"]) :
    l = ["a.c", "b.c", "hdr.h"] ∨ l = ["a.c", "hdr.h", "b.c"] ∨ l = ["b.c", "a.c", "hdr.h"] ∨
    l = ["b.c", "hdr.h", "a.c"] ∨ l = ["hdr.h", "a.c", "b.c"] ∨ l = ["hdr.h", "b.c", "a.c"] := by
  have hlen := h.length_eq
  have hnd : l.Nodup := h.nodup_iff.mpr (by decide)
  match l, hlen, hnd, h with
  | [x, y, z], _, hnd, h =>
    have hx : x ∈ ["a.c", "b.c", "hdr.h"] := h.subset (by simp)
    have hy : y ∈ ["a.c", "b.c", "hdr.h"] := h.subset (by simp)
    have hz : z ∈ ["a.c", "b.c", "hdr.h"] := h.subset (by simp)
    simp only [List.mem_cons, List.mem_singleton, List.not_mem_nil, or_false] at hx hy hz
    rcases hx with rfl | rfl | rfl <;> rcases hy with rfl | rfl | rfl <;>
      rcases hz with rfl | rfl | rfl <;> simp_all

theorem objName_zero : "obj_" ++ toString (0 : Nat) ++ ".o" = "obj_0.o" := by decide

/-- The first instruction of scenario 6: the two C sources are pushed, in
the order in which the map is visited. -/
theorem scenario_pushInputs (env : Env) (cSrc : Kind) (p : Interpreter)
    (ha : env.matchesKind "a.c" cSrc = true) (hb : env.matchesKind "b.c" cSrc = true)
    (hh : env.matchesKind "hdr.h" cSrc = false)
    (hpool : p.inPool = [("a.c", true), ("b.c", true), ("hdr.h", true)]) :
    ∃ ins : List String, ins.Perm ["a.c", "b.c"] ∧
      interpretStep env p (PushInputsInst cSrc) =
        ({ p with
            pc := p.pc + 1,
            executed := p.executed ++ [p.pc],
            inPool := [("a.c", false), ("b.c", false), ("hdr.h", true)],
            fileStack := p.fileStack ++ ins,
            pushed := p.pushed ++ ins }, none) := by
  have hperm := env.rangeOrder_perm (p.executed.length + 1) ["a.c", "b.c", "hdr.h"]
  have hcases := perm_three_cases _ hperm
  rcases hcases with h | h | h | h | h | h
  · refine ⟨["a.c", "b.c"], List.Perm.refl _, ?_⟩
    simp [interpretStep, processInstruction, PushInputsInst, pushInputs, hpool, poolKeys,
      h, pushInputsVisit, poolGet, List.lookup, ha, hb, hh, pushInputRaw, poolSet, stackPush]
  · refine ⟨["a.c", "b.c"], List.Perm.refl _, ?_⟩
    simp [interpretStep, processInstruction, PushInputsInst, pushInputs, hpool, poolKeys,
      h, pushInputsVisit, poolGet, List.lookup, ha, hb, hh, pushInputRaw, poolSet, stackPush]
  · refine ⟨["b.c", "a.c"], List.Perm.swap _ _ _, ?_⟩
    simp [interpretStep, processInstruction, PushInputsInst, pushInputs, hpool, poolKeys,
      h, pushInputsVisit, poolGet, List.lookup, ha, hb, hh, pushInputRaw, poolSet, stackPush]
  · refine ⟨["b.c", "a.c"], List.Perm.swap _ _ _, ?_⟩
    simp [interpretStep, processInstruction, PushInputsInst, pushInputs, hpool, poolKeys,
      h, pushInputsVisit, poolGet, List.lookup, ha, hb, hh, pushInputRaw, poolSet, stackPush]
  · refine ⟨["a.c", "b.c"], List.Perm.refl _, ?_⟩
    simp [interpretStep, processInstruction, PushInputsInst, pushInputs, hpool, poolKeys,
      h, pushInputsVisit, poolGet, List.lookup, ha, hb, hh, pushInputRaw, poolSet, stackPush]
  · refine ⟨["b.c", "a.c"], List.Perm.swap _ _ _, ?_⟩
    simp [interpretStep, processInstruction, PushInputsInst, pushInputs, hpool, poolKeys,
      h, pushInputsVisit, poolGet, List.lookup, ha, hb, hh, pushInputRaw, poolSet, stackPush]


/-- C2: for the recipe of scenario 6 over the inputs `a.c`, `b.c` and
`hdr.h`, with a driver that always succeeds, whatever the order in which the
pool is visited, `Interpret` returns nil after two driver calls: an object
compile of the inputs `a.c` and `b.c` to `obj_0.o` in the recipe directory,
then an executable compile of that object and `hdr.h` to the output of the
job; at the end the object counter is 1, the recipe is finished and the
stack is empty. -/
theorem scenario_six (env : Env) (comp : CompilerConfig) (cSrc : Kind) (dir out : String)
    (p0 : Interpreter)
    (hok : ∀ history j, env.RunCompiler history j = none)
    (ha : env.matchesKind "a.c" cSrc = true) (hb : env.matchesKind "b.c" cSrc = true)
    (hh : env.matchesKind "hdr.h" cSrc = false)
    (h0 : NewInterpreter (scenarioJob comp cSrc dir out) none = Except.ok p0) :
    (Interpret env p0).2 = none ∧
    (∃ ins1 ins2 : List String,
      ins1.Perm ["a.c", "b.c"] ∧ ins2.Perm [env.pathJoin dir "obj_0.o", "hdr.h"] ∧
      (Interpret env p0).1.calls =
        [⟨CompileKind.Obj, some comp, ins1, env.pathJoin dir "obj_0.o"⟩,
         ⟨CompileKind.Exe, some comp, ins2, out⟩]) ∧
    (Interpret env p0).1.nobjs = 1 ∧
    (Interpret env p0).1.pc = 4 ∧
    (Interpret env p0).1.fileStack = [] := by
  have hnew : NewInterpreter (scenarioJob comp cSrc dir out) none = Except.ok
      { job := scenarioJob comp cSrc dir out, pc := 0, nobjs := 0, maxobjs := MaxUint64,
        inPool := [("a.c", true), ("b.c", true), ("hdr.h", true)], fileStack := [],
        calls := [], pushed := [], executed := [] } := rfl
  rw [hnew] at h0
  cases h0
  obtain ⟨ins, hperm, hstep⟩ := scenario_pushInputs env cSrc
    { job := scenarioJob comp cSrc dir out, pc := 0, nobjs := 0, maxobjs := MaxUint64,
      inPool := [("a.c", true), ("b.c", true), ("hdr.h", true)], fileStack := [],
      calls := [], pushed := [], executed := [] } ha hb hh rfl
  have hmax : ¬ (0 = MaxUint64) := by decide
  have hrun : Interpret env
      { job := scenarioJob comp cSrc dir out, pc := 0, nobjs := 0, maxobjs := MaxUint64,
        inPool := [("a.c", true), ("b.c", true), ("hdr.h", true)], fileStack := [],
        calls := [], pushed := [], executed := [] } =
      ({ job := scenarioJob comp cSrc dir out, pc := 4, nobjs := 1, maxobjs := MaxUint64,
         inPool := [("a.c", false), ("b.c", false), ("hdr.h", false)], fileStack := [],
         calls := [⟨CompileKind.Obj, some comp, ins, env.pathJoin dir "obj_0.o"⟩,
           ⟨CompileKind.Exe, some comp, [env.pathJoin dir "obj_0.o", "hdr.h"], out⟩],
         pushed := ins ++ ["hdr.h"], executed := [0, 1, 2, 3] }, none) := by
    show interpretLoop env 4 _ = _
    have hloop := fun hi => interpretLoop_succ_ok env 3 _ _ (PushInputsInst cSrc) hi hstep
    rw [hloop rfl]
    simp [interpretLoop, scenarioJob, scenarioRecipe, interpretStep, processInstruction,
      CompileObjInst, CompileExeInst, PushInputInst, compileObj, freshObj, hmax, compile,
      singleCompile, stackPop_all, hok, objName_zero, pushInput, poolGet, List.lookup,
      pushInputRaw, poolSet, poolKeys, stackPush, compileExe, uint64Size]
  rw [hrun]
  exact ⟨rfl, ⟨ins, _, hperm, List.Perm.refl _, rfl⟩, rfl, rfl, rfl⟩

/-- C2 at the oracles of the examples, with the driver that never fails. -/
theorem scenario_six_witness :
    (Interpret (exampleEnv driverOk) exampleStart).2 = none ∧
    (Interpret (exampleEnv driverOk) exampleStart).1.nobjs = 1 :=
  have h := scenario_six (exampleEnv driverOk) "gcc" exampleCSrc "dir" "a.out" exampleStart
    (fun _ _ => rfl) (by decide) (by decide) (by decide) rfl
  ⟨h.1, h.2.2.1⟩

/-! ## Passes -/

theorem passLoop_ok (dump : String → Option Plan → Option GoError) :
    ∀ (stages : List Stage) (p : Option Plan) (tr : List PassEvent),
      AllStagesOk dump stages p →
      passLoop dump stages p tr = (tr ++ stageEvents stages p, none) := by
  intro stages
  induction stages with
  | nil => intro p tr _; simp [passLoop, stageEvents]
  | cons s rest ih =>
    intro p tr h
    obtain ⟨h1, h2, h3⟩ := h
    cases hr : s.Run p with
    | mk p1 e =>
      rw [hr] at h1 h2 h3
      dsimp only at h1 h2 h3
      subst h1
      simp only [passLoop, hr, h2, stageEvents]
      rw [ih p1 _ h3]
      simp

theorem passLoop_none (dump : String → Option Plan → Option GoError) :
    ∀ (stages : List Stage) (p : Option Plan) (tr : List PassEvent),
      (passLoop dump stages p tr).2 = none → AllStagesOk dump stages p := by
  intro stages
  induction stages with
  | nil => intro p tr _; trivial
  | cons s rest ih =>
    intro p tr h
    cases hr : s.Run p with
    | mk p1 e =>
      cases e with
      | some err => simp [passLoop, hr] at h
      | none =>
        cases hd : dump s.Name p1 with
        | some err => simp [passLoop, hr, hd] at h
        | none =>
          simp only [passLoop, hr, hd] at h
          refine ⟨by rw [hr], by rw [hr]; exact hd, ?_⟩
          rw [hr]
          exact ih p1 _ h

theorem passLoop_append (dump : String → Option Plan → Option GoError) :
    ∀ (done : List Stage) (rest : List Stage) (p : Option Plan) (tr : List PassEvent),
      AllStagesOk dump done p →
      passLoop dump (done ++ rest) p tr
        = passLoop dump rest (planAfter done p) (tr ++ stageEvents done p) := by
  intro done
  induction done with
  | nil => intro rest p tr _; simp [planAfter, stageEvents]
  | cons s done ih =>
    intro rest p tr h
    obtain ⟨h1, h2, h3⟩ := h
    cases hr : s.Run p with
    | mk p1 e =>
      rw [hr] at h1 h2 h3
      dsimp only at h1 h2 h3
      subst h1
      rw [List.cons_append]
      simp only [passLoop, hr, h2]
      rw [ih rest p1 _ h3]
      simp [planAfter, stageEvents, hr]

/-- C12: `Instance.pass` returns nil exactly when every stage, run in the
order of the list on the plan returned by the stage before it (no plan for
the first), and every dump of a returned plan succeeds; its events are then
those of all the stages, each run followed by its dump. When the stages
`done` succeed with their dumps and the next stage `s` fails, or its dump
does, `pass` returns that error wrapped with the name of `s`, and its events
end with the run of `s`, or with its dump: no later stage is run. -/
theorem pass_runs_stages_in_order (stages : List Stage)
    (dump : String → Option Plan → Option GoError) :
    ((Instance.pass stages dump).2 = none ↔ AllStagesOk dump stages none) ∧
    (AllStagesOk dump stages none →
      Instance.pass stages dump = (stageEvents stages none, none)) ∧
    (∀ (done rest : List Stage) (s : Stage) (e : GoError),
      stages = done ++ s :: rest → AllStagesOk dump done none →
      ((s.Run (planAfter done none)).2 = some e →
        Instance.pass stages dump =
          (stageEvents done none ++ [PassEvent.ran s.Name (planAfter done none)],
            some (inStageError s.Name e))) ∧
      ((s.Run (planAfter done none)).2 = none →
        dump s.Name (s.Run (planAfter done none)).1 = some e →
        Instance.pass stages dump =
          (stageEvents done none ++
            [PassEvent.ran s.Name (planAfter done none),
              PassEvent.dumped s.Name (s.Run (planAfter done none)).1],
            some (dumpStageError s.Name e)))) := by
  refine ⟨⟨passLoop_none dump stages none [], fun h => ?_⟩, fun h => ?_, ?_⟩
  · simp [Instance.pass, passLoop_ok dump stages none [] h]
  · simp [Instance.pass, passLoop_ok dump stages none [] h]
  · intro done rest s e hst hdone
    subst hst
    refine ⟨fun hrun => ?_, fun hrun hdump => ?_⟩
    · simp only [Instance.pass]
      rw [passLoop_append dump done (s :: rest) none [] hdone]
      cases hr : s.Run (planAfter done none) with
      | mk p1 e1 =>
        rw [hr] at hrun
        dsimp only at hrun
        subst hrun
        simp [passLoop, hr]
    · simp only [Instance.pass]
      rw [passLoop_append dump done (s :: rest) none [] hdone]
      cases hr : s.Run (planAfter done none) with
      | mk p1 e1 =>
        rw [hr] at hrun hdump
        dsimp only at hrun hdump
        subst hrun
        simp [passLoop, hr, hdump]

/-- C12 at stages of which the second fails: the third is not run. -/
theorem pass_runs_stages_in_order_witness :
    Instance.pass exampleStages dumpOk =
      ([PassEvent.ran "plan" none, PassEvent.dumped "plan" (some examplePlan),
        PassEvent.ran "fuzz" (some examplePlan)],
        some (inStageError "fuzz" (GoError.new "fuzzer failed"))) :=
  ((pass_runs_stages_in_order exampleStages dumpOk).2.2
    [⟨StagePlan, fun _ => (some examplePlan, none)⟩] [⟨StageLift, fun p => (p, none)⟩]
    ⟨StageFuzz, fun _ => (none, some (GoError.new "fuzzer failed"))⟩
    (GoError.new "fuzzer failed") rfl ⟨rfl, rfl, trivial⟩).1 rfl

/-! ## `Instance.Run` and the input files -/

/-- C11, as the claim has it, fails: for an instance with every part present
and no input file, whose scratch directories and stage configuration are
made without error, `Run` returns the error of `StageConfig.Check`, which
wraps `ErrNone`, whatever the passes would do and before any pass: the loop
is not entered and no failure is counted. -/
theorem run_without_files_returns_before_loop :
    exampleInstanceNoFiles.InFiles = [] ∧
    ∀ (ev : ErrVars) (pass ctxErr : Nat → Option GoError) (fuel : Nat),
      Instance.Run ev exampleInstanceNoFiles ⟨none, none, pass, ctxErr⟩ fuel
        = some (GoError.errorf "" ev.ErrNone ": no input files") :=
  ⟨rfl, fun _ _ _ _ => rfl⟩

/-- C11, amended: when the input file list of the instance is empty,
`Instance.Run` returns an error without running any pass, whatever the
passes and the context would do; when the checks of the instance, the
scratch directories and the stage configuration raise no error, that error
is the one of `StageConfig.Check`, which wraps `ErrNone` with the text
"no input files". -/
theorem run_empty_input_fails_at_check (ev : ErrVars) (i : Instance) (o : RunOracles)
    (fuel : Nat) (hfiles : i.InFiles = []) :
    (Instance.Run ev i o fuel).isSome = true ∧
    Instance.Run ev i o fuel = Instance.Run ev i o 0 ∧
    (∀ pass ctxErr, Instance.Run ev i ⟨o.prepare, o.machNew, pass, ctxErr⟩ fuel
      = Instance.Run ev i o fuel) ∧
    (i.check ev = none → o.prepare = none → o.machNew = none →
      (∀ env, i.Env = some env → env.Fuzzer ≠ none ∧ env.Lifter ≠ none) →
      Instance.Run ev i o fuel = some (GoError.errorf "" ev.ErrNone ": no input files")) := by
  have key : ∀ (pass ctxErr : Nat → Option GoError) (n : Nat),
      ∃ e, Instance.Run ev i ⟨o.prepare, o.machNew, pass, ctxErr⟩ n = some e ∧
        Instance.Run ev i o 0 = some e ∧
        (i.check ev = none → o.prepare = none → o.machNew = none →
          (∀ env, i.Env = some env → env.Fuzzer ≠ none ∧ env.Lifter ≠ none) →
          e = GoError.errorf "" ev.ErrNone ": no input files") := by
    intro pass ctxErr n
    unfold Instance.Run
    cases hc : i.check ev with
    | some e => exact ⟨e, rfl, rfl, fun h => by cases h⟩
    | none =>
      cases hp : o.prepare with
      | some e => exact ⟨e, rfl, rfl, fun _ h => by cases h⟩
      | none =>
        cases hE : i.Env with
        | none =>
          refine ⟨GoError.new "no environment configuration", rfl, rfl, fun _ _ _ _ => ?_⟩
          unfold Instance.check at hc
          simp only [hE] at hc
          split at hc
          · cases hc
          · simp at hc
        | some env =>
          dsimp only
          unfold Instance.makeStageConfig
          by_cases hf : env.Fuzzer = none
          · exact ⟨GoError.errorf "when making fuzzer config: "
                (GoError.new "no single fuzzer provided") "",
              by simp [hf], by simp [hf], fun _ _ _ h => absurd hf (h env rfl).1⟩
          · by_cases hl : env.Lifter = none
            · exact ⟨GoError.errorf "when making lifter config: "
                  (GoError.new "no single fuzzer provided") "",
                by simp [hf, hl], by simp [hf, hl],
                fun _ _ _ h => absurd hl (h env rfl).2⟩
            · cases hm : o.machNew with
              | some e =>
                exact ⟨GoError.errorf "when making machine-exec config: " e "",
                  by simp [hf, hl], by simp [hf, hl], fun _ _ h => by cases h⟩
              | none =>
                exact ⟨GoError.errorf "" ev.ErrNone ": no input files",
                  by simp [hf, hl, StageConfig.Check, hfiles],
                  by simp [hf, hl, StageConfig.Check, hfiles], fun _ _ _ _ => rfl⟩
  obtain ⟨e, h1, h2, h3⟩ := key o.pass o.ctxErr fuel
  have h1' : Instance.Run ev i o fuel = some e := h1
  refine ⟨by rw [h1']; rfl, by rw [h1', h2], ?_, ?_⟩
  · intro pass ctxErr
    obtain ⟨e', g1, g2, _⟩ := key pass ctxErr fuel
    rw [g1, h1']
    rw [h2] at g2
    exact g2.symm
  · intro a b c d
    rw [h1', h3 a b c d]

/-- C11, amended, at the instance of the examples with no input file. -/
theorem run_empty_input_fails_at_check_witness :
    Instance.Run ⟨GoError.new "no corpus", GoError.new "pathset nil"⟩ exampleInstanceNoFiles
      ⟨none, none, alwaysFailing, neverCancelled⟩ 5
      = some (GoError.errorf "" (GoError.new "no corpus") ": no input files") :=
  (run_empty_input_fails_at_check ⟨GoError.new "no corpus", GoError.new "pathset nil"⟩
    exampleInstanceNoFiles ⟨none, none, alwaysFailing, neverCancelled⟩ 5 rfl).2.2.2
    rfl rfl rfl (fun env h => by cases h; exact ⟨by decide, by decide⟩)

/-! ## The path of a plan file -/

theorem stringsJoin_plan (stage ext : String) :
    stringsJoin ["plan", stage, ext] "." = "plan." ++ stage ++ ("." ++ ext) := by
  simp only [stringsJoin, String.intercalate, String.intercalate.go]
  have h : "plan" ++ "." = "plan." := by decide
  rw [String.append_assoc ("plan" ++ "." ++ stage) "." ext, h]

theorem getLast_toml (a : String) :
    (a ++ "/" ++ "plan.fuzz.toml").data.getLast? = some (Char.ofNat 108) := by
  have h : ("plan.fuzz.toml" : String).data.getLast? = some (Char.ofNat 108) := by decide
  rw [String.data_append, List.getLast?_append, h]
  rfl

/-- C13, as the claim has it, fails: for the root `scratch` and the stage
`fuzz`, whatever the path segments, with `filepath.Join` on clean elements,
the path is not `scratch/plan.fuzz.json`: its file name is `plan.fuzz.toml`. -/
theorem planForStage_is_not_json :
    stringsJoin ["plan", "fuzz", "toml"] "." = "plan.fuzz.toml" ∧
    ¬ ∃ segs : ScratchSegs,
      (NewScratch joinClean segs "scratch").PlanForStage joinClean "fuzz"
        = joinClean "scratch" ("plan." ++ "fuzz" ++ ".json") := by
  refine ⟨by decide, ?_⟩
  rintro ⟨segs, h⟩
  have hfile : stringsJoin ["plan", "fuzz", "toml"] "." = "plan.fuzz.toml" := by decide
  have hrhs : joinClean "scratch" ("plan." ++ "fuzz" ++ ".json") = "scratch/plan.fuzz.json" := by
    decide
  simp only [Scratch.PlanForStage, NewScratch, hfile, hrhs] at h
  by_cases hs : segs.segPlan = ""
  · rw [hs] at h
    revert h
    decide
  · have h1 : joinClean "scratch" segs.segPlan = "scratch" ++ "/" ++ segs.segPlan := by
      simp [joinClean, hs]
    have h2 : "scratch" ++ "/" ++ segs.segPlan ≠ "" := by
      intro hc
      have hl := congrArg String.length hc
      have h7 : ("scratch" ++ "/" : String).length = 8 := by decide
      rw [String.length_append, h7] at hl
      have h0 : ("" : String).length = 0 := rfl
      omega
    have h3 : joinClean ("scratch" ++ "/" ++ segs.segPlan) "plan.fuzz.toml"
        = "scratch" ++ "/" ++ segs.segPlan ++ "/" ++ "plan.fuzz.toml" := by
      unfold joinClean
      rw [if_neg h2, if_neg (by decide)]
    rw [h1, h3] at h
    have hlast := congrArg (fun s : String => s.data.getLast?) h
    have hn : ("scratch/plan.fuzz.json" : String).data.getLast? = some (Char.ofNat 110) := by
      decide
    simp only [getLast_toml, hn] at hlast
    revert hlast
    decide

/-- C13, amended: for every scratch root and stage name,
`PlanForStage(stage)` of `NewScratch(root)` is the plan directory, which is
the root joined with `segPlan`, joined with the file name
"plan." + stage + ".toml"; it is the file that `Instance.dump` creates for
the plan after that stage. -/
theorem planForStage_path (join : String → String → String) (segs : ScratchSegs)
    (root stage : String) (w : SaveWorld) (done : List ArchOp) :
    (NewScratch join segs root).PlanForStage join stage
      = join (join root segs.segPlan) ("plan." ++ stage ++ ".toml") ∧
    ∃ rest, (Instance.dump w join (NewScratch join segs root) done stage).1
      = done ++ ArchOp.create (join (join root segs.segPlan) ("plan." ++ stage ++ ".toml"))
          :: rest := by
  have hpath : (NewScratch join segs root).PlanForStage join stage
      = join (join root segs.segPlan) ("plan." ++ stage ++ ".toml") := by
    simp only [Scratch.PlanForStage, NewScratch, stringsJoin_plan]
    rfl
  refine ⟨hpath, ?_⟩
  unfold Instance.dump
  rw [hpath]
  simp only [doOp]
  cases w.outcome done
      (ArchOp.create (join (join root segs.segPlan) ("plan." ++ stage ++ ".toml"))) with
  | some e => exact ⟨[], rfl⟩
  | none =>
    dsimp only
    cases w.outcome
        (done ++ [ArchOp.create (join (join root segs.segPlan) ("plan." ++ stage ++ ".toml"))])
        (ArchOp.dumpPlan (join (join root segs.segPlan) ("plan." ++ stage ++ ".toml"))) with
    | some e =>
      exact ⟨[ArchOp.dumpPlan (join (join root segs.segPlan) ("plan." ++ stage ++ ".toml")),
        ArchOp.closeFile (join (join root segs.segPlan) ("plan." ++ stage ++ ".toml"))],
        by simp⟩
    | none =>
      exact ⟨[ArchOp.dumpPlan (join (join root segs.segPlan) ("plan." ++ stage ++ ".toml")),
        ArchOp.closeFile (join (join root segs.segPlan) ("plan." ++ stage ++ ".toml"))],
        by simp⟩

/-- C13, amended, at the root `scratch` and the stage `fuzz`. -/
theorem planForStage_path_witness :
    (NewScratch joinClean ⟨"fuzz", "lift", "plan", "run"⟩ "scratch").PlanForStage joinClean "fuzz"
      = "scratch/plan/plan.fuzz.toml" :=
  (planForStage_path joinClean ⟨"fuzz", "lift", "plan", "run"⟩ "scratch" "fuzz"
    (exampleSaveWorld opsOk) []).1

/-! ## The normaliser -/

theorem normStep_refl (n : Normaliser) : NormStep n n [] :=
  ⟨rfl, fun h => h, fun e h => Or.inl h, fun h => h, fun _ => ⟨[], by simp, rfl⟩⟩

theorem normStep_trans (n m k : Normaliser) (o1 o2 : List String)
    (h1 : NormStep n m o1) (h2 : NormStep m k o2) : NormStep n k (o1 ++ o2) := by
  obtain ⟨a1, a2, a3, a4, a5⟩ := h1
  obtain ⟨b1, b2, b3, b4, b5⟩ := h2
  refine ⟨b1.trans a1, fun h => b2 (a2 h), ?_, fun h => b4 (a4 h), ?_⟩
  · intro e he
    rcases b3 e he with h | h
    · exact a3 e h
    · exact Or.inr h
  · intro hk
    have hm : m.err = none := by
      by_contra hc
      exact b2 hc hk
    obtain ⟨ad1, e1, m1⟩ := a5 hm
    obtain ⟨ad2, e2, m2⟩ := b5 hk
    exact ⟨ad1 ++ ad2, by rw [e2, e1, List.append_assoc], by rw [List.map_append, m1, m2]⟩

theorem add_normStep (env : NormEnv) (n : Normaliser) (opath npath : String) (k : Kind)
    (l : Loc) : NormStep n (n.add env opath npath k l).1 [opath] := by
  unfold Normaliser.add
  by_cases h : npath ∈ n.keys
  · simp only [h, if_true]
    refine ⟨rfl, fun _ => by simp, ?_, fun hk => hk, fun hc => by simp at hc⟩
    intro e he
    simp only [Option.some.injEq] at he
    subst he
    exact Or.inr (by simp [GoError.Is, ErrCollision])
  · simp only [h, if_false]
    refine ⟨rfl, fun hk => hk, fun e he => Or.inl he, ?_, fun _ => ⟨[(npath, ⟨opath, k, l⟩)], rfl, rfl⟩⟩
    intro hk
    simp only [Normaliser.keys, List.map_append, List.map_cons, List.map_nil]
    rw [List.nodup_append]
    refine ⟨hk, List.nodup_singleton _, ?_⟩
    intro x hx1 hx2
    have : x = npath := by simpa using hx2
    subst this
    exact h hx1

theorem replaceAndAdd_normStep (env : NormEnv) (n : Normaliser) (opath : String) (k : Kind)
    (l : Loc) (segs : List String) :
    NormStep n (n.replaceAndAdd env opath k l segs).1 ([opath].filter (fun f => f ≠ "")) := by
  unfold Normaliser.replaceAndAdd
  by_cases h : n.err ≠ none ∨ opath = ""
  · simp only [h, if_true]
    refine ⟨rfl, fun hk => hk, fun e he => Or.inl he, fun hk => hk, fun hn => ⟨[], by simp, ?_⟩⟩
    rcases h with h | h
    · exact absurd hn h
    · simp [h]
  · simp only [h, if_false]
    have ho : opath ≠ "" := fun hc => h (Or.inr hc)
    have hf : [opath].filter (fun f => f ≠ "") = [opath] := by simp [ho]
    rw [hf]
    exact add_normStep env n opath _ k l

theorem harnessFold_normStep (env : NormEnv) :
    ∀ (pairs : List (String × String)) (n : Normaliser),
      NormStep n
        (pairs.foldl (fun m pr => (m.add env pr.1 pr.2 (env.GuessFromFile pr.2) env.InHarness).1) n)
        (pairs.map Prod.fst) := by
  intro pairs
  induction pairs with
  | nil => intro n; exact normStep_refl n
  | cons p pairs ih =>
    intro n
    simp only [List.foldl_cons, List.map_cons]
    exact normStep_trans _ _ _ [p.1] _ (add_normStep env n p.1 p.2 _ _) (ih _)

theorem harness_normStep (env : NormEnv) (n : Normaliser) (archstr : String) (h : Harness) :
    NormStep n (n.harness env archstr h).1 (h.Paths env) := by
  have key := harnessFold_normStep env
    ((h.Paths env).zip (Harness.Paths env { h with Dir := env.HarnessDir n.root archstr })) n
  have hlen : ((h.Paths env).zip
      (Harness.Paths env { h with Dir := env.HarnessDir n.root archstr })).map Prod.fst
      = h.Paths env := by
    apply List.map_fst_zip
    simp [Harness.Paths]
  rw [hlen] at key
  exact key

theorem harnessesLoop_normStep (env : NormEnv) :
    ∀ (hs : List (String × Harness)) (n : Normaliser) (nhs : List (String × Harness)),
      NormStep n (Normaliser.harnessesLoop env hs n nhs).1
        (hs.flatMap (fun h => h.2.Paths env)) := by
  intro hs
  induction hs with
  | nil => intro n nhs; exact normStep_refl n
  | cons a hs ih =>
    intro n nhs
    obtain ⟨archstr, h⟩ := a
    simp only [Normaliser.harnessesLoop, List.flatMap_cons]
    exact normStep_trans _ _ _ _ _ (harness_normStep env n archstr h) (ih _ _)

theorem compile_normStep (env : NormEnv) (n : Normaliser) (cidstr : String)
    (c : CompileResult) :
    NormStep n (n.compile env cidstr c).1
      ([c.Files.Bin, c.Files.Log].filter (fun f => f ≠ "")) := by
  have h1 := replaceAndAdd_normStep env n c.Files.Bin env.KindBin env.InCompile
    [env.DirCompiles, cidstr, env.FileBin]
  have h2 := replaceAndAdd_normStep env
    (n.replaceAndAdd env c.Files.Bin env.KindBin env.InCompile
      [env.DirCompiles, cidstr, env.FileBin]).1
    c.Files.Log env.KindLog env.InCompile [env.DirCompiles, cidstr, env.FileCompileLog]
  have h := normStep_trans _ _ _ _ _ h1 h2
  rw [← List.filter_append] at h
  exact h

theorem compilesLoop_normStep (env : NormEnv) :
    ∀ (cs : List (String × CompileResult)) (n : Normaliser)
      (ncs : List (String × CompileResult)),
      NormStep n (Normaliser.compilesLoop env cs n ncs).1
        ((cs.flatMap (fun c => [c.2.Files.Bin, c.2.Files.Log])).filter (fun f => f ≠ "")) := by
  intro cs
  induction cs with
  | nil => intro n ncs; exact normStep_refl n
  | cons a cs ih =>
    intro n ncs
    obtain ⟨cidstr, c⟩ := a
    simp only [Normaliser.compilesLoop, List.flatMap_cons, List.filter_append]
    exact normStep_trans _ _ _ _ _ (compile_normStep env n cidstr c) (ih _ _)

theorem fuzz_normStep (env : NormEnv) (n : Normaliser) (fz : Option SubjectFuzz) :
    NormStep n (n.fuzz env fz).1
      ((match fz with
        | none => []
        | some f => [f.Files.Litmus, f.Files.Trace]).filter (fun f => f ≠ "")) := by
  cases fz with
  | none => exact normStep_refl n
  | some f =>
    have h1 := replaceAndAdd_normStep env n f.Files.Litmus env.KindLitmus env.InFuzz
      [env.FileFuzzLitmus]
    have h2 := replaceAndAdd_normStep env
      (n.replaceAndAdd env f.Files.Litmus env.KindLitmus env.InFuzz [env.FileFuzzLitmus]).1
      f.Files.Trace env.KindTrace env.InFuzz [env.FileFuzzTrace]
    have h := normStep_trans _ _ _ _ _ h1 h2
    rw [← List.filter_append] at h
    exact h

/-- The whole of `Normalise` as one stretch of normalisation. -/
theorem normalise_normStep (env : NormEnv) (n : Normaliser) (s : Subject) :
    NormStep { n with err := none } (n.Normalise env s).1
      (s.checkedFiles.filter (fun f => f ≠ "") ++ s.harnessFiles env) := by
  have h1 := replaceAndAdd_normStep env { n with err := none } s.OrigLitmus env.KindLitmus
    env.InOrig [env.FileOrigLitmus]
  have h2 := fuzz_normStep env
    (Normaliser.replaceAndAdd env { n with err := none } s.OrigLitmus env.KindLitmus
      env.InOrig [env.FileOrigLitmus]).1 s.Fuzz
  have h12 := normStep_trans _ _ _ _ _ h1 h2
  have h3 : NormStep
      ((Normaliser.replaceAndAdd env { n with err := none } s.OrigLitmus env.KindLitmus
        env.InOrig [env.FileOrigLitmus]).1.fuzz env s.Fuzz).1
      (((Normaliser.replaceAndAdd env { n with err := none } s.OrigLitmus env.KindLitmus
        env.InOrig [env.FileOrigLitmus]).1.fuzz env s.Fuzz).1.compiles env s.Compiles).1
      ((match s.Compiles with
        | none => []
        | some cs => cs.flatMap (fun c => [c.2.Files.Bin, c.2.Files.Log])).filter
          (fun f => f ≠ "")) := by
    cases s.Compiles with
    | none => exact normStep_refl _
    | some cs => exact compilesLoop_normStep env cs _ []
  have h123 := normStep_trans _ _ _ _ _ h12 h3
  have h4 : NormStep
      (((Normaliser.replaceAndAdd env { n with err := none } s.OrigLitmus env.KindLitmus
        env.InOrig [env.FileOrigLitmus]).1.fuzz env s.Fuzz).1.compiles env s.Compiles).1
      (n.Normalise env s).1 (s.harnessFiles env) := by
    unfold Subject.harnessFiles Normaliser.Normalise Normaliser.harnesses
    cases s.Harnesses with
    | none => exact normStep_refl _
    | some hs => exact harnessesLoop_normStep env hs _ []
  have h := normStep_trans _ _ _ _ _ h123 h4
  have hfiles : s.checkedFiles.filter (fun f => f ≠ "") =
      ([s.OrigLitmus].filter (fun f => f ≠ "") ++
        (match s.Fuzz with
          | none => []
          | some f => [f.Files.Litmus, f.Files.Trace]).filter (fun f => f ≠ "")) ++
        (match s.Compiles with
          | none => []
          | some cs => cs.flatMap (fun c => [c.2.Files.Bin, c.2.Files.Log])).filter
            (fun f => f ≠ "") := by
    unfold Subject.checkedFiles
    rw [← List.filter_append, ← List.filter_append]
    rfl
  rw [hfiles]
  exact h

/-- C19, as the claim has it, fails: a subject whose only file is a harness
file with an empty path is normalised without error, and `Mappings` then
holds an entry whose `Original` is empty, though the subject has no file
that is not empty; the same holds for every `path.Join` that joins empty
elements to the empty path. -/
theorem normalise_enters_empty_harness_path :
    (Normaliser.Normalise exampleNormEnv (Normaliser.New "") exampleSubjectEmptyHarness).2.2
      = none ∧
    (Normaliser.Normalise exampleNormEnv (Normaliser.New "") exampleSubjectEmptyHarness).1.Mappings
      = [("harness/x86", ⟨"", 0, 4⟩)] ∧
    (exampleSubjectEmptyHarness.checkedFiles ++
      exampleSubjectEmptyHarness.harnessFiles exampleNormEnv).filter (fun f => f ≠ "") = [] ∧
    ∀ env : NormEnv, env.join ["", ""] = "" →
      (Normaliser.Normalise env (Normaliser.New "") exampleSubjectEmptyHarness).2.2 = none ∧
      (Normaliser.Normalise env (Normaliser.New "")
        exampleSubjectEmptyHarness).1.Mappings.map (fun kv => kv.2.Original) = [""] := by
  refine ⟨by decide, by decide, by decide, ?_⟩
  intro env henv
  simp [Normaliser.Normalise, Normaliser.New, Normaliser.replaceAndAdd, Normaliser.fuzz,
    Normaliser.compiles, Normaliser.harnesses, Normaliser.harnessesLoop, Normaliser.harness,
    Harness.Paths, exampleSubjectEmptyHarness, Normaliser.add, Normaliser.keys, henv]

/-- C19, amended: for every subject, `Normalise` on a fresh normaliser either
returns an error that wraps `ErrCollision`, or leaves in `Mappings`, under
distinct normalised paths, exactly one entry for each non-empty path among
the original litmus file, the fuzzed litmus file, the fuzz trace and the
binary and log of each compile, and one entry for each harness file whatever
its path, each with that path as `Original`, in the order in which the files
are handled. `replaceAndAdd` replaces an empty original path by "" and adds
no entry; the harness files do not pass through it. -/
theorem normalise_mappings (env : NormEnv) (root : String) (s : Subject) :
    (∀ e, ((Normaliser.New root).Normalise env s).2.2 = some e → e.Is ErrCollision = true) ∧
    (((Normaliser.New root).Normalise env s).2.2 = none →
      ((Normaliser.New root).Normalise env s).1.Mappings.map (fun kv => kv.2.Original)
        = s.checkedFiles.filter (fun f => f ≠ "") ++ s.harnessFiles env ∧
      ((Normaliser.New root).Normalise env s).1.keys.Nodup) ∧
    (∀ (m : Normaliser) (k : Kind) (l : Loc) (segs : List String),
      m.replaceAndAdd env "" k l segs = (m, "")) := by
  obtain ⟨_, _, a3, a4, a5⟩ := normalise_normStep env (Normaliser.New root) s
  have herr : ((Normaliser.New root).Normalise env s).2.2
      = ((Normaliser.New root).Normalise env s).1.err := rfl
  refine ⟨?_, ?_, ?_⟩
  · intro e he
    rw [herr] at he
    rcases a3 e he with h | h
    · cases h
    · exact h
  · intro hn
    rw [herr] at hn
    obtain ⟨added, e1, e2⟩ := a5 hn
    refine ⟨?_, a4 (by simp [Normaliser.keys, Normaliser.New])⟩
    rw [e1]
    simpa [Normaliser.New] using e2
  · intro m k l segs
    simp [Normaliser.replaceAndAdd]

/-- C19, amended, at a subject with files of every kind. -/
theorem normalise_mappings_witness :
    ((Normaliser.New "").Normalise exampleNormEnv exampleSubject).1.Mappings.map
        (fun kv => (kv.1, kv.2.Original))
      = [("orig.litmus", "in/foo.litmus"), ("fuzz.litmus", "fuzz/foo_1.litmus"),
         ("compiles/gcc/a.out", "run/gcc/foo_1/a.out"),
         ("harness/x86/run.c", "lift/x86/foo_1/run.c"),
         ("harness/x86/utils.c", "lift/x86/foo_1/utils.c")] ∧
    ((Normaliser.New "").Normalise exampleNormEnv exampleSubject).1.keys.Nodup :=
  ⟨by decide,
    ((normalise_mappings exampleNormEnv "" exampleSubject).2.1 (by decide)).2⟩

/-! ## Archiving one file -/

theorem is_errNotExist_errorf (pre post : String) (e : GoError) :
    (GoError.errorf pre e post).Is ErrNotExist = e.Is ErrNotExist := by
  simp [GoError.Is, ErrNotExist]

/-- C18: `tarFileToWriter` returns nil and does nothing when the original
path is empty; when the original file does not exist (the error of `os.Stat`
matches `os.ErrNotExist`) it returns nil after a line in the log, with no
header written and nothing copied. Every other failure is returned as an
error that wraps it: of `os.Stat`, of making or writing the header, of
opening the file and of copying it; when all succeed the result is that of
closing the file. -/
theorem tarFileToWriter_spec (w : SaveWorld) (done : List ArchOp) (rpath wpath : String) :
    (rpath = "" → tarFileToWriter w done rpath wpath = (done, none)) ∧
    (rpath ≠ "" → ∀ e, w.outcome done (ArchOp.stat rpath) = some e →
      (e.Is ErrNotExist = true →
        tarFileToWriter w done rpath wpath
          = (done ++ [ArchOp.stat rpath, ArchOp.logMissing rpath], none)) ∧
      (e.Is ErrNotExist = false →
        tarFileToWriter w done rpath wpath
          = (done ++ [ArchOp.stat rpath],
              some (GoError.errorf ("can't stat " ++ rpath ++ ": ") e "")))) ∧
    (rpath ≠ "" → w.outcome done (ArchOp.stat rpath) = none →
      ∀ e, w.outcome (done ++ [ArchOp.stat rpath]) (ArchOp.fileInfoHeader rpath) = some e →
      e.Is ErrNotExist = false →
      tarFileToWriter w done rpath wpath
        = (done ++ [ArchOp.stat rpath, ArchOp.fileInfoHeader rpath],
            some (GoError.errorf ("can't get header for " ++ rpath ++ ": ") e ""))) ∧
    (rpath ≠ "" → w.outcome done (ArchOp.stat rpath) = none →
      w.outcome (done ++ [ArchOp.stat rpath]) (ArchOp.fileInfoHeader rpath) = none →
      (∀ e, w.outcome (done ++ [ArchOp.stat rpath, ArchOp.fileInfoHeader rpath])
          (ArchOp.writeHeader wpath) = some e →
        tarFileToWriter w done rpath wpath
          = (done ++ [ArchOp.stat rpath, ArchOp.fileInfoHeader rpath, ArchOp.writeHeader wpath],
              some (GoError.errorf "writing header: " e ""))) ∧
      (w.outcome (done ++ [ArchOp.stat rpath, ArchOp.fileInfoHeader rpath])
          (ArchOp.writeHeader wpath) = none →
        (∀ e, w.outcome (done ++ [ArchOp.stat rpath, ArchOp.fileInfoHeader rpath,
            ArchOp.writeHeader wpath]) (ArchOp.openInput rpath) = some e →
          tarFileToWriter w done rpath wpath
            = (done ++ [ArchOp.stat rpath, ArchOp.fileInfoHeader rpath,
                ArchOp.writeHeader wpath, ArchOp.openInput rpath],
                some (GoError.errorf ("opening " ++ rpath ++ ": ") e ""))) ∧
        (w.outcome (done ++ [ArchOp.stat rpath, ArchOp.fileInfoHeader rpath,
            ArchOp.writeHeader wpath]) (ArchOp.openInput rpath) = none →
          (∀ e, w.outcome (done ++ [ArchOp.stat rpath, ArchOp.fileInfoHeader rpath,
              ArchOp.writeHeader wpath, ArchOp.openInput rpath]) (ArchOp.copy rpath) = some e →
            tarFileToWriter w done rpath wpath
              = (done ++ [ArchOp.stat rpath, ArchOp.fileInfoHeader rpath,
                  ArchOp.writeHeader wpath, ArchOp.openInput rpath, ArchOp.copy rpath,
                  ArchOp.closeInput rpath],
                  some (GoError.errorf ("archiving " ++ rpath ++ ": ") e ""))) ∧
          (w.outcome (done ++ [ArchOp.stat rpath, ArchOp.fileInfoHeader rpath,
              ArchOp.writeHeader wpath, ArchOp.openInput rpath]) (ArchOp.copy rpath) = none →
            tarFileToWriter w done rpath wpath
              = (done ++ [ArchOp.stat rpath, ArchOp.fileInfoHeader rpath,
                  ArchOp.writeHeader wpath, ArchOp.openInput rpath, ArchOp.copy rpath,
                  ArchOp.closeInput rpath],
                  w.outcome (done ++ [ArchOp.stat rpath, ArchOp.fileInfoHeader rpath,
                    ArchOp.writeHeader wpath, ArchOp.openInput rpath, ArchOp.copy rpath])
                    (ArchOp.closeInput rpath)))))) := by
  refine ⟨?_, ?_, ?_, ?_⟩
  · intro h
    simp [tarFileToWriter, h]
  · intro h e he
    refine ⟨fun hi => ?_, fun hi => ?_⟩
    · simp [tarFileToWriter, h, tarFileHeader, doOp, he, rescueNotExistError,
        is_errNotExist_errorf, hi]
    · simp [tarFileToWriter, h, tarFileHeader, doOp, he, rescueNotExistError,
        is_errNotExist_errorf, hi]
  · intro h hs e he hi
    simp [tarFileToWriter, h, tarFileHeader, doOp, hs, he, rescueNotExistError,
      is_errNotExist_errorf, hi]
  · intro h hs hf
    refine ⟨fun e he => ?_, fun hw => ⟨fun e he => ?_, fun ho => ⟨fun e he => ?_, fun hc => ?_⟩⟩⟩
    · simp [tarFileToWriter, h, tarFileHeader, doOp, hs, hf, he]
    · simp only [List.append_assoc, List.cons_append, List.nil_append] at hw he
      simp [tarFileToWriter, h, tarFileHeader, doOp, hs, hf, hw, he]
    · simp only [List.append_assoc, List.cons_append, List.nil_append] at hw ho he
      simp [tarFileToWriter, h, tarFileHeader, doOp, hs, hf, hw, ho, he]
    · simp only [List.append_assoc, List.cons_append, List.nil_append] at hw ho hc
      simp [tarFileToWriter, h, tarFileHeader, doOp, hs, hf, hw, ho, hc]

/-- The operations of `tarFileToWriter` are operations on one archive entry. -/
theorem tarFileToWriter_ops (w : SaveWorld) (done : List ArchOp) (rpath wpath : String) :
    ∃ mid, (tarFileToWriter w done rpath wpath).1 = done ++ mid ∧
      ∀ op, op ∈ mid → op.isEntryOp = true := by
  unfold tarFileToWriter
  by_cases h : rpath = ""
  · exact ⟨[], by simp [h], fun op hop => absurd hop (List.not_mem_nil op)⟩
  · simp only [h, if_false, tarFileHeader, doOp]
    cases h1 : w.outcome done (ArchOp.stat rpath) with
    | some e =>
      dsimp only
      unfold rescueNotExistError
      split
      · exact ⟨[ArchOp.stat rpath], rfl, by simp [ArchOp.isEntryOp]⟩
      · exact ⟨[ArchOp.stat rpath, ArchOp.logMissing rpath], by simp,
          by simp [ArchOp.isEntryOp]⟩
    | none =>
      dsimp only
      cases h2 : w.outcome (done ++ [ArchOp.stat rpath]) (ArchOp.fileInfoHeader rpath) with
      | some e =>
        dsimp only
        unfold rescueNotExistError
        split
        · exact ⟨[ArchOp.stat rpath, ArchOp.fileInfoHeader rpath], by simp,
            by simp [ArchOp.isEntryOp]⟩
        · exact ⟨[ArchOp.stat rpath, ArchOp.fileInfoHeader rpath, ArchOp.logMissing rpath],
            by simp, by simp [ArchOp.isEntryOp]⟩
      | none =>
        dsimp only
        cases h3 : w.outcome (done ++ [ArchOp.stat rpath] ++ [ArchOp.fileInfoHeader rpath])
            (ArchOp.writeHeader wpath) with
        | some e =>
          exact ⟨[ArchOp.stat rpath, ArchOp.fileInfoHeader rpath, ArchOp.writeHeader wpath],
            by simp, by simp [ArchOp.isEntryOp]⟩
        | none =>
          dsimp only
          cases h4 : w.outcome (done ++ [ArchOp.stat rpath] ++ [ArchOp.fileInfoHeader rpath]
              ++ [ArchOp.writeHeader wpath]) (ArchOp.openInput rpath) with
          | some e =>
            exact ⟨[ArchOp.stat rpath, ArchOp.fileInfoHeader rpath, ArchOp.writeHeader wpath,
              ArchOp.openInput rpath], by simp, by simp [ArchOp.isEntryOp]⟩
          | none =>
            dsimp only
            cases h5 : w.outcome (done ++ [ArchOp.stat rpath] ++ [ArchOp.fileInfoHeader rpath]
                ++ [ArchOp.writeHeader wpath] ++ [ArchOp.openInput rpath])
                (ArchOp.copy rpath) with
            | some e =>
              exact ⟨[ArchOp.stat rpath, ArchOp.fileInfoHeader rpath, ArchOp.writeHeader wpath,
                ArchOp.openInput rpath, ArchOp.copy rpath, ArchOp.closeInput rpath], by simp,
                by simp [ArchOp.isEntryOp]⟩
            | none =>
              exact ⟨[ArchOp.stat rpath, ArchOp.fileInfoHeader rpath, ArchOp.writeHeader wpath,
                ArchOp.openInput rpath, ArchOp.copy rpath, ArchOp.closeInput rpath], by simp,
                by simp [ArchOp.isEntryOp]⟩

theorem tarEntries_ops (w : SaveWorld) :
    ∀ (fs : List (String × Entry)) (done : List ArchOp),
      ∃ mid, (tarEntries w fs done).1 = done ++ mid ∧ ∀ op, op ∈ mid → op.isEntryOp = true := by
  intro fs
  induction fs with
  | nil => intro done; exact ⟨[], by simp [tarEntries], fun op hop => absurd hop (List.not_mem_nil op)⟩
  | cons a fs ih =>
    intro done
    obtain ⟨wpath, norm⟩ := a
    obtain ⟨m1, e1, p1⟩ := tarFileToWriter_ops w done norm.Original wpath
    cases hr : tarFileToWriter w done norm.Original wpath with
    | mk d1 err =>
      rw [hr] at e1
      dsimp only at e1
      cases err with
      | some e => exact ⟨m1, by simp [tarEntries, hr, e1], p1⟩
      | none =>
        obtain ⟨m2, e2, p2⟩ := ih d1
        refine ⟨m1 ++ m2, by simp only [tarEntries, hr]; rw [e2, e1, List.append_assoc], ?_⟩
        intro op hop
        rcases List.mem_append.mp hop with h | h
        · exact p1 op h
        · exact p2 op h

theorem tarSubjectToWriter_ops (w : SaveWorld) (done : List ArchOp) (sub : Subject) :
    ∃ mid, (tarSubjectToWriter w done sub).1 = done ++ mid ∧
      ∀ op, op ∈ mid → op.isEntryOp = true := by
  unfold tarSubjectToWriter
  cases filesToTar w sub with
  | error e => exact ⟨[], by simp, fun op hop => absurd hop (List.not_mem_nil op)⟩
  | ok fs => exact tarEntries_ops w (w.mapOrder fs) done

/-! ## Archiving a subject -/

/-- C16: once the archive file is created, `tarSubjectToPath` closes the tar
writer and then the gzip writer whatever the outcome of writing the entries,
and returns the first error among writing, closing the tar writer and
closing the gzip writer, in that order, the last two wrapped with the name
of the step; it returns nil exactly when all three succeeded. -/
theorem tarSubjectToPath_first_error (w : SaveWorld) (done : List ArchOp) (sub : Subject)
    (tarpath : String) (hcreate : w.outcome done (ArchOp.create tarpath) = none) :
    (tarSubjectToPath w done sub tarpath).1
      = (tarSubjectToWriter w (done ++ [ArchOp.create tarpath]) sub).1
          ++ [ArchOp.closeTar, ArchOp.closeGzip] ∧
    (∀ e, (tarSubjectToWriter w (done ++ [ArchOp.create tarpath]) sub).2 = some e →
      (tarSubjectToPath w done sub tarpath).2 = some e) ∧
    ((tarSubjectToWriter w (done ++ [ArchOp.create tarpath]) sub).2 = none →
      (∀ e, w.outcome (tarSubjectToWriter w (done ++ [ArchOp.create tarpath]) sub).1
          ArchOp.closeTar = some e →
        (tarSubjectToPath w done sub tarpath).2
          = some (GoError.errorf "closing tar: " e "")) ∧
      (w.outcome (tarSubjectToWriter w (done ++ [ArchOp.create tarpath]) sub).1
          ArchOp.closeTar = none →
        ∀ e, w.outcome ((tarSubjectToWriter w (done ++ [ArchOp.create tarpath]) sub).1
            ++ [ArchOp.closeTar]) ArchOp.closeGzip = some e →
          (tarSubjectToPath w done sub tarpath).2
            = some (GoError.errorf "closing gzip: " e ""))) ∧
    ((tarSubjectToPath w done sub tarpath).2 = none ↔
      (tarSubjectToWriter w (done ++ [ArchOp.create tarpath]) sub).2 = none ∧
      w.outcome (tarSubjectToWriter w (done ++ [ArchOp.create tarpath]) sub).1
        ArchOp.closeTar = none ∧
      w.outcome ((tarSubjectToWriter w (done ++ [ArchOp.create tarpath]) sub).1
        ++ [ArchOp.closeTar]) ArchOp.closeGzip = none) := by
  unfold tarSubjectToPath
  simp only [doOp, hcreate]
  cases hw : (tarSubjectToWriter w (done ++ [ArchOp.create tarpath]) sub).2 with
  | some e => simp
  | none =>
    cases ht : w.outcome (tarSubjectToWriter w (done ++ [ArchOp.create tarpath]) sub).1
        ArchOp.closeTar with
    | some e => simp
    | none =>
      cases hg : w.outcome ((tarSubjectToWriter w (done ++ [ArchOp.create tarpath]) sub).1
          ++ [ArchOp.closeTar]) ArchOp.closeGzip with
      | some e => simp
      | none => simp

/-- C16 at a subject with one file, when both closes fail: the error of the
tar writer is returned. -/
theorem tarSubjectToPath_first_error_witness :
    (tarSubjectToPath (exampleSaveWorld opsClosesFail) [] exampleSubjectOne
        "saved/3/foo.tar.gz").2
      = some (GoError.errorf "closing tar: " (GoError.new "tar: short write") "") :=
  ((tarSubjectToPath_first_error (exampleSaveWorld opsClosesFail) [] exampleSubjectOne
    "saved/3/foo.tar.gz" (by decide)).2.2.1 (by decide)).1
    (GoError.new "tar: short write") (by decide)

/-- C17, on the code: for the subject of the examples, with every operation
succeeding, `tarSubjectToPath` creates the archive file, writes the entry,
closes the tar writer and then the gzip writer, and returns: the file is
not closed. For every subject and every outcome of the operations, no
operation of `tarSubjectToPath` closes the archive file, and when the file
was created the operations after that are those on the entries, then the
close of the tar writer, then the close of the gzip writer. -/
theorem tarSubjectToPath_never_closes_file :
    tarSubjectToPath (exampleSaveWorld opsOk) [] exampleSubjectOne "saved/3/foo.tar.gz"
      = ([ArchOp.create "saved/3/foo.tar.gz", ArchOp.stat "in/foo.litmus",
          ArchOp.fileInfoHeader "in/foo.litmus", ArchOp.writeHeader "orig.litmus",
          ArchOp.openInput "in/foo.litmus", ArchOp.copy "in/foo.litmus",
          ArchOp.closeInput "in/foo.litmus", ArchOp.closeTar, ArchOp.closeGzip], none) ∧
    ∀ (w : SaveWorld) (done : List ArchOp) (sub : Subject) (tarpath : String),
      ∃ added, (tarSubjectToPath w done sub tarpath).1 = done ++ added ∧
        (∀ path, ArchOp.closeFile path ∉ added) ∧
        (w.outcome done (ArchOp.create tarpath) = none →
          ∃ mid, added = ArchOp.create tarpath :: (mid ++ [ArchOp.closeTar, ArchOp.closeGzip]) ∧
            ∀ op, op ∈ mid → op.isEntryOp = true) := by
  refine ⟨by decide, ?_⟩
  intro w done sub tarpath
  unfold tarSubjectToPath
  simp only [doOp]
  cases hc : w.outcome done (ArchOp.create tarpath) with
  | some e =>
    refine ⟨[ArchOp.create tarpath], rfl, ?_, fun h => by cases h⟩
    intro path hmem
    simp at hmem
  | none =>
    obtain ⟨mid, e1, p1⟩ := tarSubjectToWriter_ops w (done ++ [ArchOp.create tarpath]) sub
    have hlog : ∀ r : Option GoError,
        ((tarSubjectToWriter w (done ++ [ArchOp.create tarpath]) sub).1
            ++ [ArchOp.closeTar] ++ [ArchOp.closeGzip], r).1
          = done ++ (ArchOp.create tarpath :: (mid ++ [ArchOp.closeTar, ArchOp.closeGzip])) := by
      intro r
      simp [e1]
    refine ⟨ArchOp.create tarpath :: (mid ++ [ArchOp.closeTar, ArchOp.closeGzip]), ?_, ?_,
      fun _ => ⟨mid, rfl, p1⟩⟩
    · dsimp only
      split
      · exact hlog _
      · split
        · exact hlog _
        · split
          · exact hlog _
          · exact hlog _
    · intro path hmem
      simp only [List.mem_cons, List.mem_append, List.mem_singleton, List.not_mem_nil,
        or_false] at hmem
      rcases hmem with h | h | h | h
      · cases h
      · have := p1 _ h
        simp [ArchOp.isEntryOp] at this
      · cases h
      · cases h

/-! ## The saving stage -/

/-- C15, as the claim has it, fails: `Save.Run` on the saving stage of an
instance without a saved pathset returns no plan, and the error
`ErrPathsetNil`, not the plan it was given with no error. -/
theorem save_run_without_paths_is_error :
    exampleSaveNoPaths.Paths = none ∧
    ∀ (ev : ErrVars) (w : SaveWorld),
      (Save.Run ev w exampleSaveNoPaths [] examplePlanOne).plan = none ∧
      (Save.Run ev w exampleSaveNoPaths [] examplePlanOne).plan ≠ some examplePlanOne ∧
      (Save.Run ev w exampleSaveNoPaths [] examplePlanOne).err = some ev.ErrPathsetNil :=
  ⟨rfl, fun _ _ => ⟨rfl, fun h => (by cases h), rfl⟩⟩

/-- C15, amended: `Save.Run` on a `Save` with no saved pathset does no
operation and archives nothing, and returns no plan and the error
`ErrPathsetNil`. -/
theorem save_run_without_paths (ev : ErrVars) (w : SaveWorld) (s : Save) (done : List ArchOp)
    (p : Plan) (hpaths : s.Paths = none) :
    Save.Run ev w s done p = ⟨done, [], none, some ev.ErrPathsetNil⟩ := by
  unfold Save.Run
  rw [hpaths]

/-- C15, amended, at the saving stage of the examples without a pathset. -/
theorem save_run_without_paths_witness :
    Save.Run ⟨GoError.new "no corpus", GoError.new "pathset nil"⟩ (exampleSaveWorld opsOk)
        exampleSaveNoPaths [] examplePlanOne
      = ⟨[], [], none, some (GoError.new "pathset nil")⟩ :=
  save_run_without_paths ⟨GoError.new "no corpus", GoError.new "pathset nil"⟩
    (exampleSaveWorld opsOk) exampleSaveNoPaths [] examplePlanOne rfl

/-- C18 at the subject of the examples when no file is found: the file is
skipped with a line in the log and nothing is written. -/
theorem tarFileToWriter_spec_witness :
    tarFileToWriter (exampleSaveWorld opsStatMissing) [] "in/foo.litmus" "orig.litmus"
      = ([ArchOp.stat "in/foo.litmus", ArchOp.logMissing "in/foo.litmus"], none) :=
  ((tarFileToWriter_spec (exampleSaveWorld opsStatMissing) [] "in/foo.litmus"
    "orig.litmus").2.1 (by decide) (GoError.errorf "stat: " ErrNotExist "") rfl).1 (by decide)

/-! ## Names of fuzz cycles -/

theorem toDigitsCore_append (b : Nat) :
    ∀ fuel n ds, Nat.toDigitsCore b fuel n ds = Nat.toDigitsCore b fuel n [] ++ ds := by
  intro fuel
  induction fuel with
  | zero => intro n ds; simp [Nat.toDigitsCore]
  | succ fuel ih =>
    intro n ds
    simp only [Nat.toDigitsCore]
    split
    · simp
    · rw [ih (n / b) (Nat.digitChar (n % b) :: ds), ih (n / b) [Nat.digitChar (n % b)]]
      simp

theorem digitChar_decimal (k : Nat) (hk : k < 10) :
    Nat.digitChar k ≠ Char.ofNat 95 ∧ (Nat.digitChar k).toNat - 48 = k := by
  interval_cases k <;> decide

theorem decimalValue_concat (cs : List Char) (ch : Char) :
    decimalValue (cs ++ [ch]) = 10 * decimalValue cs + (ch.toNat - 48) := by
  simp [decimalValue, List.foldl_append]

theorem toDigitsCore_decimal :
    ∀ fuel n, n < fuel →
      decimalValue (Nat.toDigitsCore 10 fuel n []) = n ∧
      ∀ ch, ch ∈ Nat.toDigitsCore 10 fuel n [] → ch ≠ Char.ofNat 95 := by
  intro fuel
  induction fuel with
  | zero => intro n h; omega
  | succ fuel ih =>
    intro n hn
    have hd := digitChar_decimal (n % 10) (Nat.mod_lt n (by decide))
    simp only [Nat.toDigitsCore]
    by_cases h0 : n / 10 = 0
    · simp only [h0, if_true]
      refine ⟨?_, ?_⟩
      · have := decimalValue_concat [] (Nat.digitChar (n % 10))
        simp only [List.nil_append] at this
        rw [this, hd.2]
        simp only [decimalValue, List.foldl_nil]
        omega
      · intro ch hch
        have : ch = Nat.digitChar (n % 10) := by simpa using hch
        rw [this]
        exact hd.1
    · simp only [h0, if_false]
      rw [toDigitsCore_append]
      obtain ⟨i1, i2⟩ := ih (n / 10) (by omega)
      refine ⟨?_, ?_⟩
      · rw [decimalValue_concat, i1, hd.2]
        omega
      · intro ch hch
        rcases List.mem_append.mp hch with h | h
        · exact i2 ch h
        · have : ch = Nat.digitChar (n % 10) := by simpa using h
          rw [this]
          exact hd.1

theorem toString_nat_data (n : Nat) :
    decimalValue (toString n).data = n ∧ ∀ ch, ch ∈ (toString n).data → ch ≠ Char.ofNat 95 :=
  toDigitsCore_decimal (n + 1) n (Nat.lt_succ_self n)

theorem append_cons_inj_of_not_mem_right {α : Type} (x : α) :
    ∀ (a a' b b' : List α), x ∉ b → x ∉ b' → a ++ x :: b = a' ++ x :: b' → a = a' ∧ b = b' := by
  intro a a' b b' hb hb' h
  have hr := congrArg List.reverse h
  simp only [List.reverse_append, List.reverse_cons, List.append_assoc, List.singleton_append]
    at hr
  have key : ∀ (u u' v v' : List α), x ∉ u → x ∉ u' → u ++ x :: v = u' ++ x :: v' →
      u = u' ∧ v = v' := by
    intro u
    induction u with
    | nil =>
      intro u' v v' _ hu' huv
      cases u' with
      | nil => simpa using huv
      | cons y t =>
        simp only [List.nil_append, List.cons_append, List.cons.injEq] at huv
        exact absurd (by rw [← huv.1]; exact List.mem_cons_self _ _) hu'
    | cons y t ih =>
      intro u' v v' hu hu' huv
      cases u' with
      | nil =>
        simp only [List.nil_append, List.cons_append, List.cons.injEq] at huv
        exact absurd (by rw [huv.1]; exact List.mem_cons_self _ _) hu
      | cons y' t' =>
        simp only [List.cons_append, List.cons.injEq] at huv
        obtain ⟨g1, g2⟩ := ih t' v v' (fun hm => hu (List.mem_cons_of_mem _ hm))
          (fun hm => hu' (List.mem_cons_of_mem _ hm)) huv.2
        exact ⟨by rw [huv.1, g1], g2⟩
  obtain ⟨g1, g2⟩ := key b.reverse b'.reverse a.reverse a'.reverse
    (by simpa using hb) (by simpa using hb') hr
  exact ⟨List.reverse_injective g2, List.reverse_injective g1⟩

/-- Two cycled names are equal only for the same name and the same cycle. -/
theorem cycledName_injective (n1 n2 : String) (c1 c2 : Nat)
    (h : CycledName n1 c1 = CycledName n2 c2) : n1 = n2 ∧ c1 = c2 := by
  have hd := congrArg String.data h
  have hu : ("_" : String).data = [Char.ofNat 95] := by decide
  simp only [CycledName, String.data_append, hu, List.append_assoc, List.singleton_append] at hd
  obtain ⟨g1, g2⟩ := append_cons_inj_of_not_mem_right (Char.ofNat 95) n1.data n2.data
    (toString c1).data (toString c2).data
    (fun hm => (toString_nat_data c1).2 _ hm rfl)
    (fun hm => (toString_nat_data c2).2 _ hm rfl) hd
  refine ⟨String.ext g1, ?_⟩
  have := congrArg decimalValue g2
  rw [(toString_nat_data c1).1, (toString_nat_data c2).1] at this
  exact this

/-! ## Fuzz jobs and the requests they send -/

theorem wrapInt_of_fits (x : Int) (h0 : 0 ≤ x) (h1 : x < 2 ^ 63) : wrapInt x = x := by
  unfold wrapInt
  omega

/-- What the loop of `fuzzSubject` sends: the subjects of the cycles from
`i` on, in order, all of them when it returns nil. -/
theorem fuzzSubjectLoop_spec (w : JobWorld) (s : FuzzSubject) (cycles : Int) :
    ∀ (fuel i : Nat) (st : JobState), i + fuel = cycles.toNat →
      ∃ m, m ≤ fuel ∧
        (fuzzSubjectLoop w s cycles fuel i st).1.sent
          = st.sent ++ (List.range' i m).map (cycleSubject w s) ∧
        ((fuzzSubjectLoop w s cycles fuel i st).2 = none → m = fuel) ∧
        (∀ e, (fuzzSubjectLoop w s cycles fuel i st).2 = some e → m < fuel) ∧
        ((∀ n seed a b c, w.FuzzSingle n seed a b c = none) → (∀ h x, w.send h x = none) →
          (fuzzSubjectLoop w s cycles fuel i st).2 = none) := by
  intro fuel
  induction fuel with
  | zero =>
    intro i st _
    exact ⟨0, le_refl _, by simp [fuzzSubjectLoop], fun _ => rfl,
      fun e he => by simp [fuzzSubjectLoop] at he, fun _ _ => rfl⟩
  | succ fuel ih =>
    intro i st hK
    have hlt : (i : Int) < cycles := by omega
    simp only [fuzzSubjectLoop, hlt, if_true]
    unfold fuzzCycle
    cases hf : w.FuzzSingle st.draws (w.Int31 st.draws) s.Litmus (w.OnSubject s.Name i).1
        (w.OnSubject s.Name i).2 with
    | some e =>
      refine ⟨0, Nat.zero_le _, by simp, fun h => by simp at h, fun _ _ => Nat.succ_pos _,
        fun h1 _ => ?_⟩
      rw [h1] at hf
      cases hf
    | none =>
      cases hs : w.send st.sent (cycleSubject w s i) with
      | some e =>
        refine ⟨0, Nat.zero_le _, by simp, fun h => by simp at h, fun _ _ => Nat.succ_pos _,
          fun _ h2 => ?_⟩
        rw [h2] at hs
        cases hs
      | none =>
        dsimp only
        obtain ⟨m, m1, m2, m3, m4, m5⟩ := ih (i + 1)
          { sent := st.sent ++ [cycleSubject w s i], draws := st.draws + 1 } (by omega)
        refine ⟨m + 1, by omega, ?_, fun h => by rw [m3 h], fun e he => by
          have := m4 e he
          omega, m5⟩
        rw [m2, List.range'_succ]
        simp

theorem corpusAddAll_of_nodup :
    ∀ (reqs : List FuzzSubject) (c : List (String × FuzzSubject)),
      (c.map Prod.fst ++ reqs.map FuzzSubject.Name).Nodup →
      corpusAddAll reqs c = Except.ok (c ++ reqs.map (fun s => (s.Name, s))) := by
  intro reqs
  induction reqs with
  | nil => intro c _; simp [corpusAddAll]
  | cons s reqs ih =>
    intro c h
    have hnot : s.Name ∉ c.map Prod.fst := by
      intro hm
      rw [List.nodup_append] at h
      exact h.2.2 hm (by simp)
    have hadd : corpusAdd c s = Except.ok (c ++ [(s.Name, s)]) := by
      simp only [corpusAdd, hnot, if_false]
    simp only [corpusAddAll, hadd]
    rw [ih (c ++ [(s.Name, s)])]
    · simp
    · simpa [List.append_assoc] using h

theorem cycledNames_nodup (subs : List FuzzSubject) (k : Nat)
    (hnames : (subs.map FuzzSubject.Name).Nodup) :
    (subs.flatMap (fun s => (List.range k).map (CycledName s.Name))).Nodup := by
  rw [List.nodup_flatMap]
  refine ⟨?_, ?_⟩
  · intro s _
    apply List.Nodup.map _ (List.nodup_range k)
    intro a b hab
    exact (cycledName_injective s.Name s.Name a b hab).2
  · have hp : List.Pairwise (fun a b : FuzzSubject => a.Name ≠ b.Name) subs :=
      (List.pairwise_map).mp hnames
    refine hp.imp ?_
    intro a b hab x hxa hxb
    obtain ⟨i, _, hi⟩ := List.mem_map.mp hxa
    obtain ⟨j, _, hj⟩ := List.mem_map.mp hxb
    exact hab (cycledName_injective a.Name b.Name i j (hi.trans hj.symm)).1

theorem cycledNames_length {β : Type} (subs : List FuzzSubject) (k : Nat)
    (f : FuzzSubject → Nat → β) :
    (subs.flatMap (fun s => (List.range k).map (f s))).length = subs.length * k := by
  induction subs with
  | nil => simp
  | cons s subs ih =>
    simp only [List.flatMap_cons, List.length_append, List.length_map, List.length_range, ih,
      List.length_cons]
    rw [Nat.succ_mul]
    omega

theorem cycleSubjects_names (w : JobWorld) (subs : List FuzzSubject) (k : Nat) :
    (subs.flatMap (fun s => (List.range k).map (cycleSubject w s))).map FuzzSubject.Name
      = subs.flatMap (fun s => (List.range k).map (CycledName s.Name)) := by
  induction subs with
  | nil => simp
  | cons s subs ih =>
    simp only [List.flatMap_cons, List.map_append, ih, List.map_map]
    rfl

/-- C20, amended: for a corpus of `N` subjects and `SubjectCycles = K`, with
`K` not negative and `N * K` in the range of `int`, the manifest that the
fuzz stage hands to the builder asks for exactly `N * K` requests. The job of a
subject that returns nil has sent exactly `K` subjects, named
`<name>_<cycle>` for the cycles `0` to `K - 1` in that order; any job has
sent the first of them, up to the cycle that failed; and the job returns nil
when the driver and the channel never fail. For subjects of distinct names
the `N * K` names are distinct, so that adding the requests, in whatever
order they arrive, to an empty corpus succeeds and gives `N * K` subjects. -/
theorem fuzz_sends_n_times_k (w : JobWorld) (q : FuzzSet) (c : Corpus)
    (subs : List FuzzSubject) (hK : 0 ≤ q.SubjectCycles)
    (hfit : q.SubjectCycles * (c.length : Int) < 2 ^ 63)
    (hnames : (subs.map FuzzSubject.Name).Nodup) :
    (Fuzzer.fuzzCorpusManifest q c).NReqs = (c.length : Int) * q.SubjectCycles ∧
    (∀ (s : FuzzSubject) (st : JobState),
      ((fuzzSubject w s q.SubjectCycles st).2 = none →
        (fuzzSubject w s q.SubjectCycles st).1.sent
          = st.sent ++ (List.range q.SubjectCycles.toNat).map (cycleSubject w s) ∧
        ((List.range q.SubjectCycles.toNat).map (cycleSubject w s)).map FuzzSubject.Name
          = (List.range q.SubjectCycles.toNat).map (CycledName s.Name)) ∧
      (∃ m, m ≤ q.SubjectCycles.toNat ∧
        (fuzzSubject w s q.SubjectCycles st).1.sent
          = st.sent ++ (List.range m).map (cycleSubject w s)) ∧
      ((∀ n seed a b c, w.FuzzSingle n seed a b c = none) → (∀ h x, w.send h x = none) →
        (fuzzSubject w s q.SubjectCycles st).2 = none)) ∧
    (subs.flatMap (fun s =>
      (List.range q.SubjectCycles.toNat).map (CycledName s.Name))).Nodup ∧
    (subs.flatMap (fun s =>
      (List.range q.SubjectCycles.toNat).map (CycledName s.Name))).length
        = subs.length * q.SubjectCycles.toNat ∧
    (∀ reqs : List FuzzSubject,
      reqs.Perm (subs.flatMap (fun s =>
        (List.range q.SubjectCycles.toNat).map (cycleSubject w s))) →
      ∃ corpus, corpusAddAll reqs [] = Except.ok corpus ∧
        corpus.length = subs.length * q.SubjectCycles.toNat) := by
  refine ⟨?_, ?_, cycledNames_nodup subs _ hnames, cycledNames_length subs _ _, ?_⟩
  · simp only [Fuzzer.fuzzCorpusManifest, Fuzzer.count]
    rw [wrapInt_of_fits _ (Int.mul_nonneg hK (Int.ofNat_nonneg _)) hfit, Int.mul_comm]
  · intro s st
    obtain ⟨m, m1, m2, m3, _, m5⟩ :=
      fuzzSubjectLoop_spec w s q.SubjectCycles q.SubjectCycles.toNat 0 st (by omega)
    have hrange : ∀ k, List.range' 0 k = List.range k := fun k =>
      (List.range_eq_range' (n := k)).symm
    rw [hrange] at m2
    refine ⟨fun h => ⟨?_, ?_⟩, ⟨m, m1, m2⟩, m5⟩
    · have := m3 h
      subst this
      exact m2
    · simp only [List.map_map]
      rfl
  · intro reqs hperm
    have hn : (reqs.map FuzzSubject.Name).Nodup := by
      have hp := hperm.map FuzzSubject.Name
      rw [cycleSubjects_names] at hp
      exact hp.nodup_iff.mpr (cycledNames_nodup subs _ hnames)
    refine ⟨_, corpusAddAll_of_nodup reqs [] (by simpa using hn), ?_⟩
    simp only [List.nil_append, List.length_map]
    rw [hperm.length_eq]
    exact cycledNames_length subs _ _

/-- C20, amended, at the subject of the test `TestJob_Fuzz` with three cycles. -/
theorem fuzz_sends_n_times_k_witness :
    (Fuzzer.fuzzCorpusManifest ⟨0, 3, 1⟩ examplePlanOne.Corpus).NReqs = 1 * 3 ∧
    ((fuzzSubject exampleJobWorld exampleFuzzSubject 3 ⟨[], 0⟩).1.sent).map FuzzSubject.Name
      = ["foo_0", "foo_1", "foo_2"] :=
  have h := fuzz_sends_n_times_k exampleJobWorld ⟨0, 3, 1⟩ examplePlanOne.Corpus
    [exampleFuzzSubject] (by decide) (by decide) (by decide)
  ⟨h.1, by
    rw [((h.2.1 exampleFuzzSubject ⟨[], 0⟩).1 (by decide)).1]
    decide⟩

/-! ## The checks of the fuzz stage -/

theorem goError_is_self (e : GoError) : e.Is e = true := by
  cases e <;> simp [GoError.Is]

/-- Within the range of `int`: for a fuzzer with `SubjectCycles = K > 0` and
corpus size cap `S`, on a corpus of `N` subjects with `N * K` in that range,
`checkCount` returns `ErrNone` exactly when `N = 0`, returns an error that wraps
`ErrSmall` exactly when `0 < N` and `N * K < S`, and returns nil otherwise;
with `S = 0` it never returns an error that wraps `ErrSmall`. A fuzzer with
`K ≤ 0` does not pass `check`, so that `New` returns an error for it. -/
theorem checkCount_spec (ev : ErrVars) (fe : FuzzErrs) (q : FuzzSet) (c : Corpus)
    (hK : 0 < q.SubjectCycles)
    (hfit : (c.length : Int) * q.SubjectCycles < 2 ^ 63)
    (hNS : ev.ErrNone.Is fe.ErrSmall = false) :
    (Fuzzer.checkCount ev fe q c = some ev.ErrNone ↔ c.length = 0) ∧
    ((∃ e, Fuzzer.checkCount ev fe q c = some e ∧ e.Is fe.ErrSmall = true) ↔
      0 < c.length ∧ (c.length : Int) * q.SubjectCycles < q.CorpusSize) ∧
    (Fuzzer.checkCount ev fe q c = none ↔
      0 < c.length ∧ q.CorpusSize ≤ (c.length : Int) * q.SubjectCycles) ∧
    (q.CorpusSize = 0 →
      ¬ ∃ e, Fuzzer.checkCount ev fe q c = some e ∧ e.Is fe.ErrSmall = true) ∧
    (∀ (f : Fuzzer), f.quantities.SubjectCycles ≤ 0 → Fuzzer.check ev fe f ≠ none) ∧
    (∀ (d ps : Option Unit) (options : Fuzzer → Fuzzer × Option GoError),
      (options ⟨d, ps, ⟨0, DefaultSubjectCycles, 0⟩⟩).1.quantities.SubjectCycles ≤ 0 →
      (Fuzzer.New ev fe d ps options).2 ≠ none) := by
  have hN : (0 : Int) ≤ (c.length : Int) := Int.ofNat_nonneg _
  have hw : wrapInt (q.SubjectCycles * (c.length : Int)) = (c.length : Int) * q.SubjectCycles := by
    rw [wrapInt_of_fits _ (Int.mul_nonneg (Int.le_of_lt hK) hN) (by rw [Int.mul_comm]; exact hfit),
      Int.mul_comm]
  have hne : ∀ post, GoError.errorf "" fe.ErrSmall post ≠ ev.ErrNone := by
    intro post h
    have h1 : (GoError.errorf "" fe.ErrSmall post).Is fe.ErrSmall = true := by
      simp [GoError.Is, goError_is_self]
    rw [h, hNS] at h1
    exact Bool.noConfusion h1
  have hcheck : ∀ (f : Fuzzer), f.quantities.SubjectCycles ≤ 0 → Fuzzer.check ev fe f ≠ none := by
    intro f hf
    unfold Fuzzer.check
    split
    · simp
    · split
      · simp
      · simp [hf]
  have hprod : (0 : Int) ≤ (c.length : Int) * q.SubjectCycles :=
    Int.mul_nonneg hN (Int.le_of_lt hK)
  by_cases h0 : c.length = 0
  · have hc : Fuzzer.checkCount ev fe q c = some ev.ErrNone := by
      simp [Fuzzer.checkCount, Fuzzer.count, h0]
    refine ⟨by simp [hc, h0], ?_, by simp [hc, h0], ?_, hcheck, ?_⟩
    · rw [hc]
      constructor
      · rintro ⟨e, he, hi⟩
        cases he
        rw [hNS] at hi
        exact Bool.noConfusion hi
      · intro h
        omega
    · rintro _ ⟨e, he, hi⟩
      rw [hc] at he
      cases he
      rw [hNS] at hi
      exact Bool.noConfusion hi
    · intro d ps options h
      unfold Fuzzer.New
      split
      · simp
      · rename_i f heq
        rw [heq] at h
        exact hcheck f h
  · have hpos : 0 < c.length := Nat.pos_of_ne_zero h0
    have hposI : ¬ ((c.length : Int) ≤ 0) := by omega
    by_cases hs : (c.length : Int) * q.SubjectCycles < q.CorpusSize
    · have hc : Fuzzer.checkCount ev fe q c = some (GoError.errorf "" fe.ErrSmall
          (": projected corpus size " ++ toString ((c.length : Int) * q.SubjectCycles)
            ++ ", want " ++ toString q.CorpusSize)) := by
        simp only [Fuzzer.checkCount, Fuzzer.count, hw]
        rw [if_neg hposI, if_pos hs]
      refine ⟨?_, ?_, ?_, ?_, hcheck, ?_⟩
      · rw [hc]
        constructor
        · intro h
          exact absurd (Option.some.inj h) (hne _)
        · intro h
          exact absurd h h0
      · rw [hc]
        constructor
        · intro _
          exact ⟨hpos, hs⟩
        · intro _
          exact ⟨_, rfl, by simp [GoError.Is, goError_is_self]⟩
      · rw [hc]
        constructor
        · intro h
          cases h
        · rintro ⟨_, h⟩
          omega
      · intro hz
        omega
      · intro d ps options h
        unfold Fuzzer.New
        split
        · simp
        · rename_i f heq
          rw [heq] at h
          exact hcheck f h
    · have hc : Fuzzer.checkCount ev fe q c = none := by
        simp only [Fuzzer.checkCount, Fuzzer.count, hw]
        rw [if_neg hposI, if_neg hs]
      refine ⟨by simp [hc, h0], ?_, ?_, ?_, hcheck, ?_⟩
      · rw [hc]
        constructor
        · rintro ⟨e, he, _⟩
          cases he
        · rintro ⟨_, h⟩
          exact absurd h hs
      · rw [hc]
        constructor
        · intro _
          exact ⟨hpos, by omega⟩
        · intro _
          rfl
      · rintro _ ⟨e, he, _⟩
        rw [hc] at he
        cases he
      · intro d ps options h
        unfold Fuzzer.New
        split
        · simp
        · rename_i f heq
          rw [heq] at h
          exact hcheck f h

/-- The checks at two subject cycles and no corpus size requirement, on a
corpus of one subject, at a corpus size of three, and at a fuzzer made with
no cycles. -/
theorem checkCount_spec_witness :
    Fuzzer.checkCount exampleErrVars exampleFuzzErrs ⟨0, 2, 1⟩ examplePlanOne.Corpus = none ∧
    Fuzzer.checkCount exampleErrVars exampleFuzzErrs ⟨3, 2, 1⟩ examplePlanOne.Corpus
      = some (GoError.errorf "" exampleFuzzErrs.ErrSmall
          ": projected corpus size 2, want 3") ∧
    (Fuzzer.New exampleErrVars exampleFuzzErrs (some ()) (some ()) (optionCycles 0)).2 ≠ none :=
  have h := checkCount_spec exampleErrVars exampleFuzzErrs ⟨0, 2, 1⟩ examplePlanOne.Corpus
    (by decide) (by decide) (by decide)
  ⟨h.2.2.1.mpr ⟨by decide, by decide⟩, by decide,
    h.2.2.2.2.2 (some ()) (some ()) (optionCycles 0) (by decide)⟩

/-! ## The job of a corpus -/

/-- C22, on the code: `job.Fuzz` returns nil whatever happens. With one
subject and one cycle, when the single-file fuzzer fails, `fuzzSubject`
returns the error of the fuzzer and `job.Fuzz` returns nil; and for every
world, number of cycles and corpus the error `job.Fuzz` returns is nil. -/
theorem jobFuzz_returns_nil_on_error :
    (fuzzSubject failingJobWorld exampleFuzzSubject 1 ⟨[], 0⟩).2 = some fuzzerFailed ∧
    (job.Fuzz failingJobWorld 1 [exampleFuzzSubject] ⟨[], 0⟩).2 = none ∧
    (∀ (w : JobWorld) (cycles : Int) (corpus : List FuzzSubject) (st : JobState),
      (job.Fuzz w cycles corpus st).2 = none) := by
  refine ⟨by decide, by decide, ?_⟩
  intro w cycles corpus
  induction corpus with
  | nil => intro st; rfl
  | cons s rest ih =>
    intro st
    simp only [job.Fuzz]
    split
    · rfl
    · exact ih _

/-! ## The lifting job of a subject -/

/-- An error that wraps an exit error does not match `context.Canceled`. -/
theorem asExitError_not_canceled (err : TopError) (perr : ExitError)
    (h : err.AsExitError = some perr) : err.IsCanceled = false := by
  induction err with
  | canceled => simp [TopError.AsExitError] at h
  | new msg => rfl
  | exit e => rfl
  | errorf pre e post ih =>
    simp only [TopError.AsExitError] at h
    simp only [TopError.IsCanceled]
    exact ih h

/-- C24, as the claim has it, fails: `context.Canceled` is not nil and wraps
no exit error of a child process, yet `LogTopError` returns without a call
of `os.Exit`, so that the exit code is 0 and not 1; the same holds for an
error that wraps `context.Canceled`. -/
theorem logTopError_cancel_exits_zero :
    contextCanceled.AsExitError = none ∧
    LogTopError (some contextCanceled) = ([], none) ∧
    mainExitCode (some contextCanceled) = 0 ∧
    wrappedCancel.AsExitError = none ∧
    mainExitCode (some wrappedCancel) = 0 := by
  decide

/-- C24, amended: `LogTopError` does not exit (exit code 0) when the error
is nil and when it is or wraps `context.Canceled`; it exits with the exit
code of the child process whenever the error wraps an exit error of a child
process; and it exits with 1 for every other error, one with the text of
`context.Canceled` that is not that variable among them. -/
theorem logTopError_exit_code (err : TopError) :
    (LogTopError none).2 = none ∧ mainExitCode none = 0 ∧
    (err.IsCanceled = true →
      (LogTopError (some err)).2 = none ∧ mainExitCode (some err) = 0) ∧
    (∀ perr, err.AsExitError = some perr →
      (LogTopError (some err)).2 = some perr.ExitCode ∧
      mainExitCode (some err) = perr.ExitCode) ∧
    (err.IsCanceled = false → err.AsExitError = none →
      (LogTopError (some err)).2 = some 1 ∧ mainExitCode (some err) = 1) ∧
    (∀ msg, mainExitCode (some (TopError.new msg)) = 1) ∧
    canceledLookalike.Error = contextCanceled.Error ∧
    mainExitCode (some canceledLookalike) = 1 ∧
    mainExitCode (some wrappedExit) = 3 := by
  refine ⟨rfl, rfl, ?_, ?_, ?_, fun _ => rfl, rfl, rfl, rfl⟩
  · intro h
    simp [mainExitCode, LogTopError, h]
  · intro perr h
    have hc := asExitError_not_canceled err perr h
    simp [mainExitCode, LogTopError, hc, h]
  · intro hc h
    simp [mainExitCode, LogTopError, hc, h]

/-! ## Herd-style backends -/

theorem and_two_pow_eq (n k : Nat) : n &&& 2 ^ k = if n.testBit k then 2 ^ k else 0 := by
  apply Nat.eq_of_testBit_eq
  intro i
  by_cases hk : k = i
  · subst hk
    by_cases hb : n.testBit k
    · simp [hb, Nat.testBit_two_pow_self]
    · simp [hb]
  · by_cases hb : n.testBit k
    · simp [hb, Nat.testBit_two_pow_of_ne hk]
    · simp [hb, Nat.testBit_two_pow_of_ne hk]

theorem and_two_pow_eq_zero_iff (n k : Nat) : n &&& 2 ^ k = 0 ↔ n.testBit k = false := by
  rw [and_two_pow_eq]
  by_cases hb : n.testBit k
  · simp [hb]
  · simp [hb]

/-- C25, as the claim has it, fails: with the four targets numbered from 0
to 3, the output whose target is 4 passes the check of the backend
`herdtools.litmus` without error and unchanged, and its target is neither
standalone nor executable recipe. -/
theorem checkAndAmendOutput_accepts_unnamed_target :
    exampleLitmusBackend.checkAndAmendOutput exampleTargets exampleCapBits
        exampleErrNotSupported ⟨"out", 4⟩ = (⟨"out", 4⟩, none) ∧
    (4 : Target) ≠ exampleTargets.ToStandalone ∧ (4 : Target) ≠ exampleTargets.ToExeRecipe := by
  decide

/-- C25, amended: for every herd-style backend and lift output,
`checkAndAmendOutput` accepts the default target and leaves the standalone
target in its place, accepts the standalone target, accepts an executable
recipe exactly when the optional capabilities of the backend have the
produce-exe flag, and rejects an object recipe with an error that wraps
`ErrNotSupported`; so after a check without error of an output whose target
is one of these four, the target is standalone or executable recipe. (A
target that is none of the four reaches the end of the `switch` and is
returned as it was.) The capabilities of the backend always have the
lift-litmus and run-standalone flags, those of the resolver among them. -/
theorem checkAndAmendOutput_spec (ts : Targets) (b : CapBits) (errNotSupported : GoError)
    (h : Backend) (o : LiftOutput) :
    (o.Target = ts.ToDefault →
      h.checkAndAmendOutput ts b errNotSupported o
        = ({ o with Target := ts.ToStandalone }, none)) ∧
    (o.Target = ts.ToStandalone → h.checkAndAmendOutput ts b errNotSupported o = (o, none)) ∧
    (o.Target = ts.ToExeRecipe →
      (h.checkAndAmendOutput ts b errNotSupported o).1 = o ∧
      ((h.checkAndAmendOutput ts b errNotSupported o).2 = none ↔
        h.OptCapabilities.testBit b.produceExe = true) ∧
      (∀ e, (h.checkAndAmendOutput ts b errNotSupported o).2 = some e →
        e.Is errNotSupported = true)) ∧
    (o.Target = ts.ToObjRecipe →
      ∃ e, h.checkAndAmendOutput ts b errNotSupported o = (o, some e) ∧
        e.Is errNotSupported = true) ∧
    (o.Target ∈ [ts.ToDefault, ts.ToStandalone, ts.ToObjRecipe, ts.ToExeRecipe] →
      (h.checkAndAmendOutput ts b errNotSupported o).2 = none →
      (h.checkAndAmendOutput ts b errNotSupported o).1.Target = ts.ToStandalone ∨
      (h.checkAndAmendOutput ts b errNotSupported o).1.Target = ts.ToExeRecipe) ∧
    (o.Target ∉ [ts.ToDefault, ts.ToStandalone, ts.ToObjRecipe, ts.ToExeRecipe] →
      h.checkAndAmendOutput ts b errNotSupported o = (o, none)) ∧
    ((h.Capabilities b).testBit b.liftLitmus = true ∧
      (h.Capabilities b).testBit b.runStandalone = true) ∧
    (∀ (a : ArchIDs) (entry : String × Backend), entry ∈ ResolveBackends b a →
      (entry.2.Capabilities b).testBit b.liftLitmus = true ∧
      (entry.2.Capabilities b).testBit b.runStandalone = true) := by
  have hcaps : ∀ g : Backend, (g.Capabilities b).testBit b.liftLitmus = true ∧
      (g.Capabilities b).testBit b.runStandalone = true := by
    intro g
    simp [Backend.Capabilities, CanLiftLitmus, CanRunStandalone, Nat.testBit_two_pow_self]
  have hd := ts.distinct
  simp only [List.nodup_cons, List.mem_cons, List.mem_singleton, List.not_mem_nil,
    not_or, or_false, List.nodup_nil, and_true, not_false_eq_true] at hd
  obtain ⟨⟨hds, hdo, hde⟩, ⟨hso, hse⟩, hoe⟩ := hd
  have hexe : o.Target = ts.ToExeRecipe →
      (h.checkAndAmendOutput ts b errNotSupported o).1 = o ∧
      ((h.checkAndAmendOutput ts b errNotSupported o).2 = none ↔
        h.OptCapabilities.testBit b.produceExe = true) ∧
      (∀ e, (h.checkAndAmendOutput ts b errNotSupported o).2 = some e →
        e.Is errNotSupported = true) := by
    intro ht
    have n1 : ¬ ts.ToExeRecipe = ts.ToDefault := fun x => hde x.symm
    have n2 : ¬ ts.ToExeRecipe = ts.ToStandalone := fun x => hse x.symm
    by_cases hz : h.OptCapabilities &&& CanProduceExe b = 0
    · have hbit := (and_two_pow_eq_zero_iff _ _).mp hz
      simp [Backend.checkAndAmendOutput, ht, n1, n2, hz, hbit, GoError.Is, goError_is_self]
    · have hbit : h.OptCapabilities.testBit b.produceExe = true := by
        by_contra hc
        exact hz ((and_two_pow_eq_zero_iff _ _).mpr (by simpa using hc))
      simp [Backend.checkAndAmendOutput, ht, n1, n2, hz, hbit]
  have hobj : o.Target = ts.ToObjRecipe →
      h.checkAndAmendOutput ts b errNotSupported o
        = (o, some (GoError.errorf "" errNotSupported ": cannot produce objects")) := by
    intro ht
    have n1 : ¬ ts.ToObjRecipe = ts.ToDefault := fun x => hdo x.symm
    have n2 : ¬ ts.ToObjRecipe = ts.ToStandalone := fun x => hso x.symm
    simp [Backend.checkAndAmendOutput, ht, n1, n2, hoe]
  refine ⟨?_, ?_, hexe, ?_, ?_, ?_, hcaps h, fun _ entry _ => hcaps entry.2⟩
  · intro ht
    simp [Backend.checkAndAmendOutput, ht]
  · intro ht
    have n1 : ¬ ts.ToStandalone = ts.ToDefault := fun x => hds x.symm
    simp [Backend.checkAndAmendOutput, ht, n1]
  · intro ht
    exact ⟨_, hobj ht, by simp [GoError.Is, goError_is_self]⟩
  · intro hmem hok
    simp only [List.mem_cons, List.mem_singleton, List.not_mem_nil, or_false] at hmem
    rcases hmem with ht | ht | ht | ht
    · left
      simp [Backend.checkAndAmendOutput, ht]
    · left
      have n1 : ¬ ts.ToStandalone = ts.ToDefault := fun x => hds x.symm
      simp [Backend.checkAndAmendOutput, ht, n1]
    · rw [hobj ht] at hok
      cases hok
    · right
      rw [(hexe ht).1]
      exact ht
  · intro hnot
    simp only [List.mem_cons, List.mem_singleton, List.not_mem_nil, or_false, not_or] at hnot
    obtain ⟨m1, m2, m3, m4⟩ := hnot
    simp [Backend.checkAndAmendOutput, m1, m2, m3, m4]

/-! ## The plan a stage is given -/

/-- C26, on the code: `Compiler.Run` does not ask for the stage Lift. On a
plan of one subject that was planned and fuzzed and not lifted, it starts
the compilations and returns a plan that records the stage Compile; for
every plan that `Check` accepts, whatever its completed stages, it gives the
plan to `runInner`. `Fuzzer.Run`, on a plan that `Check` accepts and that
has not completed the stage Plan, returns the error of `RequireStage` and
does not start to fuzz. -/
theorem compiler_run_ignores_missing_lift :
    PlanStage.Lift ∉ planNotLifted.Metadata.Stages ∧
    Compiler.Run examplePlanWorld stageBodyOk (some planNotLifted)
      = ⟨some ⟨⟨7, 1, 20200601, [PlanStage.Plan, PlanStage.Fuzz, PlanStage.Compile]⟩,
          [("foo", exampleSubjectOne)]⟩, none, [planNotLifted]⟩ ∧
    (∀ (w : PlanWorld) (runInner : StagedPlan → Option StagedPlan × Option GoError)
        (p : StagedPlan), w.Check p = none →
      (Compiler.Run w runInner (some p)).started = [p] ∧
      (Compiler.Run w runInner (some p)).err = (runInner p).2) ∧
    (∀ (ev : ErrVars) (fe : FuzzErrs) (w : PlanWorld) (q : FuzzSet)
        (fuzz : StagedPlan → Option StagedPlan × Option GoError) (p : StagedPlan),
      w.Check p = none → PlanStage.Plan ∉ p.Metadata.Stages →
      Fuzzer.Run ev fe w q fuzz (some p) = ⟨none, some (w.stageMissing PlanStage.Plan), []⟩) ∧
    Fuzzer.Run exampleErrVars exampleFuzzErrs examplePlanWorld ⟨0, 2, 1⟩ stageBodyOk
      (some planNotPlanned) = ⟨none, some exampleStageMissing, []⟩ := by
  refine ⟨by decide, by decide, ?_, ?_, by decide⟩
  · intro w runInner p hc
    simp only [Compiler.Run, Compiler.checkPlan, hc, StagedPlan.RunStage]
    rcases hr : runInner p with ⟨_ | np, _ | err⟩ <;> simp
  · intro ev fe w q fuzz p hc hs
    simp [Fuzzer.Run, Fuzzer.checkPlan, hc, Metadata.RequireStage, hs]

/-! ## Merging corpora -/

theorem mergeSubjects_eq_addAll (cname : String) :
    ∀ (subs : List (String × Subject)) (result : Corpus),
      mergeSubjects cname subs result
        = Corpus.addAll (subs.map (fun p => (MergedName cname p.1, p.2))) result := by
  intro subs
  induction subs with
  | nil => intro result; rfl
  | cons p rest ih =>
    intro result
    obtain ⟨sname, s⟩ := p
    simp only [mergeSubjects, List.map_cons, Corpus.addAll]
    cases Corpus.Add result (MergedName cname sname, s) with
    | error err => rfl
    | ok r1 => exact ih r1

theorem addAll_append (a b : List (String × Subject)) :
    ∀ c : Corpus, Corpus.addAll (a ++ b) c =
      match Corpus.addAll a c with
      | Except.error err => Except.error err
      | Except.ok c1 => Corpus.addAll b c1 := by
  induction a with
  | nil => intro c; rfl
  | cons n rest ih =>
    intro c
    simp only [List.cons_append, Corpus.addAll]
    cases Corpus.Add c n with
    | error err => rfl
    | ok c1 => exact ih c1

theorem actuallyMergeLoop_eq_addAll :
    ∀ (corpora : List (String × Corpus)) (result : Corpus),
      actuallyMergeLoop corpora result = Corpus.addAll (mergedPairs corpora) result := by
  intro corpora
  induction corpora with
  | nil => intro result; rfl
  | cons cc rest ih =>
    intro result
    obtain ⟨cname, c⟩ := cc
    simp only [actuallyMergeLoop, mergedPairs, List.flatMap_cons]
    rw [addAll_append, mergeSubjects_eq_addAll]
    cases Corpus.addAll (c.map (fun p => (MergedName cname p.1, p.2))) result with
    | error err => rfl
    | ok r1 => exact ih r1

/-- Subjects under names that are new and distinct are all added, in order. -/
theorem addAll_of_nodup :
    ∀ (ps : List (String × Subject)) (c : Corpus), ((c ++ ps).map Prod.fst).Nodup →
      Corpus.addAll ps c = Except.ok (c ++ ps) := by
  intro ps
  induction ps with
  | nil => intro c _; simp [Corpus.addAll]
  | cons n rest ih =>
    intro c h
    have hn : n.1 ∉ c.map Prod.fst := by
      intro hmem
      rw [List.map_append, List.map_cons] at h
      exact (List.nodup_append.mp h).2.2 hmem (List.mem_cons_self _ _)
    simp only [Corpus.addAll, Corpus.Add, if_neg hn]
    rw [ih (c ++ [n]) (by simpa using h)]
    simp

/-- A name that comes twice stops the additions with the error of a
duplicate. -/
theorem addAll_of_dup :
    ∀ (ps : List (String × Subject)) (c : Corpus), (c.map Prod.fst).Nodup →
      ¬ ((c ++ ps).map Prod.fst).Nodup →
      ∃ err, Corpus.addAll ps c = Except.error err ∧ err.Is ErrCorpusDup = true := by
  intro ps
  induction ps with
  | nil => intro c h1 h2; simp at h2; exact absurd h1 h2
  | cons n rest ih =>
    intro c h1 h2
    by_cases hn : n.1 ∈ c.map Prod.fst
    · refine ⟨GoError.errorf "" ErrCorpusDup (": " ++ n.1), ?_, ?_⟩
      · simp only [Corpus.addAll, Corpus.Add, if_pos hn]
      · simp [GoError.Is, ErrCorpusDup]
    · simp only [Corpus.addAll, Corpus.Add, if_neg hn]
      apply ih (c ++ [n])
      · rw [List.map_append]
        refine List.nodup_append.mpr ⟨h1, by simp, ?_⟩
        intro x hx hx2
        simp only [List.map_cons, List.map_nil, List.mem_singleton] at hx2
        rw [hx2] at hx
        exact hn hx
      · simpa using h2

theorem mergedPairs_length (corpora : List (String × Corpus)) :
    (mergedPairs corpora).length = (corpora.map (fun cc => cc.2.length)).sum := by
  induction corpora with
  | nil => rfl
  | cons cc rest ih =>
    simp only [mergedPairs, List.flatMap_cons, List.length_append, List.length_map,
      List.map_cons, List.sum_cons] at ih ⊢
    rw [ih]

/-- C27, as the claim has it, fails: the subject `b/c` of the corpus `a` and
the subject `c` of the corpus `a/b` have the same merged name `a/b/c`, and
`Merge` on these two corpora returns the duplicate error and no corpus. -/
theorem merge_fails_on_colliding_names :
    2 ≤ collidingCorpora.length ∧
    MergedName "a" "b/c" = "a/b/c" ∧ MergedName "a/b" "c" = "a/b/c" ∧
    Merge collidingCorpora
      = (none, some (GoError.errorf "" ErrCorpusDup ": a/b/c")) := by
  decide

/-- C27, amended: for two or more named corpora, when no two pairs of a
corpus name `c` and a subject name `s` have the same merged name, `Merge`
succeeds and returns a corpus that holds one subject for each pair, stored
under `MergedName(c, s)`, so that its size is the sum of the sizes of the
corpora; when two pairs have the same merged name it returns the duplicate
error of `Add` and no corpus. The merged name is `c/s` when neither name is
empty. -/
theorem merge_spec (corpora : List (String × Corpus)) (h2 : 2 ≤ corpora.length) :
    (((mergedPairs corpora).map Prod.fst).Nodup →
      Merge corpora = (some (mergedPairs corpora), none) ∧
      (mergedPairs corpora).length = (corpora.map (fun cc => cc.2.length)).sum) ∧
    (¬ ((mergedPairs corpora).map Prod.fst).Nodup →
      ∃ err, Merge corpora = (none, some err) ∧ err.Is ErrCorpusDup = true) ∧
    (∀ c s : String, c ≠ "" → s ≠ "" → MergedName c s = c ++ "/" ++ s) := by
  have hM : Merge corpora = actuallyMerge corpora := by
    unfold Merge
    rw [if_neg (by omega), if_neg (by omega)]
  refine ⟨?_, ?_, ?_⟩
  · intro hnd
    refine ⟨?_, mergedPairs_length corpora⟩
    rw [hM, actuallyMerge, actuallyMergeLoop_eq_addAll,
      addAll_of_nodup (mergedPairs corpora) [] (by simpa using hnd)]
    simp
  · intro hd
    obtain ⟨err, he, hi⟩ := addAll_of_dup (mergedPairs corpora) [] (by simp) (by simpa using hd)
    refine ⟨err, ?_, hi⟩
    rw [hM, actuallyMerge, actuallyMergeLoop_eq_addAll, he]
  · intro c s hc hs
    simp [MergedName, JoinNonEmpty, hc, hs, List.filter, String.intercalate,
      String.intercalate.go]

/-- C27, amended, on two corpora of three subjects in all. -/
theorem merge_spec_witness :
    Merge distinctCorpora
      = (some [("a/x", subjectAt "1.litmus"), ("a/y", subjectAt "2.litmus"),
          ("b/x", subjectAt "3.litmus")], none) ∧
    (mergedPairs distinctCorpora).length = 3 :=
  have h := (merge_spec distinctCorpora (by decide)).1 (by decide)
  ⟨h.1, h.2⟩

/-! ## Overriding quantities -/

/-- C28: `Override` sets each quantity of the receiver to the value in `new`
when that value is not zero and leaves it when it is zero; so overriding by
the zero set changes nothing, and overriding the zero set by `new` gives
`new`. -/
theorem override_spec (q new : QuantitySet) :
    (q.Override new).CorpusSize = (if new.CorpusSize ≠ 0 then new.CorpusSize else q.CorpusSize) ∧
    (q.Override new).SubjectCycles
      = (if new.SubjectCycles ≠ 0 then new.SubjectCycles else q.SubjectCycles) ∧
    q.Override ⟨0, 0⟩ = q ∧
    QuantitySet.Override ⟨0, 0⟩ new = new := by
  obtain ⟨a, b⟩ := q
  obtain ⟨c, d⟩ := new
  have hr : List.range QuantitySet.NumField = [0, 1] := by decide
  refine ⟨?_, ?_, ?_, ?_⟩
  · simp only [QuantitySet.Override, hr, List.foldl, QuantitySet.Field]
    by_cases hc : c = 0 <;> by_cases hd : d = 0 <;> simp [hc, hd, QuantitySet.SetInt]
  · simp only [QuantitySet.Override, hr, List.foldl, QuantitySet.Field]
    by_cases hc : c = 0 <;> by_cases hd : d = 0 <;> simp [hc, hd, QuantitySet.SetInt]
  · simp [QuantitySet.Override, hr, List.foldl, QuantitySet.Field]
  · simp only [QuantitySet.Override, hr, List.foldl, QuantitySet.Field]
    by_cases hc : c = 0 <;> by_cases hd : d = 0 <;> simp [hc, hd, QuantitySet.SetInt]

/-! ## The seeds of the subjects -/

/-- C29, on the code: the seed of a subject depends on the order in which
`range` visits the corpus. For the plan seed 1 and the corpus of the
subjects `a` and `b`, `corpusSeeds` gives `a` the first draw of the generator
when `a` is visited first and the second when `b` is; and for every
generator whose first two draws differ and every two names, the two orders
give the first name two seeds. -/
theorem corpusSeeds_depends_on_order :
    seedGet (corpusSeeds drawsOfSeedOne ["a", "b"]) "a" = 5577006791947779410 ∧
    seedGet (corpusSeeds drawsOfSeedOne ["b", "a"]) "a" = 8674665223082153551 ∧
    (∀ (draws : Nat → Int) (a b : String), a ≠ b → draws 0 ≠ draws 1 →
      seedGet (corpusSeeds draws [a, b]) a = draws 0 ∧
      seedGet (corpusSeeds draws [b, a]) a = draws 1 ∧
      seedGet (corpusSeeds draws [a, b]) a ≠ seedGet (corpusSeeds draws [b, a]) a) := by
  refine ⟨by decide, by decide, ?_⟩
  intro draws a b hab hd
  have hba : b ≠ a := fun h => hab h.symm
  have h1 : seedGet (corpusSeeds draws [a, b]) a = draws 0 := by
    simp [corpusSeeds, corpusSeedsLoop, seedSet, seedGet, hab, hba, List.find?]
  have h2 : seedGet (corpusSeeds draws [b, a]) a = draws 1 := by
    simp [corpusSeeds, corpusSeedsLoop, seedSet, seedGet, hab, hba, List.find?]
  exact ⟨h1, h2, by rw [h1, h2]; exact hd⟩

/-! ## The coverage testbed maker -/

theorem prepareBuckets_ok (w : MakerWorld) (m : Maker) (pname : String)
    (hd : ∀ done dir, w.MakeDir done dir = none) :
    ∀ (buckets : List (String × Int)) (done : List String),
      (Maker.prepareBuckets w m pname buckets done).2 = none := by
  intro buckets
  induction buckets with
  | nil => intro done; rfl
  | cons b rest ih =>
    intro done
    obtain ⟨suffix, n⟩ := b
    simp only [Maker.prepareBuckets, hd]
    exact ih _

theorem prepareProfiles_ok (w : MakerWorld) (m : Maker) (buckets : List (String × Int))
    (hd : ∀ done dir, w.MakeDir done dir = none) :
    ∀ (profiles done : List String),
      (Maker.prepareProfiles w m buckets profiles done).2 = none := by
  intro profiles
  induction profiles with
  | nil => intro done; rfl
  | cons pname rest ih =>
    intro done
    simp only [Maker.prepareProfiles]
    have h := prepareBuckets_ok w m pname hd buckets done
    rcases hq : Maker.prepareBuckets w m pname buckets done with ⟨d1, _ | err⟩
    · exact ih d1
    · rw [hq] at h
      cases h

/-- C30, on the code: `Maker.Run` never returns the plan. With two buckets,
one profile and every directory made, it asks for the two directories and
returns the nil plan with a nil error; for every world and maker the plan it
returns is nil, and when the bucket calculation succeeds and every directory
is made the error is nil as well. -/
theorem maker_run_returns_no_plan :
    Maker.Run exampleMakerWorld exampleMaker (some examplePlanOne)
      = ⟨none, none, ["cov/gcc/1", "cov/gcc/2"]⟩ ∧
    (∀ (w : MakerWorld) (m : Maker) (p : Option Plan), (Maker.Run w m p).plan = none) ∧
    (∀ (w : MakerWorld) (m : Maker) (p : Option Plan), w.Buckets ≠ none →
      (∀ done dir, w.MakeDir done dir = none) →
      (Maker.Run w m p).plan = none ∧ (Maker.Run w m p).err = none) := by
  have hplan : ∀ (w : MakerWorld) (m : Maker) (p : Option Plan),
      (Maker.Run w m p).plan = none := by
    intro w m p
    unfold Maker.Run
    cases w.Buckets with
    | none => rfl
    | some buckets => simp
  refine ⟨by decide, hplan, ?_⟩
  intro w m p hb hd
  refine ⟨hplan w m p, ?_⟩
  unfold Maker.Run
  cases hB : w.Buckets with
  | none => exact absurd hB hb
  | some buckets =>
    simp only [Maker.prepare]
    have h := prepareProfiles_ok w m buckets hd m.profiles []
    simp [h]

/-! ## Cycle counts beyond the range of `int` -/

/-- C20, as the claim has it, fails: with `2 ^ 62 + 1` subject cycles, which
pass the check of the fuzzer, and a corpus of four subjects, which passes
`checkCount`, the product goes round in `int` and the fuzz stage asks the
builder for 4 requests, not for `4 * (2 ^ 62 + 1)`. -/
theorem fuzz_manifest_wraps_for_huge_cycles :
    Fuzzer.check exampleErrVars exampleFuzzErrs ⟨some (), some (), hugeCyclesPlusOne⟩ = none ∧
    Fuzzer.checkCount exampleErrVars exampleFuzzErrs hugeCyclesPlusOne corpusOfFour = none ∧
    corpusOfFour.length = 4 ∧
    (Fuzzer.fuzzCorpusManifest hugeCyclesPlusOne corpusOfFour).NReqs = 4 ∧
    (Fuzzer.fuzzCorpusManifest hugeCyclesPlusOne corpusOfFour).NReqs
      ≠ (corpusOfFour.length : Int) * hugeCyclesPlusOne.SubjectCycles := by
  decide

/-- C21, on the code: with `2 ^ 62` subject cycles, which pass the check of
the fuzzer, no corpus size requirement and a corpus of two subjects, the
product `nruns` goes round in `int` to `-2 ^ 63`, which is below the corpus
size 0, and `checkCount` returns an error that wraps `ErrSmall`. -/
theorem checkCount_small_without_size_requirement :
    Fuzzer.check exampleErrVars exampleFuzzErrs ⟨some (), some (), hugeCycles⟩ = none ∧
    hugeCycles.CorpusSize = 0 ∧ corpusOfTwo.length = 2 ∧
    (Fuzzer.count hugeCycles corpusOfTwo).2 = -2 ^ 63 ∧
    Fuzzer.checkCount exampleErrVars exampleFuzzErrs hugeCycles corpusOfTwo
      = some (GoError.errorf "" exampleFuzzErrs.ErrSmall
          ": projected corpus size -9223372036854775808, want 0") ∧
    (GoError.errorf "" exampleFuzzErrs.ErrSmall
      ": projected corpus size -9223372036854775808, want 0").Is exampleFuzzErrs.ErrSmall
        = true := by
  decide

end ActTester
